import Mathlib

/-!
# GPS sentence decoding of Merkaartor (src/GPS/qgpsdevice.cpp)

A shallow embedding of the NMEA decoders of `QGPSDevice` and of the
state they write.

Conventions of the embedding.

* A `QString` / `QByteArray` / `const char*` text is a `List Char`.
* `qreal` is modelled by `ℚ`: a double is the rational number it stands for
  (no NaN, no infinity).  `toDouble` reads a decimal numeral exactly and the
  position arithmetic of the decoders is exact.  Where a result of the code
  turns on the rounding of doubles (the speed of `parseRMC`, the degree,
  minute and second accessors, the conversions to `int` and to `float`), the
  rounding is applied with `toBinary64` and `toBinary32`.
* `int` values are plain `Int`; they come out of `QString::toInt`, which
  yields a value in the 32-bit range or 0, or out of a conversion `int(x)` of
  a double, which is undefined outside that range and ends the run in a fault.
* An access the C++ leaves undefined (`QList::operator[]` past the end of the
  token list, `satArray[prn]` with `prn` outside `0..49`) ends the run in
  `Run.fault`, which carries the state reached when the access happened.
-/

namespace Merkaartor

/-! ## Text -/

/-- Text as Qt sees it: a sequence of characters. -/
abbrev QString := List Char

/-- The characters of a string literal. -/
def qs (s : String) : QString := s.toList

/-- `QString::count(QChar)`: the number of occurrences of a character. -/
def countChar (c : Char) : QString → Nat
  | [] => 0
  | x :: xs => (if x = c then 1 else 0) + countChar c xs

/-- `QString::contains(QChar)`. -/
def containsChar (c : Char) (s : QString) : Bool := decide (0 < countChar c s)

/-- `QString::split(sep)` with the default `KeepEmptyParts`: the pieces
between separators, empty pieces included; the empty text gives one empty
piece. -/
def split (sep : Char) : QString → List QString
  | [] => [[]]
  | c :: cs =>
    if c = sep then [] :: split sep cs
    else
      match split sep cs with
      | [] => [[c]]
      | t :: ts => (c :: t) :: ts

/-- `QString::left(n)`. -/
def left (n : Nat) (s : QString) : QString := s.take n

/-- `QString::mid(n)`: everything from position `n` on. -/
def mid (n : Nat) (s : QString) : QString := s.drop n

/-- `QChar::isSpace` on the ASCII range: space, tab, LF, VT, FF, CR. -/
def isSpace (c : Char) : Bool :=
  c.toNat = 32 || (9 ≤ c.toNat && c.toNat ≤ 13)

/-- `QString::trimmed()`: white space removed from both ends. -/
def trimmed (s : QString) : QString :=
  ((s.dropWhile isSpace).reverse.dropWhile isSpace).reverse

/-- The value of a decimal digit character. -/
def digitVal (c : Char) : Option Nat :=
  if 48 ≤ c.toNat ∧ c.toNat ≤ 57 then some (c.toNat - 48) else none

/-- The value of a run of decimal digits read after the accumulator `acc`;
`none` when a character is not a digit. -/
def digitsFrom (acc : Nat) : QString → Option Nat
  | [] => some acc
  | c :: cs =>
    match digitVal c with
    | none => none
    | some v => digitsFrom (10 * acc + v) cs

/-- The value of a non-empty run of decimal digits. -/
def digitsVal (s : QString) : Option Nat :=
  match s with
  | [] => none
  | _ :: _ => digitsFrom 0 s

/-- Splits an optional leading sign off: `true` for a minus sign. -/
def takeSign : QString → Bool × QString
  | '-' :: r => (true, r)
  | '+' :: r => (false, r)
  | r => (false, r)

/-- `QString::toInt(&ok)` in base 10: surrounding white space is dropped, an
optional sign and a non-empty run of digits are read, and the value has to
fit a 32-bit `int`.  `none` is `ok == false`. -/
def toIntOk (s : QString) : Option Int :=
  match takeSign (trimmed s) with
  | (neg, body) =>
    match digitsVal body with
    | none => none
    | some n =>
      let v : Int := if neg then -(n : Int) else (n : Int)
      if -2147483648 ≤ v ∧ v ≤ 2147483647 then some v else none

/-- `QString::toInt()`: the integer value, 0 when the text is not an
integer. -/
def toInt (s : QString) : Int := (toIntOk s).getD 0

/-- Splits the longest leading run of decimal digits off. -/
def spanDigits : QString → QString × QString
  | [] => ([], [])
  | c :: cs =>
    match digitVal c with
    | none => ([], c :: cs)
    | some _ => ((spanDigits cs).1.cons c, (spanDigits cs).2)

/-- The exponent part of a decimal numeral: nothing, or `e` / `E`, an
optional sign and a non-empty run of digits.  `none` when the text is
neither. -/
def exponentOk : QString → Option Int
  | [] => some 0
  | c :: r =>
    if c = 'e' ∨ c = 'E' then
      match takeSign r with
      | (eneg, eb) =>
        match digitsVal eb with
        | none => none
        | some k => some (if eneg then -(k : Int) else (k : Int))
    else none

/-- A decimal numeral as read: sign, integer digits, fraction digits with
their number, and the exponent of ten. -/
structure Decimal where
  neg : Bool
  ipart : Nat
  fpart : Nat
  fdigits : Nat
  exp : Int
  deriving DecidableEq, Repr

/-- The exact value of a decimal numeral. -/
def Decimal.value (x : Decimal) : ℚ :=
  let mant : ℚ := (x.ipart : ℚ) + (x.fpart : ℚ) / 10 ^ x.fdigits
  let scaled : ℚ := if x.exp < 0 then mant / 10 ^ x.exp.natAbs else mant * 10 ^ x.exp.natAbs
  if x.neg then -scaled else scaled

/-- The reading stage of `QString::toDouble(&ok)` on decimal numerals:
surrounding white space is dropped; an optional sign, digits with an optional
fraction (a digit on at least one side of the point) and an optional exponent
are read.  `none` is `ok == false`.  The texts `nan` and `inf`, which have no
rational value, are outside the model and count as unreadable. -/
def readDecimal (s : QString) : Option Decimal :=
  match takeSign (trimmed s) with
  | (neg, body) =>
    let ip := (spanDigits body).1
    let r1 := (spanDigits body).2
    let fp := match r1 with
      | '.' :: r => (spanDigits r).1
      | _ => []
    let r2 := match r1 with
      | '.' :: r => (spanDigits r).2
      | r => r
    if ip = [] ∧ fp = [] then none
    else
      match exponentOk r2 with
      | none => none
      | some e => some ⟨neg, (digitsFrom 0 ip).getD 0, (digitsFrom 0 fp).getD 0, fp.length, e⟩

/-- `QString::toDouble(&ok)`: the exact value of the numeral read. -/
def toDoubleOk (s : QString) : Option ℚ := (readDecimal s).map Decimal.value

/-- `QString::toDouble()`: the value of the numeral read, exactly; 0 when the
text is not a number.  The double the call returns is `toDoubleRounded`. -/
def toDouble (s : QString) : ℚ := (toDoubleOk s).getD 0

/-- The character of a decimal digit. -/
def digitChar (v : Nat) : Char := Char.ofNat (48 + v % 10)

/-- The decimal digits of `n` put in front of `acc`, most significant
first; `fuel` bounds the number of digits. -/
def natDigitsAux : Nat → Nat → QString → QString
  | 0, _, acc => acc
  | fuel + 1, n, acc =>
    if n / 10 = 0 then digitChar n :: acc
    else natDigitsAux fuel (n / 10) (digitChar n :: acc)

/-- The decimal numeral of a natural number. -/
def natDigits (n : Nat) : QString := natDigitsAux (n + 1) n []

/-- The non-negative rational `p / q` rounded to the nearest integer, a tie
going to the even neighbour. -/
def roundHalfEven (p q : Nat) : Nat :=
  let f := p / q
  let r := p % q
  if 2 * r < q then f
  else if q < 2 * r then f + 1
  else if f % 2 = 0 then f else f + 1

/-- The non-negative rational `p / q` rounded to the nearest integer, a tie
going up. -/
def roundHalfUp (p q : Nat) : Nat := (2 * p + q) / (2 * q)

/-- The exponent of the unit in the last place at the magnitude `a` in the
binary format with `prec` significand bits and least exponent `emin`. -/
def ulpExp (prec : Nat) (emin : Int) (a : ℚ) : Int :=
  max (Int.log 2 a - ((prec : Int) - 1)) emin

/-- Rounding to the nearest number of the binary format with `prec`
significand bits and least exponent `emin`, a tie going to the even
significand.  There is no largest number: the overflow to infinity is not
modelled. -/
def roundBinary (prec : Nat) (emin : Int) (x : ℚ) : ℚ :=
  let e := ulpExp prec emin |x|
  let n := roundHalfEven (|x| / (2 : ℚ) ^ e).num.natAbs (|x| / (2 : ℚ) ^ e).den
  if x < 0 then -((n : ℚ) * (2 : ℚ) ^ e) else (n : ℚ) * (2 : ℚ) ^ e

/-- The `double` nearest to a number (IEEE 754 binary64, round to nearest,
ties to even): what an arithmetic operation on doubles gives for its exact
result. -/
def toBinary64 (x : ℚ) : ℚ := roundBinary 53 (-1074) x

/-- The `float` nearest to a number (IEEE 754 binary32). -/
def toBinary32 (x : ℚ) : ℚ := roundBinary 24 (-149) x

/-- `QString::toDouble()` as the double it returns: the double nearest to the
value of the numeral read. -/
def toDoubleRounded (s : QString) : ℚ := toBinary64 (toDouble s)

/-- `QString::toFloat()`: the double read, narrowed to `float`. -/
def toFloat (s : QString) : ℚ := toBinary32 (toDoubleRounded s)

/-- Whether `QString::toDouble` reads the text as a NaN or an infinity: with
the white space around it dropped and its letters in lower case, the text is
`nan`, `inf`, `+inf` or `-inf`. -/
def nonFinite (s : QString) : Bool :=
  (trimmed s).map Char.toLower = qs "nan" || (trimmed s).map Char.toLower = qs "inf" ||
    (trimmed s).map Char.toLower = qs "+inf" || (trimmed s).map Char.toLower = qs "-inf"

/-- The number of tenths nearest to `|x|`, a tie going up. -/
def tenths (x : ℚ) : Nat := roundHalfUp ((|x| * 10).num.natAbs) ((|x| * 10).den)

/-- `QString::number(x, 'f', 1)`: fixed notation with one digit after the
point, the value of the double rounded to the nearest tenth.  A tie, which
takes a double that is an odd multiple of 1/20, goes away from zero, as the
conversion library of Qt 5 does; a Qt that formats through the C library
rounds such a tie to the even digit. -/
def numberF1 (x : ℚ) : QString :=
  (if x < 0 then ['-'] else []) ++ natDigits (tenths x / 10) ++ ['.'] ++ [digitChar (tenths x % 10)]

/-! ## The state written by the decoders -/

/-- `QGPSDevice::FixStatus`. -/
inductive FixStatus where
  | StatusActive
  | StatusVoid
  deriving DecidableEq, Repr

/-- `QGPSDevice::FixType`. -/
inductive FixType where
  | FixUnavailable
  | FixInvalid
  | Fix2D
  | Fix3D
  deriving DecidableEq, Repr

/-- `QGPSDevice::FixMode`. -/
inductive FixMode where
  | FixAuto
  | FixManual
  deriving DecidableEq, Repr

/-- `QGPSDevice::CardinalDirection`. -/
inductive CardinalDirection where
  | CardinalNorth
  | CardinalSouth
  | CardinalEast
  | CardinalWest
  | CardinalNone
  deriving DecidableEq, Repr

/-- One row `satArray[prn]`: elevation, azimuth, signal-to-noise ratio. -/
structure SatEntry where
  elev : Int
  azim : Int
  snr : Int
  deriving DecidableEq, Repr

/-- A calendar date as `QDate` holds it. -/
structure QDate where
  year : Int
  month : Nat
  day : Nat
  deriving DecidableEq, Repr

/-- A time of day as `QTime` holds it. -/
structure QTime where
  hour : Nat
  minute : Nat
  second : Nat
  msec : Nat
  deriving DecidableEq, Repr

/-- A `QDateTime`; `none` is the invalid date-time. -/
abbrev QDateTime := Option (QDate × QTime)

/-- The data members of `QGPSDevice` that the decoders write, and the hold
count of its recursive mutex. -/
structure Device where
  cur_latitude : ℚ
  cur_longitude : ℚ
  cur_altitude : ℚ
  cur_heading : ℚ
  cur_speed : ℚ
  cur_variation : ℚ
  cur_dillution : ℚ
  cur_fixquality : Int
  cur_numSatellites : Int
  cur_fixmode : FixMode
  cur_fixtype : FixType
  cur_fixstatus : FixStatus
  cur_latCardinal : CardinalDirection
  cur_longCardinal : CardinalDirection
  cur_varCardinal : CardinalDirection
  cur_datetime : QDateTime
  satArray : Fin 50 → SatEntry
  activeSats : Fin 12 → Int
  lockDepth : Nat

/-- The state the constructor `QGPSDevice::QGPSDevice()` leaves: position,
altitude, heading, speed and variation 0, mode Auto, type Unavailable, status
Void, no satellites, a zeroed table, an invalid date-time, the mutex free.
The members the constructor does not assign (dilution, fix quality, the
cardinals, the active set) are given 0 and `CardinalNone` here. -/
def Device.init : Device where
  cur_latitude := 0
  cur_longitude := 0
  cur_altitude := 0
  cur_heading := 0
  cur_speed := 0
  cur_variation := 0
  cur_dillution := 0
  cur_fixquality := 0
  cur_numSatellites := 0
  cur_fixmode := FixMode.FixAuto
  cur_fixtype := FixType.FixUnavailable
  cur_fixstatus := FixStatus.StatusVoid
  cur_latCardinal := CardinalDirection.CardinalNone
  cur_longCardinal := CardinalDirection.CardinalNone
  cur_varCardinal := CardinalDirection.CardinalNone
  cur_datetime := none
  satArray := fun _ => ⟨0, 0, 0⟩
  activeSats := fun _ => 0
  lockDepth := 0

/-! ## Dates -/

/-- `QDate::isLeapYear`. -/
def isLeapYear (y : Int) : Bool :=
  let y1 := if y < 1 then y + 1 else y
  (y1 % 4 = 0 && y1 % 100 != 0) || y1 % 400 = 0

/-- `QDate::daysInMonth` for a given year and month; 0 for no month. -/
def daysInMonth (y : Int) (m : Nat) : Nat :=
  if m = 2 then (if isLeapYear y then 29 else 28)
  else if m = 4 ∨ m = 6 ∨ m = 9 ∨ m = 11 then 30
  else if 1 ≤ m ∧ m ≤ 12 then 31
  else 0

/-- The value of a two-digit field. -/
def twoDigits (a b : Char) : Option Nat := digitsFrom 0 [a, b]

/-- `QDateTime::fromString(s, "ddMMyyHHmmss.zzz")`: the text has to be
exactly two digits each of day, month, year, hour, minute and second, a point
and three digits of milliseconds, naming an existing calendar day and time of
day; a two-digit year `yy` stands for `19yy`.  Any other text gives the
invalid date-time. -/
def fromString (s : QString) : QDateTime :=
  match s with
  | [d1, d2, M1, M2, y1, y2, H1, H2, m1, m2, s1, s2, dot, z1, z2, z3] =>
    match twoDigits d1 d2, twoDigits M1 M2, twoDigits y1 y2, twoDigits H1 H2,
      twoDigits m1 m2, twoDigits s1 s2, digitsFrom 0 [z1, z2, z3] with
    | some dd, some mo, some yy, some hh, some mi, some ss, some zzz =>
      let year : Int := 1900 + (yy : Int)
      if dot = '.' ∧ 1 ≤ dd ∧ dd ≤ daysInMonth year mo ∧ hh ≤ 23 ∧ mi ≤ 59 ∧ ss ≤ 59 then
        some (⟨year, mo, dd⟩, ⟨hh, mi, ss, zzz⟩)
      else none
    | _, _, _, _, _, _, _ => none
  | _ => none

/-- `QDate::year()`: 0 for an invalid date. -/
def yearOf (dt : QDateTime) : Int :=
  match dt with
  | some (date, _) => date.year
  | none => 0

/-- `QDateTime::addYears(n)`: the year moves by `n` (skipping the missing
year 0), the day is cut back to the length of the month, the time of day
stays; the invalid date-time stays invalid. -/
def addYears (dt : QDateTime) (n : Int) : QDateTime :=
  match dt with
  | none => none
  | some (date, time) =>
    let y0 := date.year + n
    let y :=
      if (date.year > 0 ∧ y0 ≤ 0) ∨ (date.year < 0 ∧ y0 ≥ 0) then
        (if n > 0 then y0 + 1 else y0 - 1)
      else y0
    some (⟨y, date.month, min date.day (daysInMonth y date.month)⟩, time)

/-! ## Runs of a decoder -/

/-- How a member function ends: it returns a value in a state, or it performs
an access the language leaves undefined, in the state reached so far. -/
inductive Run (α : Type) where
  | done (a : α) (d : Device)
  | fault (d : Device)

/-- The state a run ended in. -/
def Run.dev {α : Type} : Run α → Device
  | Run.done _ d => d
  | Run.fault d => d

/-- Whether the run ended in an undefined access. -/
def Run.isFault {α : Type} : Run α → Bool
  | Run.done _ _ => false
  | Run.fault _ => true

/-- The value a run returned, if it returned. -/
def Run.value {α : Type} : Run α → Option α
  | Run.done a _ => some a
  | Run.fault _ => none

/-- A statement sequence acting on the device. -/
abbrev Op (α : Type) := Device → Run α

/-- Return a value, state untouched. -/
def Op.pure {α : Type} (a : α) : Op α := fun d => Run.done a d

/-- Sequencing: a fault ends the sequence. -/
def Op.bind {α β : Type} (m : Op α) (f : α → Op β) : Op β := fun d =>
  match m d with
  | Run.done a d1 => f a d1
  | Run.fault d1 => Run.fault d1

instance : Monad Op where
  pure := Op.pure
  bind := Op.bind

/-- A write to the state. -/
def modify (f : Device → Device) : Op Unit := fun d => Run.done () (f d)

/-- Reads the current state. -/
def getDevice : Op Device := fun d => Run.done d d

/-- `tokens[i]` on a `QStringList`: defined only for `i < tokens.size()`. -/
def tokenAt (tokens : List QString) (i : Nat) : Op QString := fun d =>
  match tokens.get? i with
  | some t => Run.done t d
  | none => Run.fault d

/-- `mutex->lock()` on the recursive mutex, by the decoding thread. -/
def mutexLock : Op Unit := modify fun d => { d with lockDepth := d.lockDepth + 1 }

/-- `mutex->unlock()`. -/
def mutexUnlock : Op Unit := modify fun d => { d with lockDepth := d.lockDepth - 1 }

/-- The row index of `satArray` for a PRN, when the PRN is one of the 50
rows. -/
def satIndex (prn : Int) : Option (Fin 50) :=
  if h : 0 ≤ prn ∧ prn < 50 then some ⟨prn.toNat, by omega⟩ else none

/-- `satArray[prn][col] = v` for `col` 0, 1, 2: defined only for a row
inside the array. -/
def satStore (prn : Int) (col : Fin 3) (v : Int) : Op Unit := fun d =>
  match satIndex prn with
  | none => Run.fault d
  | some i =>
    let e := d.satArray i
    let e1 : SatEntry :=
      match col with
      | 0 => { e with elev := v }
      | 1 => { e with azim := v }
      | 2 => { e with snr := v }
    Run.done () { d with satArray := Function.update d.satArray i e1 }

/-! ## Setters

The setters are inline members declared in qgpsdevice.h, which is not among
the sources. -/

/-- Modelled from the spec: the mutator `setAltitude` (qgpsdevice.h is not
among the sources); it stores its argument in the altitude of the fix state
store. -/
def setAltitude (v : ℚ) : Op Unit := modify fun d => { d with cur_altitude := v }

/-- Modelled from the spec: the mutator `setHeading` (qgpsdevice.h is not
among the sources); it stores its argument in the heading. -/
def setHeading (v : ℚ) : Op Unit := modify fun d => { d with cur_heading := v }

/-- Modelled from the spec: the mutator `setSpeed` (qgpsdevice.h is not among
the sources); it stores its argument in the speed. -/
def setSpeed (v : ℚ) : Op Unit := modify fun d => { d with cur_speed := v }

/-- Modelled from the spec: the mutator `setVariation` (qgpsdevice.h is not
among the sources); it stores its argument in the magnetic variation. -/
def setVariation (v : ℚ) : Op Unit := modify fun d => { d with cur_variation := v }

/-- Modelled from the spec: the mutator `setDillution` (qgpsdevice.h is not
among the sources); it stores its argument in the dilution of precision. -/
def setDillution (v : ℚ) : Op Unit := modify fun d => { d with cur_dillution := v }

/-- Modelled from the spec: the mutator `setFixQuality` (qgpsdevice.h is not
among the sources); it stores its argument in the fix quality. -/
def setFixQuality (v : Int) : Op Unit := modify fun d => { d with cur_fixquality := v }

/-- Modelled from the spec: the mutator `setNumSatellites` (qgpsdevice.h is
not among the sources); it stores its argument in the satellite count. -/
def setNumSatellites (v : Int) : Op Unit := modify fun d => { d with cur_numSatellites := v }

/-- Modelled from the spec: the mutator `setFixMode` (qgpsdevice.h is not
among the sources); it stores its argument in the fix mode. -/
def setFixMode (v : FixMode) : Op Unit := modify fun d => { d with cur_fixmode := v }

/-- Modelled from the spec: the mutator `setFixType` (qgpsdevice.h is not
among the sources); it stores its argument in the fix type. -/
def setFixType (v : FixType) : Op Unit := modify fun d => { d with cur_fixtype := v }

/-- Modelled from the spec: the mutator `setFixStatus` (qgpsdevice.h is not
among the sources); it stores its argument in the fix status. -/
def setFixStatus (v : FixStatus) : Op Unit := modify fun d => { d with cur_fixstatus := v }

/-- Modelled from the spec: the mutator `setLatCardinal` (qgpsdevice.h is not
among the sources); it stores its argument in the latitude's cardinal
annotation. -/
def setLatCardinal (v : CardinalDirection) : Op Unit :=
  modify fun d => { d with cur_latCardinal := v }

/-- Modelled from the spec: the mutator `setVarCardinal` (qgpsdevice.h is not
among the sources); it stores its argument in the variation's cardinal
annotation. -/
def setVarCardinal (v : CardinalDirection) : Op Unit :=
  modify fun d => { d with cur_varCardinal := v }

/-- The cardinal a hemisphere field names by its first character, for a
latitude: `N`, `S`, anything else. -/
def latCardinalOf (c : Char) : CardinalDirection :=
  if c = 'N' then CardinalDirection.CardinalNorth
  else if c = 'S' then CardinalDirection.CardinalSouth
  else CardinalDirection.CardinalNone

/-- The cardinal a hemisphere field names by its first character, for a
longitude or a variation: `E`, `W`, anything else. -/
def lonCardinalOf (c : Char) : CardinalDirection :=
  if c = 'E' then CardinalDirection.CardinalEast
  else if c = 'W' then CardinalDirection.CardinalWest
  else CardinalDirection.CardinalNone

/-- The guarded annotation `if (!tok.isEmpty()) setLatCardinal(...)` of the
decoders: nothing for an empty field, else the cardinal named by the first
character, as picked by `pick`, stored through `setLatCardinal`. -/
def annotateLat (pick : Char → CardinalDirection) (tok : QString) : Op Unit :=
  match tok with
  | [] => pure ()
  | c :: _ => setLatCardinal (pick c)

/-- The guarded annotation `if (!tok.isEmpty()) setVarCardinal(...)` of
`parseRMC`. -/
def annotateVar (tok : QString) : Op Unit :=
  match tok with
  | [] => pure ()
  | c :: _ => setVarCardinal (lonCardinalOf c)

/-! ## parseGGA, parseGLL

In the decoders below a token that the C++ indexes several times is read
once, where it is first indexed: a repeated `tokens[i]` cannot fail once the
first has succeeded. -/

/-- `QGPSDevice::parseGGA`.  The converted latitude and longitude stay in
the locals `lat` and `lon`: the assignments to `cur_latitude` and
`cur_longitude` are commented out in the source. -/
def parseGGA (ggaString : QString) : Op Bool := do
  mutexLock
  let line := ggaString
  if countChar '$' line > 1 then
    return false
  let tokens := split ',' line
  let t2 ← tokenAt tokens 2
  let lat0 := toDouble (left 2 t2)
  let latmin := toDouble (mid 2 t2)
  let lat1 := lat0 + latmin / 60
  let t3 ← tokenAt tokens 3
  let _lat := if t3 ≠ qs "N" then -lat1 else lat1
  annotateLat latCardinalOf t3
  let t4 ← tokenAt tokens 4
  let lon0 := toDouble (left 3 t4)
  let lonmin := toDouble (mid 3 t4)
  let lon1 := lon0 + lonmin / 60
  let t5 ← tokenAt tokens 5
  let _lon := if t5 ≠ qs "E" then -lon1 else lon1
  annotateLat lonCardinalOf t5
  let fix := toInt (← tokenAt tokens 6)
  setFixQuality fix
  let numSat := toInt (← tokenAt tokens 7)
  setNumSatellites numSat
  let dilut := toFloat (← tokenAt tokens 8)
  setDillution dilut
  let altitude := toFloat (← tokenAt tokens 9)
  setAltitude altitude
  mutexUnlock
  return true

/-- `QGPSDevice::parseGLL`.  As in `parseGGA`, the converted latitude and
longitude are not stored. -/
def parseGLL (ggaString : QString) : Op Bool := do
  mutexLock
  let line := ggaString
  if countChar '$' line > 1 then
    return false
  let tokens := split ',' line
  let t1 ← tokenAt tokens 1
  let lat0 := toDouble (left 2 t1)
  let latmin := toDouble (mid 2 t1)
  let lat1 := lat0 + latmin / 60
  let t2 ← tokenAt tokens 2
  let _lat := if t2 ≠ qs "N" then -lat1 else lat1
  annotateLat latCardinalOf t2
  let t3 ← tokenAt tokens 3
  let lon0 := toDouble (left 3 t3)
  let lonmin := toDouble (mid 3 t3)
  let lon1 := lon0 + lonmin / 60
  let t4 ← tokenAt tokens 4
  let _lon := if t4 ≠ qs "E" then -lon1 else lon1
  annotateLat lonCardinalOf t4
  let t6 ← tokenAt tokens 6
  setFixStatus (if t6 = qs "A" then FixStatus.StatusActive else FixStatus.StatusVoid)
  mutexUnlock
  return true

/-! ## parseGSA -/

/-- The loop `for (index = 0; index < 12; index++)` of `parseGSA`, started
at `index`, with `fuel` bounding the iterations left (12 suffice from 0). -/
def gsaLoop (tokens : List QString) : Nat → Nat → Op Unit
  | 0, _ => pure ()
  | fuel + 1, index =>
    if h : index < 12 then do
      let t ← tokenAt tokens (index + 3)
      modify fun d => { d with activeSats := Function.update d.activeSats ⟨index, h⟩ (toInt t) }
      gsaLoop tokens fuel (index + 1)
    else
      pure ()

/-- `QGPSDevice::parseGSA`. -/
def parseGSA (gsaString : QString) : Op Bool := do
  mutexLock
  let line := gsaString
  if countChar '$' line > 1 then
    return false
  let tokens := split ',' line
  let autoSelectFix ← tokenAt tokens 1
  setFixMode (if autoSelectFix = qs "A" then FixMode.FixAuto else FixMode.FixManual)
  let fix := toInt (← tokenAt tokens 2)
  setFixType
    (if fix = 1 then FixType.FixInvalid
     else if fix = 2 then FixType.Fix2D
     else FixType.Fix3D)
  gsaLoop tokens 12 0
  mutexUnlock
  return true

/-! ## parseRMC -/

/-- `QGPSDevice::parseRMC`. -/
def parseRMC (rmcString : QString) : Op Bool := do
  mutexLock
  let line := rmcString
  if countChar '$' line > 1 then
    return false
  let tokens := split ',' line
  let t9 ← tokenAt tokens 9
  let t1 ← tokenAt tokens 1
  let strDate := t9 ++ t1
  modify fun d => { d with cur_datetime := fromString strDate }
  modify fun d =>
    { d with cur_datetime :=
        if yearOf d.cur_datetime < 1970 then addYears d.cur_datetime 100 else d.cur_datetime }
  let t2 ← tokenAt tokens 2
  setFixStatus (if t2 = qs "A" then FixStatus.StatusActive else FixStatus.StatusVoid)
  let t3 ← tokenAt tokens 3
  let lat0 := toDouble (left 2 t3)
  let latmin := toDouble (mid 2 t3)
  let lat1 := lat0 + latmin / 60
  let t4 ← tokenAt tokens 4
  let lat := if t4 ≠ qs "N" then -lat1 else lat1
  modify fun d => { d with cur_latitude := lat }
  annotateLat latCardinalOf t4
  let t5 ← tokenAt tokens 5
  let lon0 := toDouble (left 3 t5)
  let lonmin := toDouble (mid 3 t5)
  let lon1 := lon0 + lonmin / 60
  let t6 ← tokenAt tokens 6
  let lon := if t6 ≠ qs "E" then -lon1 else lon1
  modify fun d => { d with cur_longitude := lon }
  annotateLat lonCardinalOf t6
  let speed := toDoubleRounded
    (numberF1 (toBinary64 (toDoubleRounded (← tokenAt tokens 7) * toBinary64 1.852)))
  setSpeed speed
  let heading := toDouble (← tokenAt tokens 8)
  setHeading heading
  let magvar := toDouble (← tokenAt tokens 10)
  setVariation magvar
  annotateVar (← tokenAt tokens 11)
  mutexUnlock
  return true

/-! ## parseGSV -/

/-- The signal-to-noise field of a tuple: when it contains `*`, the part
in front of the first `*` (`tok2[0]` of the split on `*`), else the whole
field, as an integer. -/
def gsvSnr (t : QString) : Op Int :=
  if containsChar '*' t then do
    let tok2 := split '*' t
    let s0 ← tokenAt tok2 0
    pure (toInt s0)
  else
    pure (toInt t)

/-- The body of the `for` loop of `parseGSV` for one `i`: reads the four
fields of tuple `i` and stores them in row `prn`. -/
def gsvTuple (tokens : List QString) (i : Nat) : Op Unit := do
  let prn := toInt (← tokenAt tokens (i * 4 + 4))
  let elev := toInt (← tokenAt tokens (i * 4 + 4 + 1))
  let azim := toInt (← tokenAt tokens (i * 4 + 4 + 2))
  let t3 ← tokenAt tokens (i * 4 + 4 + 3)
  let snr ← gsvSnr t3
  satStore prn 0 elev
  satStore prn 1 azim
  satStore prn 2 snr

/-- The loop `for (i = 0; i < 4 && i*4+4+3 < tokens.size(); i++)`, started at
`i`, with `fuel` bounding the iterations left (4 suffices from 0). -/
def gsvLoop (tokens : List QString) : Nat → Nat → Op Unit
  | 0, _ => pure ()
  | fuel + 1, i =>
    if i < 4 ∧ i * 4 + 4 + 3 < tokens.length then do
      gsvTuple tokens i
      gsvLoop tokens fuel (i + 1)
    else
      pure ()

/-- `QGPSDevice::parseGSV`. -/
def parseGSV (gsvString : QString) : Op Bool := do
  mutexLock
  let line := gsvString
  if countChar '$' line > 1 then
    return false
  let tokens := split ',' line
  let _totalSentences := toInt (← tokenAt tokens 1)
  let _currentSentence := toInt (← tokenAt tokens 2)
  let _totalSatellites := toInt (← tokenAt tokens 3)
  gsvLoop tokens 4 0
  mutexUnlock
  return true

/-! ## parseNMEA -/

/-- The signals a decoder run emits. -/
inductive Signal where
  | updatePosition (latitude longitude : ℚ) (dateTime : QDateTime) (altitude speed heading : ℚ)
  | updateStatus

/-- The five sentence types `parseNMEA` knows. -/
inductive Sentence where
  | GGA
  | GLL
  | GSV
  | GSA
  | RMC
  deriving DecidableEq, Repr

/-- Whether the bytes at offsets 3, 4 and 5 are the three given ones. -/
def codeIs (b : QString) (x y z : Char) : Bool :=
  b.get? 3 = some x && b.get? 4 = some y && b.get? 5 = some z

/-- The branch the `if` / `else if` chain of `parseNMEA` takes: the decoder
the frame is handed to, if any. -/
def sentenceType (b : QString) : Option Sentence :=
  if codeIs b 'G' 'G' 'A' then some Sentence.GGA
  else if codeIs b 'G' 'L' 'L' then some Sentence.GLL
  else if codeIs b 'G' 'S' 'V' then some Sentence.GSV
  else if codeIs b 'G' 'S' 'A' then some Sentence.GSA
  else if codeIs b 'R' 'M' 'C' then some Sentence.RMC
  else none

/-- The test `fixStatus() == StatusActive && (fixType() == Fix3D ||
fixType() == FixUnavailable)` of `parseNMEA`. -/
def usableFix (d : Device) : Bool :=
  d.cur_fixstatus = FixStatus.StatusActive &&
    (d.cur_fixtype = FixType.Fix3D || d.cur_fixtype = FixType.FixUnavailable)

/-- The `updatePosition` signal carrying the current position. -/
def positionSignal (d : Device) : Signal :=
  Signal.updatePosition d.cur_latitude d.cur_longitude d.cur_datetime d.cur_altitude
    d.cur_speed d.cur_heading

/-- `QGPSDevice::parseNMEA`; the value is the list of signals emitted, in
order.  `bufferString.data()` hands the frame to the decoder as it is (the
frame extractors strip NUL bytes, so the C string is the whole frame). -/
def parseNMEA (bufferString : QString) : Op (List Signal) := fun d =>
  if bufferString.length < 6 then Run.done [] d
  else
    match sentenceType bufferString with
    | some Sentence.GGA =>
      (do let _ ← parseGGA bufferString
          return [Signal.updateStatus]) d
    | some Sentence.GLL =>
      (do let _ ← parseGLL bufferString
          return [Signal.updateStatus]) d
    | some Sentence.GSV =>
      (do let _ ← parseGSV bufferString
          return [Signal.updateStatus]) d
    | some Sentence.GSA =>
      (do let _ ← parseGSA bufferString
          return [Signal.updateStatus]) d
    | some Sentence.RMC =>
      (do let ok ← parseRMC bufferString
          let d1 ← getDevice
          if ok && usableFix d1 then
            return [positionSignal d1, Signal.updateStatus]
          else
            return [Signal.updateStatus]) d
    | none => Run.done [Signal.updateStatus] d

/-! ## parseY -/

/-- `QString::split(sep, QString::SkipEmptyParts)`: the non-empty pieces
between separators. -/
def splitSkip (sep : Char) (s : QString) : List QString :=
  (split sep s).filter fun t => !t.isEmpty

/-- A number with its fraction dropped (rounding toward zero). -/
def truncToInt (x : ℚ) : Int :=
  if 0 ≤ x then Int.ofNat (x.num.natAbs / x.den) else -Int.ofNat (x.num.natAbs / x.den)

/-- Whether an integer is a value of the 32-bit `int`. -/
def inIntRange (v : Int) : Bool := decide (-2147483648 ≤ v ∧ v ≤ 2147483647)

/-- The conversion `int(x)` of a double: the fraction is dropped; when what
is left is not a value of `int` the conversion is undefined. -/
def intOfDouble (x : ℚ) : Op Int := fun d =>
  if inIntRange (truncToInt x) = true then Run.done (truncToInt x) d else Run.fault d

/-- `int(t.toDouble())`: undefined as well when the text reads as a NaN or an
infinity. -/
def intOfItem (t : QString) : Op Int := fun d =>
  if nonFinite t = true then Run.fault d else intOfDouble (toDoubleRounded t) d

/-- `for (int i = 0; i < 50; i++) satArray[i][0] = satArray[i][1] =
satArray[i][2] = 0;` -/
def zeroSatArray : Op Unit := modify fun d => { d with satArray := fun _ => ⟨0, 0, 0⟩ }

/-- The body of the loop of `parseY` for one segment `Sats[i]`: a segment
with fewer than 5 items is skipped; otherwise the first item is the
satellite's id and, when the id is one of the 50 rows, the next three items
are converted and stored in that row, one after the other. -/
def yRecord (seg : QString) : Op Unit :=
  match splitSkip ' ' seg with
  | i0 :: i1 :: i2 :: i3 :: _ :: _ =>
    if 0 ≤ toInt i0 ∧ toInt i0 < 50 then do
      satStore (toInt i0) 0 (← intOfItem i1)
      satStore (toInt i0) 1 (← intOfItem i2)
      satStore (toInt i0) 2 (← intOfItem i3)
    else pure ()
  | _ => pure ()

/-- The loop `for (int i = 1; i < Sats.size(); ++i)` of `parseY`, as a walk
over the segments `Sats[1]`, `Sats[2]`, ... still to visit. -/
def yLoop : List QString → Op Unit
  | [] => pure ()
  | seg :: rest => do
    yRecord seg
    yLoop rest

/-- `QGPSDDevice::parseY` (the text-protocol variant); the value is the list
of signals emitted. -/
def parseY (s : QString) : Op (List Signal) := do
  zeroSatArray
  let Sats := splitSkip ':' s
  yLoop (Sats.drop 1)
  setNumSatellites (Sats.length : Int)
  return [Signal.updateStatus]

/-! ## The frame extractor: onDataAvailable

`QGPSComDevice::onDataAvailable` and the text-protocol
`QGPSDDevice::onDataAvailable` have the same body.  Bytes are characters with
codes below 256. -/

/-- `isalnum` in the C locale. -/
def isalnum (c : Char) : Bool :=
  (48 ≤ c.toNat && c.toNat ≤ 57) || (65 ≤ c.toNat && c.toNat ≤ 90) ||
    (97 ≤ c.toNat && c.toNat ≤ 122)

/-- `isspace` in the C locale: space, tab, LF, VT, FF, CR. -/
def isspace (c : Char) : Bool :=
  c.toNat = 32 || (9 ≤ c.toNat && c.toNat ≤ 13)

/-- `ispunct` in the C locale: the printable characters that are neither
alphanumeric nor the space. -/
def ispunct (c : Char) : Bool :=
  (33 ≤ c.toNat && c.toNat ≤ 47) || (58 ≤ c.toNat && c.toNat ≤ 64) ||
    (91 ≤ c.toNat && c.toNat ≤ 96) || (123 ≤ c.toNat && c.toNat ≤ 126)

/-- The test of the removal loop: the byte is NUL, or none of alphanumeric,
white space, punctuation. -/
def unwanted (c : Char) : Bool :=
  c.toNat = 0 || (!isalnum c && !isspace c && !ispunct c)

/-- `QByteArray::remove(pos, 1)`. -/
def removeAt (ba : QString) (pos : Nat) : QString := ba.take pos ++ ba.drop (pos + 1)

/-- The loop `for (int i = ba.count(); i; --i) if (unwanted ba[i-1])
ba.remove(i-1, 1);`, entered with the counter at `i`.  The index `i-1` is
always inside the array; outside it the byte would be left alone. -/
def removalLoop : Nat → QString → QString
  | 0, ba => ba
  | i + 1, ba =>
    match ba.get? i with
    | some c => if unwanted c then removalLoop i (removeAt ba i) else removalLoop i ba
    | none => removalLoop i ba

/-- The bytes of a chunk that survive the removal loop. -/
def retained (chunk : QString) : QString := removalLoop chunk.length chunk

/-- `Buffer.append(ba)` followed by the safety valve `if (Buffer.length() >
4096) Buffer.remove(0, Buffer.length() - 4096)`: the buffer when framing
starts. -/
def appendCapped (Buffer ba : QString) : QString :=
  if (Buffer ++ ba).length > 4096 then (Buffer ++ ba).drop ((Buffer ++ ba).length - 4096)
  else Buffer ++ ba

/-- `QByteArray::indexOf(c)`: the position of the first occurrence, `none`
for the result -1. -/
def indexOf (c : Char) : QString → Option Nat
  | [] => none
  | x :: xs => if x = c then some 0 else (indexOf c xs).map (· + 1)

/-- The end-of-sentence test `Buffer[i] == 0x0a || Buffer[i] == 0x0d`. -/
def isTerminator (c : Char) : Bool := c.toNat = 10 || c.toNat = 13

/-- The scan `for (i = 0; i < Buffer.count(); ++i) if (terminator) break;`:
the position of the first line terminator, or the length when there is
none. -/
def scanTerminator : QString → Nat
  | [] => 0
  | x :: xs => if isTerminator x then 0 else scanTerminator xs + 1

/-- `QByteArray::mid(0, len)` with an `int` length: a negative length stands
for everything to the end, a length beyond the end is cut to the end. -/
def midFromStart (b : QString) (len : Int) : QString :=
  if len < 0 then b else b.take len.toNat

/-- The loop `while (Buffer.count())` of `onDataAvailable`: the frames handed
to `parseNMEA`, in order, and the buffer left when the loop is over.  Each
round that goes on removes at least one byte, so `fuel` above the length of
the buffer is never used up.  The calls of `parseNMEA` act on the device only,
not on the buffer; the frames are listed as the loop hands them over. -/
def frameLoop : Nat → QString → List QString × QString
  | 0, Buffer => ([], Buffer)
  | fuel + 1, Buffer =>
    if Buffer.length = 0 then ([], Buffer)
    else
      match indexOf '$' Buffer with
      | none => ([], [])
      | some i =>
        let Buffer1 := Buffer.drop i
        let j := scanTerminator Buffer1
        if j = Buffer1.length then ([], Buffer1)
        else
          let frame := midFromStart Buffer1 ((j : Int) - 2)
          let r := frameLoop fuel (Buffer1.drop j)
          (frame :: r.1, r.2)

/-- `onDataAvailable` on the bytes `readAll()` returned, with the buffer
`Buffer` held from the call before: the frames handed to `parseNMEA`, in
order, and the buffer held afterwards. -/
def onDataAvailable (Buffer readAll : QString) : List QString × QString :=
  let ba := retained readAll
  let Buffer1 := appendCapped Buffer ba
  frameLoop (Buffer1.length + 1) Buffer1

/-- Successive calls of `onDataAvailable`, one per chunk: the frames handed
over by all the calls, in order, and the buffer after the last. -/
def ingestAll : QString → List QString → List QString × QString
  | Buffer, [] => ([], Buffer)
  | Buffer, chunk :: chunks =>
    let r := onDataAvailable Buffer chunk
    let rs := ingestAll r.2 chunks
    (r.1 ++ rs.1, rs.2)

/-! ## parseO -/

/-- Modelled from the spec: the mutator `setLatitude` (qgpsdevice.h is not
among the sources); it stores its argument in the latitude of the fix state
store. -/
def setLatitude (v : ℚ) : Op Unit := modify fun d => { d with cur_latitude := v }

/-- Modelled from the spec: the mutator `setLongitude` (qgpsdevice.h is not
among the sources); it stores its argument in the longitude. -/
def setLongitude (v : ℚ) : Op Unit := modify fun d => { d with cur_longitude := v }

/-- The optional field `Args[i]` of `parseO`: read as a number when
`Args.count() > i`, else 0. -/
def optionalField (Args : List QString) (i : Nat) : Op ℚ :=
  if Args.length > i then do
    let t ← tokenAt Args i
    pure (toDouble t)
  else pure 0

/-- `QGPSDDevice::parseO` (the text-protocol variant); the value is the list
of signals emitted, in order.  `now` is what `QDateTime::currentDateTime()`
returns when the position signal is emitted. -/
def parseO (now : QDateTime) (s : QString) : Op (List Signal) := fun d =>
  match s with
  | [] => Run.done [] d
  | c :: _ =>
    (do setFixType FixType.FixInvalid
        if c = '?' then
          return []
        let Args := splitSkip ' ' s
        if Args.length < 5 then
          return []
        setFixType FixType.Fix3D
        setFixStatus FixStatus.StatusActive
        let a3 ← tokenAt Args 3
        setLatitude (toDouble a3)
        let a4 ← tokenAt Args 4
        setLongitude (toDouble a4)
        let Alt ← optionalField Args 5
        let Speed ← optionalField Args 9
        let Heading ← optionalField Args 7
        let position := Signal.updatePosition (toDouble a3) (toDouble a4) now Alt Speed Heading
        setHeading Heading
        setAltitude Alt
        setSpeed Speed
        return [position, Signal.updateStatus]) d

/-! ## Accessors -/

/-- Modelled from the spec: the accessor `latitude()` (qgpsdevice.h is not
among the sources); it returns the stored latitude.  The member is a double:
what is returned is the double nearest to the number the model stores, which
is that number when it is a double. -/
def latitude : Op ℚ := fun d => Run.done (toBinary64 d.cur_latitude) d

/-- Modelled from the spec: the accessor `longitude()` (qgpsdevice.h is not
among the sources); it returns the stored longitude, as `latitude` does. -/
def longitude : Op ℚ := fun d => Run.done (toBinary64 d.cur_longitude) d

/-- `QGPSDevice::latDegrees`: `(int) fabs(latitude())`. -/
def latDegrees : Op Int := do
  intOfDouble |(← latitude)|

/-- `QGPSDevice::latMinutes`: `m = fabs(latitude()) - latDegrees(); return
int(m * 60);` on doubles, each operation rounded. -/
def latMinutes : Op Int := do
  let m := toBinary64 (|(← latitude)| - ((← latDegrees) : ℚ))
  intOfDouble (toBinary64 (m * 60))

/-- `QGPSDevice::latSeconds`: `m` as in `latMinutes`, `s = (m * 60) -
int(m * 60); return int(s * 60);`. -/
def latSeconds : Op Int := do
  let m := toBinary64 (|(← latitude)| - ((← latDegrees) : ℚ))
  let s := toBinary64 (toBinary64 (m * 60) - ((← intOfDouble (toBinary64 (m * 60))) : ℚ))
  intOfDouble (toBinary64 (s * 60))

/-- `QGPSDevice::longDegrees`: `(int) fabs(longitude())`. -/
def longDegrees : Op Int := do
  intOfDouble |(← longitude)|

/-- `QGPSDevice::longMinutes`. -/
def longMinutes : Op Int := do
  let m := toBinary64 (|(← longitude)| - ((← longDegrees) : ℚ))
  intOfDouble (toBinary64 (m * 60))

/-- `QGPSDevice::longSeconds`. -/
def longSeconds : Op Int := do
  let m := toBinary64 (|(← longitude)| - ((← longDegrees) : ℚ))
  let s := toBinary64 (toBinary64 (m * 60) - ((← intOfDouble (toBinary64 (m * 60))) : ℚ))
  intOfDouble (toBinary64 (s * 60))

/-! ## Signals and decoders by type -/

/-- Whether a signal is `updatePosition`. -/
def Signal.isPosition : Signal → Bool
  | Signal.updatePosition _ _ _ _ _ _ => true
  | Signal.updateStatus => false

/-- Whether a signal is `updateStatus`. -/
def Signal.isStatus : Signal → Bool
  | Signal.updatePosition _ _ _ _ _ _ => false
  | Signal.updateStatus => true

/-- The decoder `parseNMEA` calls for a sentence type. -/
def decoder : Sentence → QString → Op Bool
  | Sentence.GGA => parseGGA
  | Sentence.GLL => parseGLL
  | Sentence.GSV => parseGSV
  | Sentence.GSA => parseGSA
  | Sentence.RMC => parseRMC

/-- The three bytes that spell a sentence type. -/
def typeCode : Sentence → Char × Char × Char
  | Sentence.GGA => ('G', 'G', 'A')
  | Sentence.GLL => ('G', 'L', 'L')
  | Sentence.GSV => ('G', 'S', 'V')
  | Sentence.GSA => ('G', 'S', 'A')
  | Sentence.RMC => ('R', 'M', 'C')

/-- The signals `parseNMEA` emits after the decoder of type `k` has returned
`ok` in the state `d1`: the position signal for RMC when the decoder returned
true and the fix is usable, and the status signal in every case. -/
def signalsAfter (k : Sentence) (ok : Bool) (d1 : Device) : List Signal :=
  if k = Sentence.RMC ∧ ok = true ∧ usableFix d1 = true then
    [positionSignal d1, Signal.updateStatus]
  else [Signal.updateStatus]

/-- A GSA sentence reporting a 2D fix. -/
def gsa2D : QString := qs "$GPGSA,A,2,04,05,,09,12,,,24,,,,,2.5,1.3,2.1*39"

/-- A `Y=` payload with a header and two satellite records. -/
def yTwoRecords : QString := qs "GSV 1118327688.280 2:5 40 83 46 1:7 1 2 3 0:"

/-- An `O=` payload with fourteen fields. -/
def oReport : QString :=
  qs "RMC 1118327688.280 0.005 46.498 7.568 1342.4 36.0 32.3 10.3 0.1 -0.2 ? 38.6 ?"

/-! ## The file device: QGPSFileDevice::onDataAvailable

Only the head of the function is modelled: the search for `$` and the
collection of one sentence into `char bufferString[100]`, up to the store of
the final NUL.  A store outside the 100 bytes is undefined behaviour: the run
stops there and reports the index. -/

/-- What the collection works on: the bytes of `theFile` not read yet, the
locals `bufferChar` and `index`, and the 100 bytes of `bufferString`. -/
structure Collector where
  theFile : QString
  bufferChar : Char
  index : Nat
  bufferString : List Char
deriving DecidableEq

/-- How the collection ends: it is through (`done`), or it stores to
`bufferString[i]` with `i` outside 0..99 (`outside i`). -/
inductive Collected where
  | done (c : Collector)
  | outside (i : Nat) (c : Collector)
deriving DecidableEq

/-- The index of the store outside the array, if the collection ended so. -/
def Collected.outsideAt : Collected → Option Nat
  | Collected.done _ => none
  | Collected.outside i _ => some i

/-- The value of `index` when the collection is through. -/
def Collected.lastIndex : Collected → Option Nat
  | Collected.done c => some c.index
  | Collected.outside _ _ => none

/-- `theFile->read(&bufferChar, 1)`: the next byte of the file goes to
`bufferChar`; at the end of the file nothing is read and `bufferChar` keeps
its value. -/
def readChar (c : Collector) : Collector :=
  match c.theFile with
  | [] => c
  | x :: rest => { c with theFile := rest, bufferChar := x }

/-- `while (theFile->read(&bufferChar, 1) && bufferChar != '$') {}`: the
bytes left in the file and the value of `bufferChar` afterwards. -/
def skipLoop : QString → Char → QString × Char
  | [], bufferChar => ([], bufferChar)
  | x :: rest, _ => if x ≠ '$' then skipLoop rest x else (rest, x)

/-- The loop `do { read; if (kept) { index++; bufferString[index] =
bufferChar; } } while (bufferChar != 0x0a && bufferChar != 0x0d);` with
`fuel` rounds at most; `none` when the rounds are used up and the loop is
still running.  The result of `read` is not looked at. -/
def collectLoop : Nat → Collector → Option Collected
  | 0, _ => none
  | fuel + 1, c =>
    let c1 := readChar c
    let kept : Bool := c1.bufferChar.toNat ≠ 0 &&
      (isalnum c1.bufferChar || isspace c1.bufferChar || ispunct c1.bufferChar)
    if kept = true ∧ 100 ≤ c1.index + 1 then
      some (Collected.outside (c1.index + 1) { c1 with index := c1.index + 1 })
    else
      let c2 : Collector :=
        if kept = true then
          { c1 with
            index := c1.index + 1
            bufferString := c1.bufferString.set (c1.index + 1) c1.bufferChar }
        else c1
      if c2.bufferChar.toNat ≠ 10 ∧ c2.bufferChar.toNat ≠ 13 then collectLoop fuel c2
      else some (Collected.done c2)

/-- The head of `QGPSFileDevice::onDataAvailable`: skip to `$`, store it at
index 0, collect up to a line terminator, store NUL at `index + 1`.  The
locals `bufferChar` and `bufferString` are not initialised by the source; the
values they hold at entry are arguments. -/
def collectSentence (fuel : Nat) (theFile : QString) (bufferChar : Char)
    (bufferString : List Char) : Option Collected :=
  let r := skipLoop theFile bufferChar
  if r.2 = '$' then
    match collectLoop fuel
      { theFile := r.1, bufferChar := r.2, index := 0, bufferString := bufferString.set 0 r.2 } with
    | none => none
    | some (Collected.outside i c) => some (Collected.outside i c)
    | some (Collected.done c) =>
      if c.index + 1 < 100 then
        some (Collected.done
          { c with bufferString := c.bufferString.set (c.index + 1) (Char.ofNat 0) })
      else some (Collected.outside (c.index + 1) c)
  else
    some (Collected.done
      { theFile := r.1, bufferChar := r.2, index := 0, bufferString := bufferString })

/-! ## GPX import: importTrkSeg and importRte

The document, the layer and the backend are not among the sources.  A layer
is the list of the features added to it; a track segment lives at an address
of the backend and holds its points in order.  From the way `importTrkSeg`
uses them: `g_backend.allocSegment` gives a new empty segment that is in no
layer (the caller adds it with `theLayer->add`), and
`g_backend.deallocFeature` frees a segment without taking it out of the layer
(the caller does so with `theLayer->remove` first). -/

/-- `Coord(Lon, Lat)`. -/
structure Coord where
  lon : ℚ
  lat : ℚ
deriving DecidableEq

/-- A `TrackNode` as far as the segment logic reads it: its position.  The
id, time, elevation, speed and tags that `importTrkPt` also stores on the
point are left out. -/
structure TrackNode where
  position : Coord
deriving DecidableEq

/-- A child element of the root: its tag name, its `lat` and `lon`
attributes, and its text. -/
structure QDomElement where
  tagName : QString
  lat : QString
  lon : QString
  text : QString
deriving DecidableEq

/-- A child node of the root; `none` is a node that is not an element
(`toElement()` is null). -/
abbrev QDomNode := Option QDomElement

/-- A feature of a layer: a point, or the track segment at an address. -/
inductive Feature where
  | node (Pt : TrackNode)
  | segment (S : Nat)
deriving DecidableEq

/-- The layer, the segments of the backend and the progress dialog, as the
two import functions change them. -/
structure Import where
  segments : List (List TrackNode)
  freed : List Nat
  features : List Feature
  name : QString
  description : QString
  progress : Nat
deriving DecidableEq

/-- The state before an import into an empty layer. -/
def Import.init : Import := ⟨[], [], [], [], [], 0⟩

/-- What the import functions read from outside: `Coord::distanceFrom`,
`M_PREFS->getMaxDistNodes()`, and the answer of `progress.wasCanceled()` as a
function of the value of the dialog. -/
structure Settings where
  distanceFrom : Coord → Coord → ℚ
  maxDistNodes : ℚ
  wasCanceled : Nat → Bool

/-- `g_backend.allocSegment(theLayer)`: the address of a new empty segment. -/
def allocSegment (w : Import) : Nat × Import :=
  (w.segments.length, { w with segments := w.segments ++ [[]] })

/-- `g_backend.deallocFeature(theLayer, S)`. -/
def deallocFeature (w : Import) (S : Nat) : Import := { w with freed := S :: w.freed }

/-- `theLayer->add(F)`. -/
def layerAdd (w : Import) (F : Feature) : Import := { w with features := w.features ++ [F] }

/-- `theLayer->remove(F)`. -/
def layerRemove (w : Import) (F : Feature) : Import :=
  { w with features := w.features.filter fun G => G ≠ F }

/-- `S->size()`. -/
def segmentSize (w : Import) (S : Nat) : Nat := (w.segments.getD S []).length

/-- `S->add(Pt)`. -/
def segmentAdd (w : Import) (S : Nat) (Pt : TrackNode) : Import :=
  { w with segments := w.segments.set S (w.segments.getD S [] ++ [Pt]) }

/-- `importTrkPt`: the point at `Coord(Lon, Lat)` read from the attributes is
allocated and added to the layer. -/
def importTrkPt (Root : QDomElement) (w : Import) : TrackNode × Import :=
  let Pt : TrackNode := ⟨⟨toDouble Root.lon, toDouble Root.lat⟩⟩
  (Pt, layerAdd w (Feature.node Pt))

/-- The test `lastPoint && M_PREFS->getMaxDistNodes() != 0.0 && kilometer >
M_PREFS->getMaxDistNodes()` of both import functions. -/
def startsNewSegment (env : Settings) (Pt : TrackNode) (lastPoint : Option TrackNode) : Bool :=
  match lastPoint with
  | none => false
  | some last =>
    decide (env.maxDistNodes ≠ 0 ∧
      env.distanceFrom Pt.position last.position > env.maxDistNodes)

/-- The loop of `importTrkSeg` over the children of the root, with the
current segment `S` and `lastPoint`.  The first component of the result is
`none` when the loop returned from the function (the import was cancelled),
else the current segment when the loop is over. -/
def trkSegLoop (env : Settings) (MakeSegment : Bool) :
    List QDomNode → Nat → Option TrackNode → Import → Option Nat × Import
  | [], S, _, w => (some S, w)
  | none :: rest, S, lastPoint, w => trkSegLoop env MakeSegment rest S lastPoint w
  | some t :: rest, S, lastPoint, w =>
    if t.tagName ≠ qs "trkpt" then trkSegLoop env MakeSegment rest S lastPoint w
    else
      let w1 := { w with progress := w.progress + 1 }
      if env.wasCanceled w1.progress = true then (none, w1)
      else
        let r := importTrkPt t w1
        if MakeSegment = false then trkSegLoop env MakeSegment rest S lastPoint r.2
        else
          let n : Nat × Import :=
            if startsNewSegment env r.1 lastPoint = true then
              let w2 :=
                if segmentSize r.2 S = 0 then deallocFeature (layerRemove r.2 (Feature.segment S)) S
                else r.2
              let a := allocSegment w2
              (a.1, layerAdd a.2 (Feature.segment a.1))
            else (S, r.2)
          trkSegLoop env MakeSegment rest n.1 (some r.1) (segmentAdd n.2 n.1 r.1)

/-- `importTrkSeg`; setting the id of the first segment from `xml:id` is left
out. -/
def importTrkSeg (env : Settings) (Root : List QDomNode) (MakeSegment : Bool)
    (w : Import) : Import :=
  let a := allocSegment w
  let w1 := layerAdd a.2 (Feature.segment a.1)
  match trkSegLoop env MakeSegment Root a.1 none w1 with
  | (none, w2) => w2
  | (some S, w2) =>
    if segmentSize w2 S = 0 then deallocFeature (layerRemove w2 (Feature.segment S)) S
    else w2

/-- The loop of `importRte` over the children of the root. -/
def rteLoop (env : Settings) (MakeSegment : Bool) :
    List QDomNode → Nat → Option TrackNode → Import → Option Nat × Import
  | [], S, _, w => (some S, w)
  | none :: rest, S, lastPoint, w => rteLoop env MakeSegment rest S lastPoint w
  | some t :: rest, S, lastPoint, w =>
    if t.tagName = qs "name" then
      rteLoop env MakeSegment rest S lastPoint { w with name := t.text }
    else if t.tagName = qs "desc" then
      rteLoop env MakeSegment rest S lastPoint { w with description := t.text }
    else if t.tagName = qs "rtept" then
      let w1 := { w with progress := w.progress + 1 }
      if env.wasCanceled w1.progress = true then (none, w1)
      else
        let r := importTrkPt t w1
        if MakeSegment = false then rteLoop env MakeSegment rest S lastPoint r.2
        else
          let n : Nat × Import :=
            if startsNewSegment env r.1 lastPoint = true then
              let w2 := if segmentSize r.2 S = 0 then deallocFeature r.2 S else r.2
              allocSegment w2
            else (S, r.2)
          rteLoop env MakeSegment rest n.1 (some r.1) (segmentAdd n.2 n.1 r.1)
    else rteLoop env MakeSegment rest S lastPoint w

/-- `importRte`; setting the id of the first segment from `xml:id` is left
out. -/
def importRte (env : Settings) (Root : List QDomNode) (MakeSegment : Bool)
    (w : Import) : Import :=
  let a := allocSegment w
  let w1 := layerAdd a.2 (Feature.segment a.1)
  match rteLoop env MakeSegment Root a.1 none w1 with
  | (none, w2) => w2
  | (some S, w2) => if segmentSize w2 S = 0 then deallocFeature w2 S else w2

/-- The segments that are in the layer, by address, in the order added. -/
def segmentsInLayer (w : Import) : List Nat :=
  w.features.filterMap fun F =>
    match F with
    | Feature.segment S => some S
    | Feature.node _ => none

/-- The points of the segments that are in the layer, segment by segment. -/
def layerSegments (w : Import) : List (List TrackNode) :=
  (segmentsInLayer w).map fun S => w.segments.getD S []

/-! ## Descriptions the claims are compared with -/

/-- The filter the removal loop is meant to be: the bytes that are not NUL and
are alphanumeric, white space or punctuation, in their order. -/
def wantedBytes (chunk : QString) : QString :=
  chunk.filter fun c => c.toNat != 0 && (isalnum c || isspace c || ispunct c)

/-- A printable byte: codes 32 to 126. -/
def printable (c : Char) : Bool := 32 ≤ c.toNat && c.toNat ≤ 126

/-- Satellite tuple `i` of a GSV token list, when its last field `i*4+7`
exists: its PRN and the entry made of its elevation, azimuth and
signal-to-noise ratio (the part of the last field in front of a `*`). -/
def gsvTupleAt (tokens : List QString) (i : Nat) : Option (Int × SatEntry) :=
  if i * 4 + 4 + 3 < tokens.length then
    some (toInt (tokens.getD (i * 4 + 4) []),
      ⟨toInt (tokens.getD (i * 4 + 4 + 1) []), toInt (tokens.getD (i * 4 + 4 + 2) []),
        if containsChar '*' (tokens.getD (i * 4 + 4 + 3) []) then
          toInt ((split '*' (tokens.getD (i * 4 + 4 + 3) [])).getD 0 [])
        else toInt (tokens.getD (i * 4 + 4 + 3) [])⟩)
  else none

/-- The satellite tuples a GSV token list carries: the tuples 0 to 3 that
exist, in order. -/
def gsvTuples (tokens : List QString) : List (Int × SatEntry) :=
  (List.range 4).filterMap (gsvTupleAt tokens)

/-- The entry of the last pair of a list that names row `id`, if any. -/
def lastNaming (id : Fin 50) : List (Int × SatEntry) → Option SatEntry
  | [] => none
  | t :: ts =>
    match lastNaming id ts with
    | some e => some e
    | none => if t.1 = (id.val : Int) then some t.2 else none

/-- The satellite record a segment of a `Y=` payload holds, when it has at
least 5 non-empty space-separated items: its PRN (item 0) and the entry made
of items 1, 2 and 3 read as doubles and cut to integers. -/
def yRecordOf (seg : QString) : Option (Int × SatEntry) :=
  match splitSkip ' ' seg with
  | i0 :: i1 :: i2 :: i3 :: _ :: _ =>
    some (toInt i0,
      ⟨truncToInt (toDoubleRounded i1), truncToInt (toDoubleRounded i2),
        truncToInt (toDoubleRounded i3)⟩)
  | _ => none

/-- Whether an item reads as a finite number whose integer part is a value
of `int`. -/
def itemFits (t : QString) : Bool := !nonFinite t && inIntRange (truncToInt (toDoubleRounded t))

/-- Whether a segment of a `Y=` payload can be stored: it is not a record
(fewer than 5 items), or its PRN is outside 0..49, or its items 1, 2 and 3
fit. -/
def segmentFits (seg : QString) : Bool :=
  match splitSkip ' ' seg with
  | i0 :: i1 :: i2 :: i3 :: _ :: _ =>
    if 0 ≤ toInt i0 ∧ toInt i0 < 50 then itemFits i1 && itemFits i2 && itemFits i3 else true
  | _ => true

/-- Whether every segment after the header of a `Y=` payload can be
stored. -/
def payloadFits (s : QString) : Bool := ((splitSkip ':' s).drop 1).all segmentFits

/-- The product `tokens[7].toDouble() * 1.852` of `parseRMC` for the text of
field 7: a product of doubles. -/
def speedProduct (t : QString) : ℚ := toBinary64 (toDoubleRounded t * toBinary64 1.852)

/-- The value `m * 60` of the minute and second accessors for the magnitude
`a` of the coordinate: `m = a - int(a)`, each operation rounded. -/
def minutesValue (a : ℚ) : ℚ := toBinary64 (toBinary64 (a - (truncToInt a : ℚ)) * 60)

/-- The value `s * 60` of the second accessors: `s = m * 60 - int(m * 60)`. -/
def secondsValue (a : ℚ) : ℚ :=
  toBinary64 (toBinary64 (minutesValue a - (truncToInt (minutesValue a) : ℚ)) * 60)

/-- The satellite records of a `Y=` payload: those of the non-empty
colon-separated segments after the first, in order. -/
def yRecords (s : QString) : List (Int × SatEntry) :=
  ((splitSkip ':' s).drop 1).filterMap yRecordOf

/-- The value a row of the table takes from a list of (PRN, entry) pairs
stored in order over an earlier value: the entry of the last pair naming the
row, else the earlier value. -/
def rowAfter (id : Fin 50) (pairs : List (Int × SatEntry)) (before : SatEntry) : SatEntry :=
  match lastNaming id pairs with
  | some e => e
  | none => before

/-- A first GSV sentence, naming satellite 7. -/
def gsvFirst : QString := qs "$GPGSV,2,1,08,07,40,083,46"

/-- A second GSV sentence, naming satellite 3 only. -/
def gsvSecond : QString := qs "$GPGSV,2,2,08,03,10,020,30"

/-- The number read from the `i`-th non-empty space-separated field of an
`O=` payload, 0 when the payload has no such field. -/
def oField (s : QString) (i : Nat) : ℚ :=
  match (splitSkip ' ' s).get? i with
  | some t => toDouble t
  | none => 0

/-! ## Fields, end states and sample frames -/

/-- The `i`-th comma-separated field of a frame, empty when there is none:
`tokens[i]` of the decoders where it is defined. -/
def field (line : QString) (i : Nat) : QString := (split ',' line).getD i []

/-- The state `parseRMC` leaves for a frame it decodes. -/
def rmcResult (line : QString) (d : Device) : Device :=
  { d with
    cur_datetime :=
      if yearOf (fromString (field line 9 ++ field line 1)) < 1970 then
        addYears (fromString (field line 9 ++ field line 1)) 100
      else fromString (field line 9 ++ field line 1)
    cur_fixstatus :=
      if field line 2 = qs "A" then FixStatus.StatusActive else FixStatus.StatusVoid
    cur_latitude :=
      if field line 4 ≠ qs "N" then
        -(toDouble (left 2 (field line 3)) + toDouble (mid 2 (field line 3)) / 60)
      else toDouble (left 2 (field line 3)) + toDouble (mid 2 (field line 3)) / 60
    cur_longitude :=
      if field line 6 ≠ qs "E" then
        -(toDouble (left 3 (field line 5)) + toDouble (mid 3 (field line 5)) / 60)
      else toDouble (left 3 (field line 5)) + toDouble (mid 3 (field line 5)) / 60
    cur_latCardinal :=
      match field line 6 with
      | [] =>
        match field line 4 with
        | [] => d.cur_latCardinal
        | c :: _ => latCardinalOf c
      | c :: _ => lonCardinalOf c
    cur_speed := toDoubleRounded
      (numberF1 (toBinary64 (toDoubleRounded (field line 7) * toBinary64 1.852)))
    cur_heading := toDouble (field line 8)
    cur_variation := toDouble (field line 10)
    cur_varCardinal :=
      match field line 11 with
      | [] => d.cur_varCardinal
      | c :: _ => lonCardinalOf c
    lockDepth := d.lockDepth + 1 - 1 }

/-- The state `parseGLL` leaves for a frame it decodes. -/
def gllResult (line : QString) (d : Device) : Device :=
  { d with
    cur_latCardinal :=
      match field line 4 with
      | [] =>
        match field line 2 with
        | [] => d.cur_latCardinal
        | c :: _ => latCardinalOf c
      | c :: _ => lonCardinalOf c
    cur_fixstatus :=
      if field line 6 = qs "A" then FixStatus.StatusActive else FixStatus.StatusVoid
    lockDepth := d.lockDepth + 1 - 1 }

/-- The state `parseGGA` leaves for a frame it decodes. -/
def ggaResult (line : QString) (d : Device) : Device :=
  { d with
    cur_latCardinal :=
      match field line 5 with
      | [] =>
        match field line 3 with
        | [] => d.cur_latCardinal
        | c :: _ => latCardinalOf c
      | c :: _ => lonCardinalOf c
    cur_fixquality := toInt (field line 6)
    cur_numSatellites := toInt (field line 7)
    cur_dillution := toFloat (field line 8)
    cur_altitude := toFloat (field line 9)
    lockDepth := d.lockDepth + 1 - 1 }

/-- The state `parseGSA` leaves for a frame it decodes. -/
def gsaResult (line : QString) (d : Device) : Device :=
  { d with
    cur_fixmode := if field line 1 = qs "A" then FixMode.FixAuto else FixMode.FixManual
    cur_fixtype :=
      if toInt (field line 2) = 1 then FixType.FixInvalid
      else if toInt (field line 2) = 2 then FixType.Fix2D
      else FixType.Fix3D
    activeSats := fun k => toInt (field line (k.val + 3))
    lockDepth := d.lockDepth + 1 - 1 }

/-- A GSV sentence naming satellite 99. -/
def gsvPrn99 : QString := qs "$GPGSV,1,1,01,99,40,083,46"

/-- A GSA sentence cut after its third field. -/
def gsaShort : QString := qs "$GPGSA,A,1"

/-- An RMC sentence with 11 fields: the sign of the variation is missing. -/
def rmcShort : QString := qs "$GPRMC,123519.000,A,4807.038,N,01131.000,E,022.4,084.4,230394,003.1"

/-- Two GGA sentences run together. -/
def ggaTwice : QString := qs "$GPGGA,1$GPGGA,2"

/-- The GGA sentence of the comment above `parseNMEA`. -/
def ggaExample : QString :=
  qs "$GPGGA,123519,4807.038,N,01131.000,E,1,08,0.9,545.4,M,46.9,M,,*47"

/-- The RMC sentence of the comment above `parseRMC`; its time has no
fraction of a second. -/
def rmcExample : QString :=
  qs "$GPRMC,123519,A,4807.038,N,01131.000,E,022.4,084.4,230394,003.1,W*6A"

/-- An RMC sentence with milliseconds in its time and a date in 2004. -/
def rmcMillis : QString :=
  qs "$GPRMC,123519.000,A,4807.038,N,01131.000,E,022.4,084.4,230304,003.1,W*6A"

/-- A GLL sentence. -/
def gllExample : QString := qs "$GPGLL,4916.45,N,12311.12,W,225444,A"

/-- The GSA sentence of the comment above `parseGSA`. -/
def gsaExample : QString := qs "$GPGSA,A,3,04,05,,09,12,,,24,,,,,2.5,1.3,2.1*39"

/-- An RMC sentence whose ground speed is a hair below 37.5 knots. -/
def rmcNearTie : QString :=
  qs "$GPRMC,123519.000,A,4807.038,N,01131.000,E,37.49999999999999999,084.4,230304,003.1,W*6A"

/-- A `Y=` payload whose one record gives satellite 5 the elevation `1e10`. -/
def yHuge : QString := qs "GSV 1118327688.280 1:5 1e10 83 46 1:"

/-- A state whose stored latitude is the double nearest to 0.3. -/
def deviceThreeTenths : Device := { Device.init with cur_latitude := toBinary64 (3 / 10) }

/-- A state whose stored latitude is 48.5. -/
def deviceLat485 : Device := { Device.init with cur_latitude := 97 / 2 }

/-- A chunk that is a `$` directly followed by a line feed. -/
def chunkMarkerOnly : QString := qs "$\n"

/-- A chunk holding one short sentence. -/
def chunkSentence : QString := qs "$GPGGA,1\n"

/-- A file whose first line is `$`, 98 letters and a line feed: 100 bytes. -/
def fileLongLine : QString := qs "$" ++ List.replicate 98 'A' ++ qs "\n"

/-- A file whose first line is `$`, 97 letters and a line feed: 99 bytes. -/
def fileLine99 : QString := qs "$" ++ List.replicate 97 'A' ++ qs "\n"

/-- A file that ends after `$` and one control byte (code 1), before any line
terminator. -/
def fileEndsEarly : QString := qs "$" ++ [Char.ofNat 1]

/-- A file that ends after `$A`, before any line terminator. -/
def fileEndsAfterLetter : QString := qs "$A"

/-- An array of 100 spaces, for the contents `bufferString` has at entry. -/
def blankBuffer : List Char := List.replicate 100 ' '

/-- A stand-in for `Coord::distanceFrom`, which is not among the sources:
the sum of the differences in latitude and in longitude. -/
def flatDistance (a b : Coord) : ℚ := |a.lat - b.lat| + |a.lon - b.lon|

/-- Settings with the maximum node distance 1 and no cancellation. -/
def sampleSettings : Settings := ⟨flatDistance, 1, fun _ => false⟩

/-- A point element with the given tag name and `lat` and `lon` attributes. -/
def pointElement (tag lat lon : String) : QDomNode := some ⟨qs tag, qs lat, qs lon, []⟩

/-! ## Running the statements -/

@[simp] theorem bind_run {α β : Type} (m : Op α) (f : α → Op β) (d : Device) :
    (m >>= f) d = match m d with
      | Run.done a d1 => f a d1
      | Run.fault d1 => Run.fault d1 := rfl

@[simp] theorem pure_run {α : Type} (a : α) (d : Device) :
    (pure a : Op α) d = Run.done a d := rfl

@[simp] theorem modify_run (f : Device → Device) (d : Device) :
    modify f d = Run.done () (f d) := rfl

theorem tokenAt_lt (tokens : List QString) (i : Nat) (d : Device) (h : i < tokens.length) :
    tokenAt tokens i d = Run.done (tokens.getD i []) d := by
  unfold tokenAt
  rw [List.get?_eq_get h]
  simp [List.getElem?_eq_getElem h]

theorem tokenAt_ge (tokens : List QString) (i : Nat) (d : Device) (h : tokens.length ≤ i) :
    tokenAt tokens i d = Run.fault d := by
  unfold tokenAt
  rw [List.get?_eq_none.mpr h]

theorem field_run (line : QString) (i : Nat) (d : Device) (h : i < (split ',' line).length) :
    tokenAt (split ',' line) i d = Run.done (field line i) d := tokenAt_lt _ _ _ h

theorem annotateLat_run (pick : Char → CardinalDirection) (tok : QString) (d : Device) :
    annotateLat pick tok d = Run.done ()
      { d with cur_latCardinal := match tok with
          | [] => d.cur_latCardinal
          | c :: _ => pick c } := by
  cases tok <;> rfl

theorem annotateVar_run (tok : QString) (d : Device) :
    annotateVar tok d = Run.done ()
      { d with cur_varCardinal := match tok with
          | [] => d.cur_varCardinal
          | c :: _ => lonCardinalOf c } := by
  cases tok <;> rfl

/-- A decoder rejects a frame with more than one `$` right after taking the
lock. -/
theorem reject_run (line : QString) (d : Device) (h : 1 < countChar '$' line) :
    parseGGA line d = Run.done false { d with lockDepth := d.lockDepth + 1 } ∧
    parseGLL line d = Run.done false { d with lockDepth := d.lockDepth + 1 } ∧
    parseGSV line d = Run.done false { d with lockDepth := d.lockDepth + 1 } ∧
    parseGSA line d = Run.done false { d with lockDepth := d.lockDepth + 1 } ∧
    parseRMC line d = Run.done false { d with lockDepth := d.lockDepth + 1 } := by
  have hc : countChar '$' line > 1 := h
  refine ⟨?_, ?_, ?_, ?_, ?_⟩ <;>
    simp only [parseGGA, parseGLL, parseGSV, parseGSA, parseRMC, bind_run, pure_run, mutexLock,
      modify_run, hc, if_true]

theorem parseRMC_run (line : QString) (d : Device) (h1 : countChar '$' line ≤ 1)
    (h2 : 12 ≤ (split ',' line).length) :
    parseRMC line d = Run.done true (rmcResult line d) := by
  have hc : ¬ (countChar '$' line > 1) := by omega
  simp only [parseRMC, bind_run, pure_run, mutexLock, mutexUnlock, modify_run, hc, if_false,
    field_run line _ _ (show 9 < _ by omega), field_run line _ _ (show 1 < _ by omega),
    field_run line _ _ (show 2 < _ by omega), field_run line _ _ (show 3 < _ by omega),
    field_run line _ _ (show 4 < _ by omega), field_run line _ _ (show 5 < _ by omega),
    field_run line _ _ (show 6 < _ by omega), field_run line _ _ (show 7 < _ by omega),
    field_run line _ _ (show 8 < _ by omega), field_run line _ _ (show 10 < _ by omega),
    field_run line _ _ (show 11 < _ by omega), setFixStatus, setSpeed, setHeading, setVariation,
    annotateLat_run, annotateVar_run, rmcResult]

/-- `parseRMC` returns true exactly on the frames with at most one `$` and at
least 12 fields; on every other frame it returns false or faults. -/
theorem parseRMC_accepts (line : QString) (d d1 : Device)
    (h : parseRMC line d = Run.done true d1) :
    countChar '$' line ≤ 1 ∧ 12 ≤ (split ',' line).length := by
  by_cases hc : countChar '$' line > 1
  · rw [(reject_run line d hc).2.2.2.2] at h
    simp at h
  refine ⟨by omega, ?_⟩
  by_contra hlen
  have h9 : (split ',' line).length ≤ 9 ∨ (split ',' line).length = 10 ∨
      (split ',' line).length = 11 := by omega
  rcases h9 with h9 | h9 | h9
  · simp only [parseRMC, bind_run, pure_run, mutexLock, modify_run, hc, if_false,
      tokenAt_ge (split ',' line) 9 _ h9] at h
    simp at h
  · simp only [parseRMC, bind_run, pure_run, mutexLock, modify_run, hc, if_false,
      field_run line _ _ (show 9 < _ by omega), field_run line _ _ (show 1 < _ by omega),
      field_run line _ _ (show 2 < _ by omega), field_run line _ _ (show 3 < _ by omega),
      field_run line _ _ (show 4 < _ by omega), field_run line _ _ (show 5 < _ by omega),
      field_run line _ _ (show 6 < _ by omega), field_run line _ _ (show 7 < _ by omega),
      field_run line _ _ (show 8 < _ by omega), tokenAt_ge (split ',' line) 10 _ (by omega),
      setFixStatus, setSpeed, setHeading, annotateLat_run] at h
    simp at h
  · simp only [parseRMC, bind_run, pure_run, mutexLock, modify_run, hc, if_false,
      field_run line _ _ (show 9 < _ by omega), field_run line _ _ (show 1 < _ by omega),
      field_run line _ _ (show 2 < _ by omega), field_run line _ _ (show 3 < _ by omega),
      field_run line _ _ (show 4 < _ by omega), field_run line _ _ (show 5 < _ by omega),
      field_run line _ _ (show 6 < _ by omega), field_run line _ _ (show 7 < _ by omega),
      field_run line _ _ (show 8 < _ by omega), field_run line _ _ (show 10 < _ by omega),
      tokenAt_ge (split ',' line) 11 _ (by omega),
      setFixStatus, setSpeed, setHeading, setVariation, annotateLat_run] at h
    simp at h

/-- `parseGLL` returns true only on frames with at most one `$` and at least
7 fields; on every other frame it returns false or faults. -/
theorem parseGLL_accepts (line : QString) (d d1 : Device)
    (h : parseGLL line d = Run.done true d1) :
    countChar '$' line ≤ 1 ∧ 7 ≤ (split ',' line).length := by
  by_cases hc : countChar '$' line > 1
  · rw [(reject_run line d hc).2.1] at h
    simp at h
  refine ⟨by omega, ?_⟩
  by_contra hlen
  have hl : (split ',' line).length ≤ 1 ∨ (split ',' line).length = 2 ∨
      (split ',' line).length = 3 ∨ (split ',' line).length = 4 ∨
      ((split ',' line).length = 5 ∨ (split ',' line).length = 6) := by omega
  rcases hl with hl | hl | hl | hl | hl
  · simp only [parseGLL, bind_run, pure_run, mutexLock, modify_run, hc, if_false,
      tokenAt_ge (split ',' line) 1 _ hl] at h
    simp at h
  · simp only [parseGLL, bind_run, pure_run, mutexLock, modify_run, hc, if_false,
      field_run line _ _ (show 1 < _ by omega),
      tokenAt_ge (split ',' line) 2 _ (by omega)] at h
    simp at h
  · simp only [parseGLL, bind_run, pure_run, mutexLock, modify_run, hc, if_false,
      field_run line _ _ (show 1 < _ by omega), field_run line _ _ (show 2 < _ by omega),
      tokenAt_ge (split ',' line) 3 _ (by omega), annotateLat_run] at h
    simp at h
  · simp only [parseGLL, bind_run, pure_run, mutexLock, modify_run, hc, if_false,
      field_run line _ _ (show 1 < _ by omega), field_run line _ _ (show 2 < _ by omega),
      field_run line _ _ (show 3 < _ by omega),
      tokenAt_ge (split ',' line) 4 _ (by omega), annotateLat_run] at h
    simp at h
  · simp only [parseGLL, bind_run, pure_run, mutexLock, modify_run, hc, if_false,
      field_run line _ _ (show 1 < _ by omega), field_run line _ _ (show 2 < _ by omega),
      field_run line _ _ (show 3 < _ by omega), field_run line _ _ (show 4 < _ by omega),
      tokenAt_ge (split ',' line) 6 _ (by omega), annotateLat_run] at h
    simp at h

theorem parseGLL_run (line : QString) (d : Device) (h1 : countChar '$' line ≤ 1)
    (h2 : 7 ≤ (split ',' line).length) :
    parseGLL line d = Run.done true (gllResult line d) := by
  have hc : ¬ (countChar '$' line > 1) := by omega
  simp only [parseGLL, bind_run, pure_run, mutexLock, mutexUnlock, modify_run, hc, if_false,
    field_run line _ _ (show 1 < _ by omega),
    field_run line _ _ (show 2 < _ by omega), field_run line _ _ (show 3 < _ by omega),
    field_run line _ _ (show 4 < _ by omega), field_run line _ _ (show 6 < _ by omega),
    setFixStatus, annotateLat_run, gllResult]

theorem parseGGA_run (line : QString) (d : Device) (h1 : countChar '$' line ≤ 1)
    (h2 : 10 ≤ (split ',' line).length) :
    parseGGA line d = Run.done true (ggaResult line d) := by
  have hc : ¬ (countChar '$' line > 1) := by omega
  simp only [parseGGA, bind_run, pure_run, mutexLock, mutexUnlock, modify_run, hc, if_false,
    field_run line _ _ (show 2 < _ by omega), field_run line _ _ (show 3 < _ by omega),
    field_run line _ _ (show 4 < _ by omega), field_run line _ _ (show 5 < _ by omega),
    field_run line _ _ (show 6 < _ by omega), field_run line _ _ (show 7 < _ by omega),
    field_run line _ _ (show 8 < _ by omega), field_run line _ _ (show 9 < _ by omega),
    setFixQuality, setNumSatellites, setDillution, setAltitude, annotateLat_run, ggaResult]

/-- The loop of `parseGSA` from `index` on, over a token list long enough:
it fills the entries `index..11` of the active set from the fields
`index+3..14` and leaves the entries below `index`. -/
theorem gsaLoop_run (tokens : List QString) (h : 15 ≤ tokens.length) :
    ∀ (fuel index : Nat) (d : Device), index + fuel = 12 →
      gsaLoop tokens fuel index d = Run.done ()
        { d with activeSats := fun k =>
            if index ≤ k.val then toInt (tokens.getD (k.val + 3) []) else d.activeSats k } := by
  intro fuel
  induction fuel with
  | zero =>
    intro index d hi
    have hd : (fun k : Fin 12 =>
        if index ≤ k.val then toInt (tokens.getD (k.val + 3) []) else d.activeSats k) =
        d.activeSats := by
      funext k
      have hk := k.isLt
      rw [if_neg (by omega)]
    simp only [gsaLoop, pure_run, hd]
  | succ fuel ih =>
    intro index d hi
    have hlt : index < 12 := by omega
    simp only [gsaLoop, hlt, dite_true, bind_run, modify_run,
      tokenAt_lt tokens (index + 3) _ (show index + 3 < tokens.length by omega)]
    rw [ih (index + 1) _ (by omega)]
    congr 2
    funext k
    by_cases hk : index + 1 ≤ k.val
    · rw [if_pos hk, if_pos (by omega)]
    · rw [if_neg hk]
      by_cases hk2 : k = ⟨index, hlt⟩
      · subst hk2
        simp
      · have hne : k.val ≠ index := fun hv => hk2 (Fin.ext hv)
        rw [if_neg (by omega)]
        simp [Function.update, hk2]

theorem parseGSA_run (line : QString) (d : Device) (h1 : countChar '$' line ≤ 1)
    (h2 : 15 ≤ (split ',' line).length) :
    parseGSA line d = Run.done true (gsaResult line d) := by
  have hc : ¬ (countChar '$' line > 1) := by omega
  simp only [parseGSA, bind_run, pure_run, mutexLock, mutexUnlock, modify_run, hc,
    if_false, field_run line _ _ (show 1 < _ by omega),
    field_run line _ _ (show 2 < _ by omega), gsaLoop_run (split ',' line) h2 12 0 _ rfl,
    setFixMode, setFixType, gsaResult, Nat.zero_le, if_true, field]

/-! ## Numerals written and read back -/

theorem digitVal_digitChar (v : Nat) : digitVal (digitChar v) = some (v % 10) := by
  have h : v % 10 < 10 := Nat.mod_lt _ (by decide)
  unfold digitChar
  generalize v % 10 = w at h
  interval_cases w <;> rfl

theorem isSpace_of_digit (c : Char) (v : Nat) (h : digitVal c = some v) : isSpace c = false := by
  unfold digitVal at h
  unfold isSpace
  split at h
  · rename_i hc
    simp only [Bool.or_eq_false_iff, decide_eq_false_iff_not, Bool.and_eq_false_iff]
    omega
  · simp at h

theorem takeSign_of_digit (c : Char) (r : QString) (v : Nat) (h : digitVal c = some v) :
    takeSign (c :: r) = (false, c :: r) := by
  unfold takeSign
  split
  · rename_i heq
    simp only [List.cons.injEq] at heq
    rw [heq.1] at h
    rw [show digitVal '-' = none from rfl] at h
    exact absurd h (by simp)
  · rename_i heq
    simp only [List.cons.injEq] at heq
    rw [heq.1] at h
    rw [show digitVal '+' = none from rfl] at h
    exact absurd h (by simp)
  · rfl

theorem spanDigits_append (ds rest : QString) (hall : ∀ c ∈ ds, (digitVal c).isSome)
    (hrest : ∀ c, rest.head? = some c → digitVal c = none) :
    spanDigits (ds ++ rest) = (ds, rest) := by
  induction ds with
  | nil =>
    cases rest with
    | nil => rfl
    | cons c r =>
      have := hrest c rfl
      simp [spanDigits, this]
  | cons c cs ih =>
    have hc := hall c (List.mem_cons_self _ _)
    obtain ⟨v, hv⟩ := Option.isSome_iff_exists.mp hc
    have := ih (fun x hx => hall x (List.mem_cons_of_mem _ hx))
    simp [spanDigits, hv, this]

theorem digitsFrom_append (xs ys : QString) : ∀ a : Nat,
    digitsFrom a (xs ++ ys) = (digitsFrom a xs).bind fun b => digitsFrom b ys := by
  induction xs with
  | nil => intro a; rfl
  | cons c cs ih =>
    intro a
    simp only [List.cons_append, digitsFrom]
    cases digitVal c with
    | none => rfl
    | some v => exact ih _

/-- What `natDigitsAux` produces, with enough fuel: a non-empty run of digits
in front of the accumulator whose value is `n`. -/
theorem natDigitsAux_spec : ∀ (fuel n : Nat) (acc : QString), n < fuel →
    ∃ ds : QString, natDigitsAux fuel n acc = ds ++ acc ∧ ds ≠ [] ∧
      (∀ c ∈ ds, (digitVal c).isSome) ∧
      ∀ (a : Nat), digitsFrom a ds = some (a * 10 ^ ds.length + n) := by
  intro fuel
  induction fuel with
  | zero => intro n acc h; omega
  | succ fuel ih =>
    intro n acc hn
    by_cases h0 : n / 10 = 0
    · refine ⟨[digitChar n], by simp [natDigitsAux, h0], by simp, ?_, ?_⟩
      · intro c hc
        simp only [List.mem_singleton] at hc
        simp [hc, digitVal_digitChar]
      · intro a
        have : n % 10 = n := by omega
        simp [digitsFrom, digitVal_digitChar, this]
        ring
    · obtain ⟨ds, hds, hne, hall, hval⟩ := ih (n / 10) (digitChar n :: acc) (by omega)
      refine ⟨ds ++ [digitChar n], by simp [natDigitsAux, h0, hds], by simp, ?_, ?_⟩
      · intro c hc
        rcases List.mem_append.mp hc with hc | hc
        · exact hall c hc
        · simp only [List.mem_singleton] at hc
          simp [hc, digitVal_digitChar]
      · intro a
        rw [digitsFrom_append, hval]
        simp only [Option.some_bind, digitsFrom, digitVal_digitChar, List.length_append,
          List.length_singleton, pow_succ]
        congr 1
        have := Nat.div_add_mod n 10
        nlinarith [this]

theorem dropWhile_isSpace_of_head (s : QString)
    (h : ∀ c, s.head? = some c → isSpace c = false) : s.dropWhile isSpace = s := by
  cases s with
  | nil => rfl
  | cons c r =>
    have := h c rfl
    simp [List.dropWhile, this]

theorem trimmed_of_ends (s : QString) (h1 : ∀ c, s.head? = some c → isSpace c = false)
    (h2 : ∀ c, s.getLast? = some c → isSpace c = false) : trimmed s = s := by
  unfold trimmed
  rw [dropWhile_isSpace_of_head s h1, dropWhile_isSpace_of_head s.reverse, List.reverse_reverse]
  intro c hc
  rw [List.head?_reverse] at hc
  exact h2 c hc

/-- Reading back a numeral in fixed notation with one fraction digit. -/
theorem readDecimal_fixed (neg : Bool) (ds : QString) (n f : Nat) (hne : ds ≠ [])
    (hall : ∀ c ∈ ds, (digitVal c).isSome) (hval : digitsFrom 0 ds = some n) :
    readDecimal ((if neg then ['-'] else []) ++ ds ++ ['.'] ++ [digitChar f]) =
      some ⟨neg, n, f % 10, 1, 0⟩ := by
  obtain ⟨c0, cs, rfl⟩ := List.exists_cons_of_ne_nil hne
  obtain ⟨v0, hv0⟩ := Option.isSome_iff_exists.mp (hall c0 (List.mem_cons_self _ _))
  have hbody : spanDigits (c0 :: cs ++ ['.', digitChar f]) = (c0 :: cs, ['.', digitChar f]) :=
    spanDigits_append _ _ hall (by intro c hc; simp at hc; subst hc; rfl)
  have hfrac : spanDigits [digitChar f] = ([digitChar f], []) := by
    have := spanDigits_append [digitChar f] [] (by simp [digitVal_digitChar]) (by simp)
    simpa using this
  have htrim : trimmed ((if neg then ['-'] else []) ++ (c0 :: cs) ++ ['.'] ++ [digitChar f]) =
      (if neg then ['-'] else []) ++ (c0 :: cs) ++ ['.'] ++ [digitChar f] := by
    apply trimmed_of_ends
    · intro c hc
      cases neg
      · simp at hc
        subst hc
        exact isSpace_of_digit _ _ hv0
      · simp at hc
        subst hc
        rfl
    · intro c hc
      rw [List.getLast?_concat] at hc
      simp only [Option.some.injEq] at hc
      subst hc
      exact isSpace_of_digit _ _ (digitVal_digitChar f)
  have hsign : takeSign ((if neg then ['-'] else []) ++ (c0 :: cs) ++ ['.'] ++ [digitChar f]) =
      (neg, c0 :: cs ++ ['.', digitChar f]) := by
    cases neg
    · simpa using takeSign_of_digit c0 (cs ++ ['.', digitChar f]) v0 hv0
    · simp [takeSign]
  unfold readDecimal
  rw [htrim, hsign]
  simp only [hbody, hfrac, hval, exponentOk]
  simp [digitsFrom, digitVal_digitChar]

theorem natDigits_spec (n : Nat) :
    natDigits n ≠ [] ∧ (∀ c ∈ natDigits n, (digitVal c).isSome) ∧
      digitsFrom 0 (natDigits n) = some n := by
  obtain ⟨ds, hds, hne, hall, hval⟩ := natDigitsAux_spec (n + 1) n [] (Nat.lt_succ_self n)
  have hd : natDigits n = ds := by simpa [natDigits] using hds
  rw [hd]
  exact ⟨hne, hall, by simpa using hval 0⟩

/-- Reading back what `numberF1` wrote gives the rounded number of tenths,
with the sign of the argument. -/
theorem toDouble_numberF1 (x : ℚ) :
    toDouble (numberF1 x) = (if x < 0 then -((tenths x : ℚ) / 10) else (tenths x : ℚ) / 10) := by
  obtain ⟨hne, hall, hval⟩ := natDigits_spec (tenths x / 10)
  have h := readDecimal_fixed (decide (x < 0)) (natDigits (tenths x / 10)) (tenths x / 10)
    (tenths x % 10) hne hall hval
  have hn : numberF1 x = (if decide (x < 0) = true then ['-'] else []) ++
      natDigits (tenths x / 10) ++ ['.'] ++ [digitChar (tenths x % 10 )] := by
    unfold numberF1
    simp only [decide_eq_true_eq]
  have hmod : tenths x % 10 % 10 = tenths x % 10 := Nat.mod_mod _ _
  have hq : ((tenths x / 10 : Nat) : ℚ) + ((tenths x % 10 : Nat) : ℚ) / 10 = (tenths x : ℚ) / 10 := by
    have := Nat.div_add_mod (tenths x) 10
    have hc : ((10 * (tenths x / 10) + tenths x % 10 : Nat) : ℚ) = (tenths x : ℚ) := by
      rw [this]
    push_cast at hc
    linarith
  unfold toDouble toDoubleOk
  rw [hn, h]
  simp only [Option.map_some', Option.getD_some, Decimal.value, hmod]
  by_cases hx : x < 0
  · simp [hx, hq]
  · simp [hx, hq]

theorem roundHalfEven_bounds (p q : Nat) (hq : 0 < q) :
    2 * (roundHalfEven p q * q) ≤ 2 * p + q ∧ 2 * p ≤ 2 * (roundHalfEven p q * q) + q := by
  have hdm := Nat.div_add_mod p q
  have hlt := Nat.mod_lt p hq
  have hmul : (p / q + 1) * q = q * (p / q) + q := by ring
  have hmul0 : p / q * q = q * (p / q) := by ring
  unfold roundHalfEven
  simp only
  generalize q * (p / q) = X at hdm hmul hmul0
  split_ifs <;> simp only [hmul, hmul0] <;> omega

theorem roundHalfEven_close (p q : Nat) (hq : 0 < q) :
    |((roundHalfEven p q : Nat) : ℚ) - (p : ℚ) / q| ≤ 1 / 2 := by
  obtain ⟨h1, h2⟩ := roundHalfEven_bounds p q hq
  have hqq : (0 : ℚ) < q := by exact_mod_cast hq
  have h1q : (2 : ℚ) * ((roundHalfEven p q : Nat) * q) ≤ 2 * p + q := by exact_mod_cast h1
  have h2q : (2 : ℚ) * p ≤ 2 * ((roundHalfEven p q : Nat) * q) + q := by exact_mod_cast h2
  have hdiv : (p : ℚ) / q * q = p := div_mul_cancel₀ _ (ne_of_gt hqq)
  rw [abs_le]
  constructor
  · by_contra hcon
    push_neg at hcon
    nlinarith
  · by_contra hcon
    push_neg at hcon
    nlinarith

/-! ## Rounding to a double -/

theorem truncToInt_eq_floor (x : ℚ) (hx : 0 ≤ x) : truncToInt x = ⌊x⌋ := by
  unfold truncToInt
  rw [if_pos hx, Rat.floor_def]
  have hn : 0 ≤ x.num := Rat.num_nonneg.mpr hx
  obtain ⟨n, hn'⟩ := Int.eq_ofNat_of_zero_le hn
  rw [hn']
  simp

theorem truncToInt_bounds (x : ℚ) (hx : 0 ≤ x) :
    0 ≤ truncToInt x ∧ (truncToInt x : ℚ) ≤ x ∧ x < (truncToInt x : ℚ) + 1 := by
  rw [truncToInt_eq_floor x hx]
  exact ⟨Int.floor_nonneg.mpr hx, Int.floor_le x, Int.lt_floor_add_one x⟩

theorem halfEven_close (q : ℚ) (hq : 0 ≤ q) :
    |((roundHalfEven q.num.natAbs q.den : ℕ) : ℚ) - q| ≤ 1 / 2 := by
  have h := roundHalfEven_close q.num.natAbs q.den q.den_pos
  have hn : ((q.num.natAbs : ℕ) : ℚ) = (q.num : ℚ) := by
    have h0 : 0 ≤ q.num := Rat.num_nonneg.mpr hq
    obtain ⟨k, hk⟩ := Int.eq_ofNat_of_zero_le h0
    rw [hk]
    simp
  rw [hn, Rat.num_div_den] at h
  exact h

theorem halfEven_unique (q : ℚ) (hq : 0 ≤ q) (n : ℕ) (h : |q - (n : ℚ)| < 1 / 2) :
    roundHalfEven q.num.natAbs q.den = n := by
  have hc := halfEven_close q hq
  rw [abs_le] at hc
  rw [abs_lt] at h
  have h1 : ((roundHalfEven q.num.natAbs q.den : ℕ) : ℚ) < (n : ℚ) + 1 := by linarith
  have h2 : ((n : ℕ) : ℚ) < (roundHalfEven q.num.natAbs q.den : ℕ) + 1 := by linarith
  have h1' : roundHalfEven q.num.natAbs q.den < n + 1 := by exact_mod_cast h1
  have h2' : n < roundHalfEven q.num.natAbs q.den + 1 := by exact_mod_cast h2
  omega

theorem two_zpow_pos (e : ℤ) : (0 : ℚ) < (2 : ℚ) ^ e := zpow_pos (by norm_num) e

theorem roundBinary_of_nonneg (prec : ℕ) (emin : ℤ) (y : ℚ) (hy : 0 ≤ y) :
    roundBinary prec emin y =
      ((roundHalfEven (y / (2 : ℚ) ^ ulpExp prec emin y).num.natAbs
        (y / (2 : ℚ) ^ ulpExp prec emin y).den : ℕ) : ℚ) * (2 : ℚ) ^ ulpExp prec emin y := by
  unfold roundBinary
  simp only [abs_of_nonneg hy, not_lt.mpr hy, if_false]

theorem roundBinary_neg (prec : ℕ) (emin : ℤ) (x : ℚ) :
    roundBinary prec emin (-x) = -roundBinary prec emin x := by
  unfold roundBinary
  simp only [abs_neg]
  rcases lt_trichotomy x 0 with h | h | h
  · have h1 : ¬ (-x < 0) := by linarith
    simp only [h, h1, if_true, if_false, neg_neg]
  · subst h
    have h0 : roundHalfEven 0 1 = 0 := by decide
    simp [h0]
  · have h1 : -x < 0 := by linarith
    have h2 : ¬ x < 0 := by linarith
    simp only [h1, h2, if_true, if_false]

theorem roundBinary_abs (prec : ℕ) (emin : ℤ) (x : ℚ) (h : roundBinary prec emin x = x) :
    roundBinary prec emin |x| = |x| := by
  rcases le_total 0 x with h0 | h0
  · rw [abs_of_nonneg h0, h]
  · rw [abs_of_nonpos h0, roundBinary_neg, h]

/-- The rounding error is at most half a unit in the last place. -/
theorem roundBinary_close (prec : ℕ) (emin : ℤ) (y : ℚ) (hy : 0 ≤ y) :
    |roundBinary prec emin y - y| ≤ (2 : ℚ) ^ ulpExp prec emin y / 2 := by
  rw [roundBinary_of_nonneg prec emin y hy]
  have hp := two_zpow_pos (ulpExp prec emin y)
  have hq : 0 ≤ y / (2 : ℚ) ^ ulpExp prec emin y := div_nonneg hy hp.le
  have hc := halfEven_close _ hq
  generalize (roundHalfEven (y / (2 : ℚ) ^ ulpExp prec emin y).num.natAbs
    (y / (2 : ℚ) ^ ulpExp prec emin y).den : ℕ) = N at hc ⊢
  generalize (2 : ℚ) ^ ulpExp prec emin y = P at hp hc hq ⊢
  have hy' : y = y / P * P := by field_simp
  rw [abs_le] at hc ⊢
  constructor
  · nlinarith [hc.1, hc.2]
  · nlinarith [hc.1, hc.2]

theorem roundBinary_nonneg (prec : ℕ) (emin : ℤ) (y : ℚ) (hy : 0 ≤ y) :
    0 ≤ roundBinary prec emin y := by
  rw [roundBinary_of_nonneg prec emin y hy]
  exact mul_nonneg (Nat.cast_nonneg _) (two_zpow_pos _).le

/-- A number within less than half a unit of `n` units in the last place is
rounded to `n` units. -/
theorem roundBinary_eq (prec : ℕ) (emin : ℤ) (y : ℚ) (n : ℕ) (e : ℤ) (hy : 0 ≤ y)
    (he : ulpExp prec emin y = e) (hclose : |y / (2 : ℚ) ^ e - (n : ℚ)| < 1 / 2) :
    roundBinary prec emin y = (n : ℚ) * (2 : ℚ) ^ e := by
  rw [roundBinary_of_nonneg prec emin y hy, he]
  have hq : 0 ≤ y / (2 : ℚ) ^ e := div_nonneg hy (two_zpow_pos e).le
  rw [halfEven_unique _ hq n hclose]

theorem log_two_eq (y : ℚ) (L : ℤ) (h1 : (2 : ℚ) ^ L ≤ y) (h2 : y < (2 : ℚ) ^ (L + 1)) :
    Int.log 2 y = L := by
  have hy : 0 < y := lt_of_lt_of_le (two_zpow_pos L) h1
  have ha : L ≤ Int.log 2 y := (Int.zpow_le_iff_le_log (by norm_num) hy).mp (by exact_mod_cast h1)
  have hb : Int.log 2 y < L + 1 :=
    (Int.lt_zpow_iff_log_lt (by norm_num) hy).mp (by exact_mod_cast h2)
  omega

theorem ulpExp_eq (prec : ℕ) (emin : ℤ) (y : ℚ) (L : ℤ) (h1 : (2 : ℚ) ^ L ≤ y)
    (h2 : y < (2 : ℚ) ^ (L + 1)) (hm : emin ≤ L - ((prec : ℤ) - 1)) :
    ulpExp prec emin y = L - ((prec : ℤ) - 1) := by
  unfold ulpExp
  rw [log_two_eq y L h1 h2]
  exact max_eq_left hm

theorem ulpExp_ge (prec : ℕ) (emin : ℤ) (y : ℚ) : emin ≤ ulpExp prec emin y := le_max_right _ _

/-- A positive number is below `2 ^ prec` units in the last place. -/
theorem lt_zpow_ulpExp (prec : ℕ) (emin : ℤ) (y : ℚ) :
    y < (2 : ℚ) ^ (ulpExp prec emin y + prec) := by
  have h := Int.lt_zpow_succ_log_self (b := 2) (by norm_num) y
  have hle : Int.log 2 y + 1 ≤ ulpExp prec emin y + prec := by
    have := le_max_left (Int.log 2 y - ((prec : ℤ) - 1)) emin
    unfold ulpExp
    omega
  calc y < ((2 : ℕ) : ℚ) ^ (Int.log 2 y + 1) := h
    _ = (2 : ℚ) ^ (Int.log 2 y + 1) := by norm_num
    _ ≤ (2 : ℚ) ^ (ulpExp prec emin y + prec) := zpow_le_zpow_right₀ (by norm_num) hle

/-- Below `2 ^ k` the unit in the last place is at most `2 ^ (k - prec)`, or
the least unit. -/
theorem ulpExp_le (prec : ℕ) (emin : ℤ) (y : ℚ) (k : ℤ) (hy : 0 < y) (h : y < (2 : ℚ) ^ k) :
    ulpExp prec emin y ≤ max (k - prec) emin := by
  have hb : Int.log 2 y < k := (Int.lt_zpow_iff_log_lt (by norm_num) hy).mp (by exact_mod_cast h)
  unfold ulpExp
  apply max_le_max _ le_rfl
  omega

theorem roundBinary_zero (prec : ℕ) (emin : ℤ) : roundBinary prec emin 0 = 0 := by
  have h0 : roundHalfEven 0 1 = 0 := by decide
  rw [roundBinary_of_nonneg prec emin 0 le_rfl]
  simp [h0]

/-- A number of the format is rounded to itself. -/
theorem roundBinary_repr (prec : ℕ) (emin : ℤ) (n : ℕ) (e : ℤ) (hn : n < 2 ^ prec)
    (he : emin ≤ e) :
    roundBinary prec emin ((n : ℚ) * (2 : ℚ) ^ e) = (n : ℚ) * (2 : ℚ) ^ e := by
  rcases Nat.eq_zero_or_pos n with h0 | hpos
  · subst h0
    simp [roundBinary_zero]
  · have hy : (0 : ℚ) < (n : ℚ) * (2 : ℚ) ^ e :=
      mul_pos (by exact_mod_cast hpos) (two_zpow_pos e)
    have hle : ulpExp prec emin ((n : ℚ) * (2 : ℚ) ^ e) ≤ e := by
      have h1 := Int.zpow_log_le_self (b := 2) (by norm_num) hy
      have h1' : (2 : ℚ) ^ Int.log 2 ((n : ℚ) * (2 : ℚ) ^ e) ≤ (n : ℚ) * (2 : ℚ) ^ e := by
        simpa using h1
      have h2 : (n : ℚ) * (2 : ℚ) ^ e < (2 : ℚ) ^ ((prec : ℤ) + e) := by
        rw [zpow_add₀ (by norm_num : (2 : ℚ) ≠ 0)]
        have : (n : ℚ) < (2 : ℚ) ^ (prec : ℤ) := by
          rw [zpow_natCast]
          exact_mod_cast hn
        exact mul_lt_mul_of_pos_right this (two_zpow_pos e)
      have h3 : (2 : ℚ) ^ Int.log 2 ((n : ℚ) * (2 : ℚ) ^ e) < (2 : ℚ) ^ ((prec : ℤ) + e) :=
        lt_of_le_of_lt h1' h2
      have h4 : Int.log 2 ((n : ℚ) * (2 : ℚ) ^ e) < (prec : ℤ) + e :=
        (zpow_lt_zpow_iff_right₀ (by norm_num : (1 : ℚ) < 2)).mp h3
      unfold ulpExp
      apply max_le _ he
      omega
    obtain ⟨k, hk⟩ := Int.eq_ofNat_of_zero_le (sub_nonneg.mpr hle)
    have hsplit : (2 : ℚ) ^ e =
        (2 : ℚ) ^ k * (2 : ℚ) ^ ulpExp prec emin ((n : ℚ) * (2 : ℚ) ^ e) := by
      rw [← zpow_natCast, ← zpow_add₀ (by norm_num : (2 : ℚ) ≠ 0)]
      congr 1
      have : ((k : ℕ) : ℤ) = e - ulpExp prec emin ((n : ℚ) * (2 : ℚ) ^ e) := hk.symm
      omega
    have hres := roundBinary_eq prec emin ((n : ℚ) * (2 : ℚ) ^ e) (n * 2 ^ k)
      (ulpExp prec emin ((n : ℚ) * (2 : ℚ) ^ e)) hy.le rfl (by
        have hp := two_zpow_pos (ulpExp prec emin ((n : ℚ) * (2 : ℚ) ^ e))
        have : (n : ℚ) * (2 : ℚ) ^ e / (2 : ℚ) ^ ulpExp prec emin ((n : ℚ) * (2 : ℚ) ^ e) =
            ((n * 2 ^ k : ℕ) : ℚ) := by
          rw [div_eq_iff (ne_of_gt hp)]
          conv_lhs => rw [hsplit]
          push_cast
          ring
        rw [this, sub_self, abs_zero]
        norm_num)
    rw [hres]
    conv_rhs => rw [hsplit]
    push_cast
    ring

/-- What rounding gives is a number of the format: a significand below
`2 ^ prec` times a power of two not below the least. -/
theorem roundBinary_exists (prec : ℕ) (emin : ℤ) (hp : 1 ≤ prec) (y : ℚ) (hy : 0 ≤ y) :
    ∃ (n : ℕ) (e : ℤ), n < 2 ^ prec ∧ emin ≤ e ∧
      roundBinary prec emin y = (n : ℚ) * (2 : ℚ) ^ e := by
  rcases eq_or_lt_of_le hy with h0 | hpos
  · refine ⟨0, emin, Nat.pos_pow_of_pos _ (by norm_num), le_rfl, ?_⟩
    rw [← h0, roundBinary_zero]
    simp
  · have hu := two_zpow_pos (ulpExp prec emin y)
    have hq : 0 ≤ y / (2 : ℚ) ^ ulpExp prec emin y := div_nonneg hy hu.le
    have hc := halfEven_close _ hq
    have hlt : y / (2 : ℚ) ^ ulpExp prec emin y < (2 : ℚ) ^ prec := by
      rw [div_lt_iff₀ hu, ← zpow_natCast, ← zpow_add₀ (by norm_num : (2 : ℚ) ≠ 0), add_comm]
      exact lt_zpow_ulpExp prec emin y
    rw [roundBinary_of_nonneg prec emin y hy]
    generalize (roundHalfEven (y / (2 : ℚ) ^ ulpExp prec emin y).num.natAbs
      (y / (2 : ℚ) ^ ulpExp prec emin y).den : ℕ) = N at hc ⊢
    have hN : N ≤ 2 ^ prec := by
      rw [abs_le] at hc
      have h1 : (N : ℚ) < ((2 ^ prec : ℕ) : ℚ) + 1 := by
        push_cast
        linarith [hc.2]
      have h2 : N < 2 ^ prec + 1 := by exact_mod_cast h1
      omega
    rcases lt_or_eq_of_le hN with h | h
    · exact ⟨N, ulpExp prec emin y, h, ulpExp_ge prec emin y, rfl⟩
    · refine ⟨2 ^ (prec - 1), ulpExp prec emin y + 1,
        Nat.pow_lt_pow_right (by norm_num) (by omega),
        le_trans (ulpExp_ge prec emin y) (by omega), ?_⟩
      rw [h, zpow_add₀ (by norm_num : (2 : ℚ) ≠ 0)]
      have : (2 : ℕ) ^ prec = 2 ^ (prec - 1) * 2 := by
        rw [← pow_succ]
        congr 1
        omega
      rw [this]
      push_cast
      ring

/-- The fraction above the integer part of a non-negative number of the
format is a number of the format, and it is at most `1 - 2 ^ (-prec)`. -/
theorem roundBinary_fract (prec : ℕ) (emin : ℤ) (hp : 1 ≤ prec) (n : ℕ) (e : ℤ)
    (hn : n < 2 ^ prec) (he : emin ≤ e) :
    roundBinary prec emin ((n : ℚ) * (2 : ℚ) ^ e - ⌊(n : ℚ) * (2 : ℚ) ^ e⌋) =
        (n : ℚ) * (2 : ℚ) ^ e - ⌊(n : ℚ) * (2 : ℚ) ^ e⌋ ∧
      (n : ℚ) * (2 : ℚ) ^ e - ⌊(n : ℚ) * (2 : ℚ) ^ e⌋ ≤ 1 - 1 / (2 : ℚ) ^ prec := by
  have hpow : (0 : ℚ) < (2 : ℚ) ^ prec := pow_pos (by norm_num) prec
  have hone : (1 : ℚ) / (2 : ℚ) ^ prec ≤ 1 / 2 := by
    apply div_le_div_of_nonneg_left (by norm_num) (by norm_num)
    calc (2 : ℚ) = 2 ^ 1 := by norm_num
      _ ≤ 2 ^ prec := pow_le_pow_right₀ (by norm_num) hp
  rcases le_or_lt 0 e with h0 | hneg
  · obtain ⟨k, hk⟩ := Int.eq_ofNat_of_zero_le h0
    have hx : (n : ℚ) * (2 : ℚ) ^ e = ((n * 2 ^ k : ℕ) : ℤ) := by
      rw [hk]
      push_cast
      rw [zpow_natCast]
    rw [hx, Int.floor_intCast, sub_self]
    refine ⟨roundBinary_zero prec emin, ?_⟩
    linarith
  · obtain ⟨k, hk⟩ := Int.eq_ofNat_of_zero_le (show 0 ≤ -e by omega)
    have hk' : e = -(k : ℤ) := by omega
    have hkpos : 0 < k := by omega
    have h2k : (0 : ℚ) < (2 : ℚ) ^ k := pow_pos (by norm_num) k
    have hx : (n : ℚ) * (2 : ℚ) ^ e = ((n : ℤ) : ℚ) / ((2 ^ k : ℕ) : ℚ) := by
      rw [hk', zpow_neg, zpow_natCast]
      push_cast
      ring
    have hfl : ⌊(n : ℚ) * (2 : ℚ) ^ e⌋ = ((n / 2 ^ k : ℕ) : ℤ) := by
      rw [hx, Rat.floor_intCast_div_natCast]
      push_cast
      rfl
    have hdm := Nat.div_add_mod n (2 ^ k)
    have hflq : ((⌊(n : ℚ) * (2 : ℚ) ^ e⌋ : ℤ) : ℚ) = ((n / 2 ^ k : ℕ) : ℚ) := by
      rw [hfl, Int.cast_natCast]
    have hfr : (n : ℚ) * (2 : ℚ) ^ e - ⌊(n : ℚ) * (2 : ℚ) ^ e⌋ =
        ((n % 2 ^ k : ℕ) : ℚ) * (2 : ℚ) ^ e := by
      rw [hflq, hk', zpow_neg, zpow_natCast]
      have hc : ((2 ^ k * (n / 2 ^ k) + n % 2 ^ k : ℕ) : ℚ) = (n : ℚ) := by rw [hdm]
      rw [Nat.cast_add, Nat.cast_mul, Nat.cast_pow, Nat.cast_ofNat] at hc
      generalize ((n / 2 ^ k : ℕ) : ℚ) = A at hc ⊢
      generalize ((n % 2 ^ k : ℕ) : ℚ) = B at hc ⊢
      field_simp
      linarith
    have hr : n % 2 ^ k < 2 ^ k := Nat.mod_lt _ (Nat.pos_pow_of_pos _ (by norm_num))
    have hrn : n % 2 ^ k < 2 ^ prec := lt_of_le_of_lt (Nat.mod_le _ _) hn
    rw [hfr]
    refine ⟨roundBinary_repr prec emin _ e hrn he, ?_⟩
    rw [hk', zpow_neg, zpow_natCast]
    rcases le_or_lt k prec with hkp | hkp
    · have h1 : ((n % 2 ^ k : ℕ) : ℚ) ≤ (2 : ℚ) ^ k - 1 := by
        have : n % 2 ^ k + 1 ≤ 2 ^ k := hr
        have hq : ((n % 2 ^ k + 1 : ℕ) : ℚ) ≤ ((2 ^ k : ℕ) : ℚ) := by exact_mod_cast this
        push_cast at hq
        linarith
      have h2 : (1 : ℚ) / (2 : ℚ) ^ prec ≤ 1 / (2 : ℚ) ^ k :=
        div_le_div_of_nonneg_left (by norm_num) h2k (pow_le_pow_right₀ (by norm_num) hkp)
      have h3 : ((n % 2 ^ k : ℕ) : ℚ) * ((2 : ℚ) ^ k)⁻¹ ≤ 1 - 1 / (2 : ℚ) ^ k := by
        rw [← div_eq_mul_inv, div_le_iff₀ h2k]
        field_simp
        linarith
      linarith
    · have h1 : ((n % 2 ^ k : ℕ) : ℚ) < (2 : ℚ) ^ prec := by exact_mod_cast hrn
      have h2 : (2 : ℚ) ^ prec * 2 ≤ (2 : ℚ) ^ k := by
        rw [← pow_succ]
        exact pow_le_pow_right₀ (by norm_num) hkp
      have h3 : ((n % 2 ^ k : ℕ) : ℚ) * ((2 : ℚ) ^ k)⁻¹ ≤ 1 / 2 := by
        rw [← div_eq_mul_inv, div_le_iff₀ h2k]
        linarith
      linarith

theorem toBinary64_exists (y : ℚ) (hy : 0 ≤ y) :
    ∃ (n : ℕ) (e : ℤ), n < 2 ^ 53 ∧ -1074 ≤ e ∧ toBinary64 y = (n : ℚ) * (2 : ℚ) ^ e :=
  roundBinary_exists 53 (-1074) (by norm_num) y hy

/-- The fraction above the integer part of a non-negative double is computed
without error and is at most `1 - 2 ^ (-53)`. -/
theorem toBinary64_fract (a : ℚ) (ha : 0 ≤ a) (hd : toBinary64 a = a) :
    toBinary64 (a - (truncToInt a : ℚ)) = a - (truncToInt a : ℚ) ∧
      0 ≤ a - (truncToInt a : ℚ) ∧ a - (truncToInt a : ℚ) ≤ 1 - 1 / (2 : ℚ) ^ 53 := by
  obtain ⟨n, e, hn, he, hr⟩ := toBinary64_exists a ha
  rw [hd] at hr
  have h := roundBinary_fract 53 (-1074) (by norm_num) n e hn he
  rw [← hr] at h
  rw [truncToInt_eq_floor a ha]
  exact ⟨h.1, by linarith [Int.floor_le a], h.2⟩

/-- Sixty times a fraction of at most `1 - 2 ^ (-53)`, rounded: the result is
below 60 and off by at most `2 ^ (-48)`. -/
theorem toBinary64_mul60 (f : ℚ) (h0 : 0 ≤ f) (h1 : f ≤ 1 - 1 / (2 : ℚ) ^ 53) :
    0 ≤ toBinary64 (f * 60) ∧ toBinary64 (f * 60) < 60 ∧
      |toBinary64 (f * 60) - f * 60| ≤ 1 / (2 : ℚ) ^ 48 := by
  have hy : 0 ≤ f * 60 := by linarith
  have hnn : 0 ≤ toBinary64 (f * 60) := roundBinary_nonneg 53 (-1074) _ hy
  have hclose : |toBinary64 (f * 60) - f * 60| ≤ 1 / (2 : ℚ) ^ 48 := by
    rcases eq_or_lt_of_le hy with hz | hpos
    · rw [← hz]
      unfold toBinary64
      rw [roundBinary_zero]
      norm_num
    · have hlt : f * 60 < (2 : ℚ) ^ (6 : ℤ) := by
        have : (2 : ℚ) ^ (6 : ℤ) = 64 := by norm_num
        rw [this]
        have : (0 : ℚ) < 1 / (2 : ℚ) ^ 53 := by positivity
        linarith
      have hu := ulpExp_le 53 (-1074) (f * 60) 6 hpos hlt
      have hu' : ulpExp 53 (-1074) (f * 60) ≤ -47 := by
        have : max ((6 : ℤ) - ((53 : ℕ) : ℤ)) (-1074) = -47 := by decide
        rw [this] at hu
        exact hu
      have hc := roundBinary_close 53 (-1074) (f * 60) hy
      have hz : (2 : ℚ) ^ ulpExp 53 (-1074) (f * 60) ≤ (2 : ℚ) ^ (-47 : ℤ) :=
        zpow_le_zpow_right₀ (by norm_num) hu'
      have hv : (2 : ℚ) ^ (-47 : ℤ) / 2 = 1 / (2 : ℚ) ^ 48 := by
        rw [zpow_neg]
        norm_num
      calc |toBinary64 (f * 60) - f * 60|
          ≤ (2 : ℚ) ^ ulpExp 53 (-1074) (f * 60) / 2 := hc
        _ ≤ (2 : ℚ) ^ (-47 : ℤ) / 2 := div_le_div_of_nonneg_right hz (by norm_num)
        _ = 1 / (2 : ℚ) ^ 48 := hv
  refine ⟨hnn, ?_, hclose⟩
  rw [abs_le] at hclose
  have hnum : (60 : ℚ) * (1 / (2 : ℚ) ^ 53) > 1 / (2 : ℚ) ^ 48 := by norm_num
  nlinarith [hclose.2]

theorem toBinary64_idem (y : ℚ) (hy : 0 ≤ y) : toBinary64 (toBinary64 y) = toBinary64 y := by
  obtain ⟨n, e, hn, he, hr⟩ := toBinary64_exists y hy
  rw [hr]
  exact roundBinary_repr 53 (-1074) n e hn he

/-- The parts computed by the accessors from the magnitude `a` of a stored
double: minutes and seconds in 0..59, and the three parts within `2 ^ (-53)`
of bracketing `a`. -/
theorem dms_double (a : ℚ) (ha : 0 ≤ a) (hd : toBinary64 a = a) :
    0 ≤ truncToInt (minutesValue a) ∧ truncToInt (minutesValue a) ≤ 59 ∧
      0 ≤ truncToInt (secondsValue a) ∧ truncToInt (secondsValue a) ≤ 59 ∧
      (truncToInt a : ℚ) ≤ a ∧ a < (truncToInt a : ℚ) + 1 ∧
      (truncToInt a : ℚ) + (truncToInt (minutesValue a) : ℚ) / 60 +
        (truncToInt (secondsValue a) : ℚ) / 3600 - 1 / (2 : ℚ) ^ 53 ≤ a ∧
      a < (truncToInt a : ℚ) + (truncToInt (minutesValue a) : ℚ) / 60 +
        ((truncToInt (secondsValue a) : ℚ) + 1) / 3600 + 1 / (2 : ℚ) ^ 53 := by
  obtain ⟨hf, hf0, hf1⟩ := toBinary64_fract a ha hd
  obtain ⟨_, hd1, hd2⟩ := truncToInt_bounds a ha
  have hM : minutesValue a = toBinary64 ((a - (truncToInt a : ℚ)) * 60) := by
    unfold minutesValue
    rw [hf]
  obtain ⟨hM0, hM60, hMc⟩ := toBinary64_mul60 _ hf0 hf1
  rw [← hM] at hM0 hM60 hMc
  have hMd : toBinary64 (minutesValue a) = minutesValue a := by
    rw [hM]
    exact toBinary64_idem _ (by linarith)
  obtain ⟨hg, hg0, hg1⟩ := toBinary64_fract (minutesValue a) hM0 hMd
  obtain ⟨hm0, hm1, hm2⟩ := truncToInt_bounds (minutesValue a) hM0
  have hS : secondsValue a =
      toBinary64 ((minutesValue a - (truncToInt (minutesValue a) : ℚ)) * 60) := by
    unfold secondsValue
    rw [hg]
  obtain ⟨hS0, hS60, hSc⟩ := toBinary64_mul60 _ hg0 hg1
  rw [← hS] at hS0 hS60 hSc
  obtain ⟨hs0, hs1, hs2⟩ := truncToInt_bounds (secondsValue a) hS0
  generalize truncToInt a = deg at *
  generalize minutesValue a = M at *
  generalize secondsValue a = S at *
  generalize truncToInt M = m at *
  generalize truncToInt S = s at *
  have hm59 : m ≤ 59 := by
    have : (m : ℚ) < 60 := by linarith
    have : m < 60 := by exact_mod_cast this
    omega
  have hs59 : s ≤ 59 := by
    have : (s : ℚ) < 60 := by linarith
    have : s < 60 := by exact_mod_cast this
    omega
  rw [abs_le] at hMc hSc
  have he : (1 : ℚ) / 2 ^ 48 / 60 + 1 / 2 ^ 48 / 3600 ≤ 1 / 2 ^ 53 := by norm_num
  refine ⟨hm0, hm59, hs0, hs59, hd1, hd2, ?_, ?_⟩
  · linarith [hMc.1, hMc.2, hSc.1, hSc.2]
  · linarith [hMc.1, hMc.2, hSc.1, hSc.2]

/-- Evaluation of the rounding: a number that is between `2 ^ 52` and
`2 ^ 53` units of `2 ^ (-k)` and within less than half a unit of `n` units is
rounded to `n` units. -/
theorem toBinary64_of_close (y : ℚ) (n k : ℕ) (hk : k ≤ 1074) (h1 : (2 : ℚ) ^ 52 ≤ y * 2 ^ k)
    (h2 : y * 2 ^ k < (2 : ℚ) ^ 53) (hc : |y * 2 ^ k - (n : ℚ)| < 1 / 2) :
    toBinary64 y = (n : ℚ) / 2 ^ k := by
  have hkp : (0 : ℚ) < (2 : ℚ) ^ k := pow_pos (by norm_num) k
  have hz : (2 : ℚ) ^ (-(k : ℤ)) = 1 / (2 : ℚ) ^ k := by
    rw [zpow_neg, zpow_natCast, one_div]
  have hy : 0 ≤ y := by
    by_contra hneg
    push_neg at hneg
    have : y * 2 ^ k < 0 := mul_neg_of_neg_of_pos hneg hkp
    have : (0 : ℚ) < (2 : ℚ) ^ 52 := by norm_num
    linarith
  have hL1 : (2 : ℚ) ^ ((52 : ℤ) - k) ≤ y := by
    rw [zpow_sub₀ (by norm_num : (2 : ℚ) ≠ 0), zpow_natCast, div_le_iff₀ hkp]
    exact_mod_cast h1
  have hL2 : y < (2 : ℚ) ^ ((52 : ℤ) - k + 1) := by
    have : (52 : ℤ) - k + 1 = 53 - k := by ring
    rw [this, zpow_sub₀ (by norm_num : (2 : ℚ) ≠ 0), zpow_natCast, lt_div_iff₀ hkp]
    exact_mod_cast h2
  have hu : ulpExp 53 (-1074) y = -(k : ℤ) := by
    rw [ulpExp_eq 53 (-1074) y ((52 : ℤ) - k) hL1 hL2 (by push_cast; omega)]
    push_cast
    ring
  unfold toBinary64
  rw [roundBinary_eq 53 (-1074) y n (-(k : ℤ)) hy hu (by
    rw [hz, div_div_eq_mul_div, div_one]
    exact hc), hz]
  ring

/-- A significand below `2 ^ 53` over a power of two down to `2 ^ 1074` is a
double. -/
theorem toBinary64_dyadic (n k : ℕ) (hn : n < 2 ^ 53) (hk : k ≤ 1074) :
    toBinary64 ((n : ℚ) / 2 ^ k) = (n : ℚ) / 2 ^ k := by
  have hz : (n : ℚ) / 2 ^ k = (n : ℚ) * (2 : ℚ) ^ (-(k : ℤ)) := by
    rw [zpow_neg, zpow_natCast, div_eq_mul_inv]
  rw [hz]
  exact roundBinary_repr 53 (-1074) n (-(k : ℤ)) hn (by omega)

theorem toBinary64_natCast (n : ℕ) (hn : n < 2 ^ 53) : toBinary64 (n : ℚ) = (n : ℚ) := by
  have h := toBinary64_dyadic n 0 hn (by norm_num)
  simpa using h

theorem toBinary64_1852 : toBinary64 1.852 = 8340666509890159 / 2 ^ 52 := by
  have h := toBinary64_of_close 1.852 8340666509890159 52 (by norm_num) (by norm_num) (by norm_num)
    (by rw [abs_lt]; constructor <;> norm_num)
  rw [h]
  norm_num

theorem toBinary64_224 : toBinary64 22.4 = 6305039478318694 / 2 ^ 48 := by
  have h := toBinary64_of_close 22.4 6305039478318694 48 (by norm_num) (by norm_num) (by norm_num)
    (by rw [abs_lt]; constructor <;> norm_num)
  rw [h]
  norm_num

theorem toBinary64_product_224 :
    toBinary64 (6305039478318694 / 2 ^ 48 * (8340666509890159 / 2 ^ 52)) =
      5838466556923111 / 2 ^ 47 := by
  have h := toBinary64_of_close (6305039478318694 / 2 ^ 48 * (8340666509890159 / 2 ^ 52))
    5838466556923111 47 (by norm_num) (by norm_num) (by norm_num)
    (by rw [abs_lt]; constructor <;> norm_num)
  rw [h]
  norm_num

theorem toBinary64_near_375 : toBinary64 (3749999999999999999 / 100000000000000000) = 75 / 2 := by
  have h := toBinary64_of_close (3749999999999999999 / 100000000000000000) 5277655813324800 47
    (by norm_num) (by norm_num) (by norm_num) (by rw [abs_lt]; constructor <;> norm_num)
  rw [h]
  norm_num

theorem toBinary64_product_375 :
    toBinary64 (75 / 2 * (8340666509890159 / 2 ^ 52)) = 4887109283138765 / 2 ^ 46 := by
  have h := toBinary64_of_close (75 / 2 * (8340666509890159 / 2 ^ 52))
    4887109283138765 46 (by norm_num) (by norm_num) (by norm_num)
    (by rw [abs_lt]; constructor <;> norm_num)
  rw [h]
  norm_num

theorem toBinary64_three_tenths : toBinary64 (3 / 10) = 5404319552844595 / 2 ^ 54 := by
  have h := toBinary64_of_close (3 / 10) 5404319552844595 54 (by norm_num) (by norm_num)
    (by norm_num) (by rw [abs_lt]; constructor <;> norm_num)
  rw [h]
  norm_num

theorem truncToInt_lt_one (x : ℚ) (h0 : 0 ≤ x) (h1 : x < 1) : truncToInt x = 0 := by
  rw [truncToInt_eq_floor x h0]
  exact Int.floor_eq_zero_iff.mpr ⟨h0, h1⟩

theorem truncToInt_natCast (n : ℕ) : truncToInt (n : ℚ) = (n : ℤ) := by
  rw [truncToInt_eq_floor _ (Nat.cast_nonneg n)]
  exact Int.floor_natCast n

theorem minutesValue_three_tenths : minutesValue (5404319552844595 / 2 ^ 54) = 18 := by
  have ht : truncToInt (5404319552844595 / 2 ^ 54 : ℚ) = 0 :=
    truncToInt_lt_one _ (by norm_num) (by norm_num)
  unfold minutesValue
  rw [ht, Int.cast_zero, sub_zero]
  have hd := toBinary64_dyadic 5404319552844595 54 (by norm_num) (by norm_num)
  have hd' : toBinary64 (5404319552844595 / 2 ^ 54) = 5404319552844595 / 2 ^ 54 := by
    simpa using hd
  rw [hd']
  have h := toBinary64_of_close (5404319552844595 / 2 ^ 54 * 60) 5066549580791808 48 (by norm_num)
    (by norm_num) (by norm_num) (by rw [abs_lt]; constructor <;> norm_num)
  rw [h]
  norm_num

theorem secondsValue_three_tenths : secondsValue (5404319552844595 / 2 ^ 54) = 0 := by
  unfold secondsValue
  rw [minutesValue_three_tenths]
  have ht : truncToInt (18 : ℚ) = 18 := by
    have := truncToInt_natCast 18
    simpa using this
  rw [ht]
  have h0 : toBinary64 0 = 0 := roundBinary_zero 53 (-1074)
  norm_num [h0]

theorem roundHalfUp_close (p q : Nat) (hq : 0 < q) :
    |((roundHalfUp p q : Nat) : ℚ) - (p : ℚ) / q| ≤ 1 / 2 := by
  have hdm := Nat.div_add_mod (2 * p + q) (2 * q)
  have hlt := Nat.mod_lt (2 * p + q) (show 0 < 2 * q by omega)
  have h1 : 2 * q * roundHalfUp p q ≤ 2 * p + q := by
    unfold roundHalfUp
    omega
  have h2 : 2 * p + q < 2 * q * roundHalfUp p q + 2 * q := by
    unfold roundHalfUp
    omega
  have hqq : (0 : ℚ) < q := by exact_mod_cast hq
  have h1q : (2 : ℚ) * q * (roundHalfUp p q : Nat) ≤ 2 * p + q := by exact_mod_cast h1
  have h2q : (2 : ℚ) * p + q < 2 * q * (roundHalfUp p q : Nat) + 2 * q := by exact_mod_cast h2
  have hdiv : (p : ℚ) / q * q = p := div_mul_cancel₀ _ (ne_of_gt hqq)
  rw [abs_le]
  constructor
  · by_contra hcon
    push_neg at hcon
    nlinarith
  · by_contra hcon
    push_neg at hcon
    nlinarith

/-! ## Numerals written by `numberF1` -/

theorem tenths_close (x : ℚ) : |(tenths x : ℚ) - |x| * 10| ≤ 1 / 2 := by
  have hnn : 0 ≤ |x| * 10 := by positivity
  have hnum : 0 ≤ (|x| * 10).num := Rat.num_nonneg.mpr hnn
  have hcast : (((|x| * 10).num.natAbs : Nat) : ℚ) = ((|x| * 10).num : ℚ) := by
    have h1 : (((|x| * 10).num.natAbs : Nat) : ℤ) = (|x| * 10).num := Int.natAbs_of_nonneg hnum
    rw [← Int.cast_natCast, h1]
  have h := roundHalfUp_close (|x| * 10).num.natAbs (|x| * 10).den (|x| * 10).den_pos
  rw [hcast, Rat.num_div_den] at h
  exact h

/-- Writing a number with `number(x, 'f', 1)` and reading it back gives a
whole number of tenths within a twentieth of the number. -/
theorem roundF1_spec (x : ℚ) :
    (∃ k : ℤ, toDouble (numberF1 x) = (k : ℚ) / 10) ∧ |toDouble (numberF1 x) - x| ≤ 1 / 20 := by
  have hc := tenths_close x
  rw [toDouble_numberF1]
  by_cases hx : x < 0
  · simp only [hx, if_true]
    refine ⟨⟨-(tenths x : ℤ), by push_cast; ring⟩, ?_⟩
    rw [abs_of_neg hx] at hc
    rw [abs_le] at hc ⊢
    constructor <;> linarith [hc.1, hc.2]
  · simp only [hx, if_false]
    refine ⟨⟨(tenths x : ℤ), by push_cast; ring⟩, ?_⟩
    rw [abs_of_nonneg (not_lt.mp hx)] at hc
    rw [abs_le] at hc ⊢
    constructor <;> linarith [hc.1, hc.2]

/-- A number of tenths is determined by being within half a tenth, strictly,
of the number written. -/
theorem toDouble_numberF1_eq (x : ℚ) (k : ℕ) (h0 : 0 ≤ x) (h1 : (k : ℚ) - 1 / 2 < x * 10)
    (h2 : x * 10 < (k : ℚ) + 1 / 2) : toDouble (numberF1 x) = (k : ℚ) / 10 := by
  have hc := tenths_close x
  rw [abs_of_nonneg h0, abs_le] at hc
  have hlt : ((tenths x : ℤ) : ℚ) < (k : ℤ) + 1 := by push_cast; linarith [hc.2]
  have hgt : ((k : ℤ) : ℚ) < (tenths x : ℤ) + 1 := by push_cast; linarith [hc.1]
  have hlt2 : (tenths x : ℤ) < (k : ℤ) + 1 := by exact_mod_cast hlt
  have hgt2 : (k : ℤ) < (tenths x : ℤ) + 1 := by exact_mod_cast hgt
  have : tenths x = k := by omega
  rw [toDouble_numberF1, if_neg (not_lt.mpr h0), this]

theorem toDouble_0224 : toDouble (qs "022.4") = 22.4 := by
  have : readDecimal (qs "022.4") = some ⟨false, 22, 4, 1, 0⟩ := by decide
  simp only [toDouble, toDoubleOk, this, Option.map_some', Option.getD_some, Decimal.value]
  norm_num

/-! ## Dates read by `fromString` -/

theorem twoDigits_le (a b : Char) (n : Nat) (h : twoDigits a b = some n) : n ≤ 99 := by
  unfold twoDigits at h
  simp only [digitsFrom] at h
  unfold digitVal at h
  split_ifs at h
  all_goals simp at h
  omega

/-- A date-time that `fromString` accepts has its year in `1900..1999`, read
from the characters at offsets 4 and 5. -/
theorem fromString_year (s : QString) (dt : QDate × QTime) (h : fromString s = some dt) :
    ∃ yy : Nat, twoDigits (s.getD 4 ' ') (s.getD 5 ' ') = some yy ∧ yy ≤ 99 ∧
      dt.1.year = 1900 + (yy : Int) := by
  unfold fromString at h
  split at h
  · split at h
    · rename_i hyy _ _ _ _
      simp only at h
      split_ifs at h
      simp only [Option.some.injEq] at h
      subst h
      exact ⟨_, hyy, twoDigits_le _ _ _ hyy, rfl⟩
    · simp at h
  · simp at h

theorem yearOf_addYears (date : QDate) (time : QTime) (h : 0 < date.year) :
    yearOf (addYears (some (date, time)) 100) = date.year + 100 := by
  have h1 : ¬ ((date.year > 0 ∧ date.year + 100 ≤ 0) ∨ (date.year < 0 ∧ date.year + 100 ≥ 0)) := by
    omega
  simp only [addYears, yearOf, h1, if_false]

/-! ## The claims -/

/-- Claim C1, evaluated on the code: `parseGSV` does not reject a tuple whose
PRN is outside `0..49`.  On the sentence naming satellite 99 it does not
return: the run ends in the write `satArray[99][0] = elev`, outside the 50
rows of the table. -/
theorem parseGSV_prn_outside_table_faults :
    countChar '$' gsvPrn99 = 1 ∧ toInt (field gsvPrn99 4) = 99 ∧
      satIndex (toInt (field gsvPrn99 4)) = none ∧
      (parseGSV gsvPrn99 Device.init).isFault = true ∧
      (parseGSV gsvPrn99 Device.init).value = none := by
  decide

/-- Claim C2, evaluated on the code: a decoder handed fewer fields than it
reads reports no failure.  `parseGSA` on a sentence of 3 fields has already
stored the fix mode and the fix type when it indexes `tokens[3]` past the end
of the list, and `parseRMC` on a sentence of 11 fields has already stored the
fix status and the timestamp when it indexes `tokens[11]`. -/
theorem short_frame_faults_after_writes :
    (split ',' gsaShort).length = 3 ∧
      (parseGSA gsaShort Device.init).isFault = true ∧
      (parseGSA gsaShort Device.init).dev.cur_fixtype = FixType.FixInvalid ∧
      Device.init.cur_fixtype = FixType.FixUnavailable ∧
      (split ',' rmcShort).length = 11 ∧
      (parseRMC rmcShort Device.init).isFault = true ∧
      (parseRMC rmcShort Device.init).dev.cur_fixstatus = FixStatus.StatusActive ∧
      Device.init.cur_fixstatus = FixStatus.StatusVoid ∧
      yearOf (parseRMC rmcShort Device.init).dev.cur_datetime = 1994 ∧
      Device.init.cur_datetime = none := by
  decide

/-- Claim C3 as stated fails: a frame with two `$` is still handed to a
per-type decoder.  The frame made of two GGA sentences run together has the
type code GGA at offsets 3..5, so `parseNMEA` calls `parseGGA` on it, and the
state after the call differs from the state before in the hold count of the
mutex. -/
theorem parseNMEA_two_markers_reach_decoder :
    1 < countChar '$' ggaTwice ∧ ¬ ggaTwice.length < 6 ∧
      sentenceType ggaTwice = some Sentence.GGA ∧
      (parseNMEA ggaTwice Device.init).dev.lockDepth = 1 ∧ Device.init.lockDepth = 0 := by
  decide

/-- Claim C3, amended: for every frame with more than one `$`, `parseNMEA`
returns, every data member of the state keeps its value (the state after is
the state before up to the hold count of the mutex), no position signal is
emitted, and each of the five decoders, when handed the frame, returns false. -/
theorem parseNMEA_two_markers_data_unchanged (frame : QString) (d : Device)
    (h : 1 < countChar '$' frame) :
    (∃ sigs d1, parseNMEA frame d = Run.done sigs d1 ∧
        d1 = { d with lockDepth := d1.lockDepth } ∧
        (sigs = [] ∨ sigs = [Signal.updateStatus])) ∧
      (parseGGA frame d).value = some false ∧ (parseGLL frame d).value = some false ∧
      (parseGSV frame d).value = some false ∧ (parseGSA frame d).value = some false ∧
      (parseRMC frame d).value = some false := by
  obtain ⟨hgga, hgll, hgsv, hgsa, hrmc⟩ := reject_run frame d h
  refine ⟨?_, by rw [hgga]; rfl, by rw [hgll]; rfl, by rw [hgsv]; rfl, by rw [hgsa]; rfl,
    by rw [hrmc]; rfl⟩
  unfold parseNMEA
  by_cases hlen : frame.length < 6
  · exact ⟨[], d, by simp [hlen], rfl, Or.inl rfl⟩
  · simp only [hlen, if_false]
    cases hs : sentenceType frame with
    | none => exact ⟨_, d, rfl, rfl, Or.inr rfl⟩
    | some k =>
      cases k
      · exact ⟨_, { d with lockDepth := d.lockDepth + 1 },
          by simp only [bind_run, hgga, pure_run], rfl, Or.inr rfl⟩
      · exact ⟨_, { d with lockDepth := d.lockDepth + 1 },
          by simp only [bind_run, hgll, pure_run], rfl, Or.inr rfl⟩
      · exact ⟨_, { d with lockDepth := d.lockDepth + 1 },
          by simp only [bind_run, hgsv, pure_run], rfl, Or.inr rfl⟩
      · exact ⟨_, { d with lockDepth := d.lockDepth + 1 },
          by simp only [bind_run, hgsa, pure_run], rfl, Or.inr rfl⟩
      · refine ⟨[Signal.updateStatus], { d with lockDepth := d.lockDepth + 1 }, ?_, rfl,
          Or.inr rfl⟩
        simp only [bind_run, hrmc, getDevice, Bool.false_and, pure_run]
        rfl

/-- Witness of C3 amended, on two GGA sentences run together, from the state
the constructor leaves. -/
theorem parseNMEA_two_markers_data_unchanged_witness :
    1 < countChar '$' ggaTwice ∧
      (∃ sigs d1, parseNMEA ggaTwice Device.init = Run.done sigs d1 ∧
        d1 = { Device.init with lockDepth := d1.lockDepth } ∧
        (sigs = [] ∨ sigs = [Signal.updateStatus])) :=
  ⟨by decide, (parseNMEA_two_markers_data_unchanged ggaTwice Device.init (by decide)).1⟩

/-- Claim C4 as stated fails: `parseGGA` does not store the converted
position.  On the GGA sentence of the source's own comment, from the state
the constructor leaves, it returns true with latitude and longitude still 0,
not 48 + 7.038/60 and 11 + 31/60. -/
theorem parseGGA_example_position_not_stored :
    countChar '$' ggaExample = 1 ∧ 10 ≤ (split ',' ggaExample).length ∧
      (parseGGA ggaExample Device.init).value = some true ∧
      (parseGGA ggaExample Device.init).dev.cur_latitude = 0 ∧
      (parseGGA ggaExample Device.init).dev.cur_longitude = 0 ∧
      (parseGGA ggaExample Device.init).dev.cur_latitude ≠ 48 + 7.038 / 60 ∧
      (parseGGA ggaExample Device.init).dev.cur_longitude ≠ 11 + 31 / 60 := by
  have hrun := parseGGA_run ggaExample Device.init (by decide) (by decide)
  rw [hrun]
  refine ⟨by decide, by decide, rfl, rfl, rfl, ?_, ?_⟩
  · show (0 : ℚ) ≠ 48 + 7.038 / 60
    norm_num
  · show (0 : ℚ) ≠ 11 + 31 / 60
    norm_num

/-- Claim C4, amended: for every GGA frame with exactly one `$` and at least
10 fields, `parseGGA` returns true and leaves the stored latitude and
longitude as they were; the values it converts from the fields 2 to 5 stay in
locals. -/
theorem parseGGA_position_unchanged (line : QString) (d : Device)
    (h1 : countChar '$' line = 1) (h2 : 10 ≤ (split ',' line).length) :
    ∃ d1, parseGGA line d = Run.done true d1 ∧
      d1.cur_latitude = d.cur_latitude ∧ d1.cur_longitude = d.cur_longitude :=
  ⟨ggaResult line d, parseGGA_run line d (le_of_eq h1) h2, rfl, rfl⟩

/-- Witness of C4 amended, on the GGA sentence of the source's comment. -/
theorem parseGGA_position_unchanged_witness :
    countChar '$' ggaExample = 1 ∧ 10 ≤ (split ',' ggaExample).length ∧
      ∃ d1, parseGGA ggaExample Device.init = Run.done true d1 ∧
        d1.cur_latitude = Device.init.cur_latitude ∧
        d1.cur_longitude = Device.init.cur_longitude :=
  ⟨by decide, by decide, parseGGA_position_unchanged ggaExample Device.init (by decide) (by decide)⟩

theorem toDouble_48 : toDouble (qs "48") = 48 := by
  have : readDecimal (qs "48") = some ⟨false, 48, 0, 0, 0⟩ := by decide
  simp only [toDouble, toDoubleOk, this, Option.map_some', Option.getD_some, Decimal.value]
  norm_num

theorem toDouble_07038 : toDouble (qs "07.038") = 7.038 := by
  have : readDecimal (qs "07.038") = some ⟨false, 7, 38, 3, 0⟩ := by decide
  simp only [toDouble, toDoubleOk, this, Option.map_some', Option.getD_some, Decimal.value]
  norm_num

theorem toDouble_near_375 :
    toDouble (qs "37.49999999999999999") = 3749999999999999999 / 100000000000000000 := by
  have : readDecimal (qs "37.49999999999999999") =
      some ⟨false, 37, 49999999999999999, 17, 0⟩ := by decide
  simp only [toDouble, toDoubleOk, this, Option.map_some', Option.getD_some, Decimal.value]
  norm_num

theorem speedProduct_0224 : speedProduct (qs "022.4") = 5838466556923111 / 2 ^ 47 := by
  unfold speedProduct toDoubleRounded
  rw [toDouble_0224, toBinary64_224, toBinary64_1852, toBinary64_product_224]

theorem speedProduct_near_375 :
    speedProduct (qs "37.49999999999999999") = 4887109283138765 / 2 ^ 46 := by
  unfold speedProduct toDoubleRounded
  rw [toDouble_near_375, toBinary64_near_375, toBinary64_1852, toBinary64_product_375]

theorem speedProduct_eq (t : QString) :
    speedProduct t = toBinary64 (toDoubleRounded t * toBinary64 1.852) := rfl

theorem rmcResult_speed (line : QString) (d : Device) :
    (rmcResult line d).cur_speed = toDoubleRounded (numberF1 (speedProduct (field line 7))) := by
  rw [speedProduct_eq]
  simp only [rmcResult]

/-- Claim C7, evaluated on the code: `parseRMC` accepts the RMC sentence of
its own documentation comment, whose date field is `230394` (23 March 1994 in
that comment) and whose time field `123519` has no fraction of a second;
`fromString` with the format `ddMMyyHHmmss.zzz` cannot read `230394123519`,
so the stored timestamp is invalid and its year is 0, neither 1994 nor within
1970..2069. -/
theorem parseRMC_example_timestamp_invalid :
    (parseRMC rmcExample Device.init).value = some true ∧
      field rmcExample 9 = qs "230394" ∧ field rmcExample 1 = qs "123519" ∧
      (parseRMC rmcExample Device.init).dev.cur_datetime = none ∧
      yearOf (parseRMC rmcExample Device.init).dev.cur_datetime = 0 := by
  decide

/-- The century pivot where the timestamp is read (see C7): for every RMC
frame that `parseRMC` accepts and whose date and time fields together are read
by the format `ddMMyyHHmmss.zzz`,
the year of the stored timestamp is the parsed year moved forward by 100 when
the parsed year is below 1970 and the parsed year itself otherwise; it lies in
1970..2069, the date field `230304` gives 2004 and the date field `230394`
gives 1994. -/
theorem parseRMC_century_pivot (line : QString) (d d1 : Device) (dt : QDate × QTime)
    (hacc : parseRMC line d = Run.done true d1)
    (hread : fromString (field line 9 ++ field line 1) = some dt) :
    yearOf d1.cur_datetime = (if dt.1.year < 1970 then dt.1.year + 100 else dt.1.year) ∧
      1970 ≤ yearOf d1.cur_datetime ∧ yearOf d1.cur_datetime ≤ 2069 ∧
      (field line 9 = qs "230304" → yearOf d1.cur_datetime = 2004) ∧
      (field line 9 = qs "230394" → yearOf d1.cur_datetime = 1994) := by
  obtain ⟨hc, hl⟩ := parseRMC_accepts line d d1 hacc
  rw [parseRMC_run line d hc hl] at hacc
  have hd : d1 = rmcResult line d := by
    injection hacc with _ h
    exact h.symm
  obtain ⟨yy, hyy, hle, hyear⟩ := fromString_year _ dt hread
  have hdt : d1.cur_datetime =
      (if yearOf (fromString (field line 9 ++ field line 1)) < 1970 then
        addYears (fromString (field line 9 ++ field line 1)) 100
      else fromString (field line 9 ++ field line 1)) := by
    rw [hd]
    rfl
  have hy : yearOf d1.cur_datetime =
      (if dt.1.year < 1970 then dt.1.year + 100 else dt.1.year) := by
    rw [hdt, hread]
    obtain ⟨date, time⟩ := dt
    by_cases hlt : date.year < 1970
    · have hpos : 0 < date.year := by simp only at hyear; omega
      simp only [yearOf, hlt, if_true]
      exact yearOf_addYears date time hpos
    · simp only [yearOf, hlt, if_false]
  refine ⟨hy, ?_, ?_, ?_, ?_⟩
  · rw [hy]
    split_ifs <;> omega
  · rw [hy]
    split_ifs <;> omega
  · intro h9
    rw [h9] at hyy
    have h04 : twoDigits '0' '4' = some 4 := by decide
    have : yy = 4 := by
      have h := hyy
      simp only [qs, String.toList, List.cons_append, List.getD_cons_succ, List.getD_cons_zero] at h
      rw [h04] at h
      exact (Option.some.inj h).symm
    rw [hy, hyear, this]
    decide
  · intro h9
    rw [h9] at hyy
    have h94 : twoDigits '9' '4' = some 94 := by decide
    have : yy = 94 := by
      have h := hyy
      simp only [qs, String.toList, List.cons_append, List.getD_cons_succ, List.getD_cons_zero] at h
      rw [h94] at h
      exact (Option.some.inj h).symm
    rw [hy, hyear, this]
    decide

/-- The century pivot on an RMC sentence with the time `123519.000` and the
date `230304`: the stored year is 2004. -/
theorem parseRMC_century_pivot_witness :
    parseRMC rmcMillis Device.init = Run.done true (rmcResult rmcMillis Device.init) ∧
      fromString (field rmcMillis 9 ++ field rmcMillis 1) =
        some (⟨1904, 3, 23⟩, ⟨12, 35, 19, 0⟩) ∧
      yearOf (rmcResult rmcMillis Device.init).cur_datetime = 2004 :=
  ⟨parseRMC_run rmcMillis Device.init (by decide) (by decide), by decide,
    (parseRMC_century_pivot rmcMillis Device.init (rmcResult rmcMillis Device.init)
      (⟨1904, 3, 23⟩, ⟨12, 35, 19, 0⟩)
      (parseRMC_run rmcMillis Device.init (by decide) (by decide)) (by decide)).2.2.2.1
      (by decide)⟩

/-- Claim C8: for every GGA frame with exactly one `$` and at least 10
fields, `parseGGA` returns true, the stored fix quality is the integer value
of field 6 and the stored satellite count the integer value of field 7, each 0
when the field is not an integer; for the GGA sentence of the source's comment
they are 1 and 8. -/
theorem parseGGA_quality_and_count (line : QString) (d : Device)
    (h1 : countChar '$' line = 1) (h2 : 10 ≤ (split ',' line).length) :
    ∃ d1, parseGGA line d = Run.done true d1 ∧
      d1.cur_fixquality = (toIntOk (field line 6)).getD 0 ∧
      d1.cur_numSatellites = (toIntOk (field line 7)).getD 0 ∧
      (toIntOk (field line 6) = none → d1.cur_fixquality = 0) ∧
      (toIntOk (field line 7) = none → d1.cur_numSatellites = 0) ∧
      (line = ggaExample → d1.cur_fixquality = 1 ∧ d1.cur_numSatellites = 8) := by
  refine ⟨ggaResult line d, parseGGA_run line d (le_of_eq h1) h2, rfl, rfl, ?_, ?_, ?_⟩
  · intro h
    show toInt (field line 6) = 0
    rw [toInt, h]
    rfl
  · intro h
    show toInt (field line 7) = 0
    rw [toInt, h]
    rfl
  · intro h
    subst h
    exact ⟨show toInt (field ggaExample 6) = 1 by decide,
      show toInt (field ggaExample 7) = 8 by decide⟩

/-- Witness of C8, on the GGA sentence of the source's comment. -/
theorem parseGGA_quality_and_count_witness :
    countChar '$' ggaExample = 1 ∧ 10 ≤ (split ',' ggaExample).length ∧
      ∃ d1, parseGGA ggaExample Device.init = Run.done true d1 ∧
        d1.cur_fixquality = 1 ∧ d1.cur_numSatellites = 8 := by
  obtain ⟨d1, hrun, _, _, _, _, hex⟩ :=
    parseGGA_quality_and_count ggaExample Device.init (by decide) (by decide)
  exact ⟨by decide, by decide, d1, hrun, hex rfl⟩

/-- Claim C9: for every RMC frame that `parseRMC` accepts, the fix status
afterwards is Active if and only if field 2 is exactly `A`, and Void
otherwise; for every GLL frame that `parseGLL` accepts, the fix status
afterwards is Active if and only if field 6 is exactly `A`, and Void
otherwise. -/
theorem fix_status_of_rmc_and_gll (rmc gll : QString) (d d1 e e1 : Device)
    (hrmc : parseRMC rmc d = Run.done true d1) (hgll : parseGLL gll e = Run.done true e1) :
    (d1.cur_fixstatus = FixStatus.StatusActive ↔ field rmc 2 = qs "A") ∧
      (d1.cur_fixstatus = FixStatus.StatusVoid ↔ field rmc 2 ≠ qs "A") ∧
      (e1.cur_fixstatus = FixStatus.StatusActive ↔ field gll 6 = qs "A") ∧
      (e1.cur_fixstatus = FixStatus.StatusVoid ↔ field gll 6 ≠ qs "A") := by
  obtain ⟨hc, hl⟩ := parseRMC_accepts rmc d d1 hrmc
  rw [parseRMC_run rmc d hc hl] at hrmc
  obtain ⟨hc2, hl2⟩ := parseGLL_accepts gll e e1 hgll
  rw [parseGLL_run gll e hc2 hl2] at hgll
  have hd : d1 = rmcResult rmc d := by
    injection hrmc with _ h
    exact h.symm
  have he : e1 = gllResult gll e := by
    injection hgll with _ h
    exact h.symm
  have hs : d1.cur_fixstatus =
      (if field rmc 2 = qs "A" then FixStatus.StatusActive else FixStatus.StatusVoid) := by
    rw [hd]
    rfl
  have hs2 : e1.cur_fixstatus =
      (if field gll 6 = qs "A" then FixStatus.StatusActive else FixStatus.StatusVoid) := by
    rw [he]
    rfl
  rw [hs, hs2]
  by_cases ha : field rmc 2 = qs "A" <;> by_cases hb : field gll 6 = qs "A" <;> simp [ha, hb]

/-- Witness of C9, on an RMC and a GLL sentence whose status field is `A`. -/
theorem fix_status_of_rmc_and_gll_witness :
    parseRMC rmcMillis Device.init = Run.done true (rmcResult rmcMillis Device.init) ∧
      parseGLL gllExample Device.init = Run.done true (gllResult gllExample Device.init) ∧
      (rmcResult rmcMillis Device.init).cur_fixstatus = FixStatus.StatusActive ∧
      (gllResult gllExample Device.init).cur_fixstatus = FixStatus.StatusActive :=
  ⟨parseRMC_run rmcMillis Device.init (by decide) (by decide),
    parseGLL_run gllExample Device.init (by decide) (by decide),
    (fix_status_of_rmc_and_gll rmcMillis gllExample Device.init _ Device.init _
      (parseRMC_run rmcMillis Device.init (by decide) (by decide))
      (parseGLL_run gllExample Device.init (by decide) (by decide))).1.mpr (by decide),
    (fix_status_of_rmc_and_gll rmcMillis gllExample Device.init _ Device.init _
      (parseRMC_run rmcMillis Device.init (by decide) (by decide))
      (parseGLL_run gllExample Device.init (by decide) (by decide))).2.2.1.mpr (by decide)⟩

/-- Claim C10: for every GSA frame with exactly one `$` and at least 15
fields, `parseGSA` returns true; afterwards the fix mode is Auto if and only
if field 1 is `A` and Manual otherwise, the fix type is Invalid when field 2
has the integer value 1, 2D when it has the value 2 and 3D otherwise, and for
each `k` in 0..11 entry `k` of the active set is the integer value of field
`k + 3`, which is 0 for an empty field. -/
theorem parseGSA_mode_type_active (line : QString) (d : Device)
    (h1 : countChar '$' line = 1) (h2 : 15 ≤ (split ',' line).length) :
    ∃ d1, parseGSA line d = Run.done true d1 ∧
      (d1.cur_fixmode = FixMode.FixAuto ↔ field line 1 = qs "A") ∧
      (d1.cur_fixmode = FixMode.FixManual ↔ field line 1 ≠ qs "A") ∧
      (toInt (field line 2) = 1 → d1.cur_fixtype = FixType.FixInvalid) ∧
      (toInt (field line 2) = 2 → d1.cur_fixtype = FixType.Fix2D) ∧
      (toInt (field line 2) ≠ 1 → toInt (field line 2) ≠ 2 → d1.cur_fixtype = FixType.Fix3D) ∧
      ∀ k : Fin 12, d1.activeSats k = (toIntOk (field line (k.val + 3))).getD 0 ∧
        (field line (k.val + 3) = [] → d1.activeSats k = 0) := by
  refine ⟨gsaResult line d, parseGSA_run line d (le_of_eq h1) h2, ?_, ?_, ?_, ?_, ?_, ?_⟩
  · show (if field line 1 = qs "A" then FixMode.FixAuto else FixMode.FixManual) = _ ↔ _
    by_cases h : field line 1 = qs "A" <;> simp [h]
  · show (if field line 1 = qs "A" then FixMode.FixAuto else FixMode.FixManual) = _ ↔ _
    by_cases h : field line 1 = qs "A" <;> simp [h]
  · intro h
    show (if toInt (field line 2) = 1 then _ else _) = _
    rw [if_pos h]
  · intro h
    show (if toInt (field line 2) = 1 then _ else _) = _
    rw [if_neg (by omega), if_pos h]
  · intro ha hb
    show (if toInt (field line 2) = 1 then _ else _) = _
    rw [if_neg ha, if_neg hb]
  · intro k
    refine ⟨rfl, ?_⟩
    intro h
    show toInt (field line (k.val + 3)) = 0
    rw [h]
    decide

/-- Witness of C10, on the GSA sentence of the source's comment: mode Auto,
type 3D, and the active set 4, 5, 0, 9, ... -/
theorem parseGSA_mode_type_active_witness :
    countChar '$' gsaExample = 1 ∧ 15 ≤ (split ',' gsaExample).length ∧
      ∃ d1, parseGSA gsaExample Device.init = Run.done true d1 ∧
        d1.cur_fixmode = FixMode.FixAuto ∧ d1.cur_fixtype = FixType.Fix3D ∧
        d1.activeSats 0 = 4 ∧ d1.activeSats 2 = 0 := by
  obtain ⟨d1, hrun, hmode, _, _, _, h3, hact⟩ :=
    parseGSA_mode_type_active gsaExample Device.init (by decide) (by decide)
  refine ⟨by decide, by decide, d1, hrun, hmode.mpr (by decide), h3 (by decide) (by decide), ?_,
    (hact 2).2 (by decide)⟩
  rw [(hact 0).1]
  decide

/-! ## The satellite table -/

theorem keeps_bind {α β : Type} (m : Op α) (f : α → Op β)
    (hm : ∀ d, (m d).dev.satArray = d.satArray)
    (hf : ∀ a d, (f a d).dev.satArray = d.satArray) :
    ∀ d, ((m >>= f) d).dev.satArray = d.satArray := by
  intro d
  have h1 := hm d
  rw [bind_run]
  cases hmd : m d with
  | done a d1 =>
    rw [hmd] at h1
    simp only
    rw [hf a d1]
    exact h1
  | fault d1 =>
    rw [hmd] at h1
    exact h1

theorem keeps_tokenAt (tokens : List QString) (i : Nat) :
    ∀ d, (tokenAt tokens i d).dev.satArray = d.satArray := by
  intro d
  unfold tokenAt
  cases tokens.get? i <;> rfl

theorem keeps_gsaLoop (tokens : List QString) : ∀ (fuel index : Nat) (d : Device),
    (gsaLoop tokens fuel index d).dev.satArray = d.satArray := by
  intro fuel
  induction fuel with
  | zero => intro index d; rfl
  | succ fuel ih =>
    intro index d
    unfold gsaLoop
    by_cases h : index < 12
    · rw [dif_pos h]
      refine keeps_bind _ _ ?_ ?_ d
      · exact keeps_tokenAt tokens _
      intro t d1
      refine keeps_bind _ _ ?_ ?_ d1
      · intro _
        rfl
      intro _ d2
      exact ih (index + 1) d2
    · rw [dif_neg h]
      rfl

/-- `parseGSA` leaves the table as it was, whether it returns or not. -/
theorem keeps_parseGSA (gsaString : QString) :
    ∀ d, (parseGSA gsaString d).dev.satArray = d.satArray := by
  unfold parseGSA
  refine keeps_bind _ _ ?_ ?_
  · intro _
    rfl
  intro _ d
  by_cases hc : countChar '$' gsaString > 1
  · simp only [hc, if_true]
    rfl
  · simp only [hc, if_false]
    revert d
    repeat
      refine keeps_bind _ _
        (by first | exact keeps_tokenAt _ _ | exact keeps_gsaLoop _ _ _ | exact fun _ => rfl) ?_
      intro _
    intro d
    rfl

/-- Claim C11: for every input string and every state, `parseGSA` leaves
every entry (elevation, azimuth, signal-to-noise ratio) of the 50-row table
as it was, whether it decodes the string, rejects it or runs past the end of
its fields. -/
theorem parseGSA_keeps_table (gsaString : QString) (d : Device) :
    ∀ j : Fin 50, (parseGSA gsaString d).dev.satArray j = d.satArray j := by
  intro j
  rw [keeps_parseGSA gsaString d]

theorem satIndex_val (prn : Int) (r : Fin 50) (h : satIndex prn = some r) :
    (r.val : Int) = prn := by
  unfold satIndex at h
  split_ifs at h with hr
  simp only [Option.some.injEq] at h
  subst h
  simp only
  omega

theorem satIndex_none_of_ne (prn : Int) (j : Fin 50) (h : satIndex prn = none) :
    prn ≠ (j.val : Int) := by
  unfold satIndex at h
  split_ifs at h with hr
  have := j.isLt
  omega

/-- The three stores of one row, for a row inside the table. -/
theorem satStore_row (prn : Int) (r : Fin 50) (a b c : Int) (d : Device)
    (h : satIndex prn = some r) :
    (do satStore prn 0 a; satStore prn 1 b; satStore prn 2 c : Op Unit) d =
      Run.done () { d with satArray := Function.update d.satArray r ⟨a, b, c⟩ } := by
  simp only [bind_run, satStore, h, Function.update_same, Function.update_idem]

theorem satStore_fault (prn : Int) (a b c : Int) (d : Device) (h : satIndex prn = none) :
    (do satStore prn 0 a; satStore prn 1 b; satStore prn 2 c : Op Unit) d = Run.fault d := by
  simp only [bind_run, satStore, h]

theorem rowAfter_nil (j : Fin 50) (e : SatEntry) : rowAfter j [] e = e := rfl

/-- Storing one more pair in front: the rows after the whole list are the
rows after the rest, started from the table with the first pair stored. -/
theorem rowAfter_cons (j r : Fin 50) (t : Int × SatEntry) (ts : List (Int × SatEntry))
    (tab : Fin 50 → SatEntry) (h : satIndex t.1 = some r) :
    rowAfter j (t :: ts) (tab j) = rowAfter j ts (Function.update tab r t.2 j) := by
  have hv := satIndex_val t.1 r h
  unfold rowAfter
  simp only [lastNaming]
  cases lastNaming j ts with
  | some e => rfl
  | none =>
    simp only
    by_cases hj : j = r
    · subst hj
      simp [hv]
    · have hne : t.1 ≠ (j.val : Int) := by
        rw [← hv]
        intro he
        exact hj (Fin.ext (by exact_mod_cast he.symm))
      simp [hne, Function.update, hj]

theorem rowAfter_cons_skip (j : Fin 50) (t : Int × SatEntry) (ts : List (Int × SatEntry))
    (e : SatEntry) (h : satIndex t.1 = none) :
    rowAfter j (t :: ts) e = rowAfter j ts e := by
  have hne := satIndex_none_of_ne t.1 j h
  unfold rowAfter
  simp only [lastNaming]
  cases lastNaming j ts with
  | some e => rfl
  | none => simp [hne]

theorem gsvSnr_run (t : QString) (d : Device) :
    gsvSnr t d = Run.done
      (if containsChar '*' t then toInt ((split '*' t).getD 0 []) else toInt t) d := by
  unfold gsvSnr
  by_cases h : containsChar '*' t = true
  · have hlen : 0 < (split '*' t).length := by
      cases t with
      | nil => simp [split]
      | cons c cs =>
        unfold split
        split_ifs
        · simp
        · cases split '*' cs <;> simp
    simp only [h, if_true, bind_run, tokenAt_lt _ 0 _ hlen, pure_run]
  · simp only [h, if_false, pure_run]
    rfl

/-- One round of the loop of `parseGSV` on a tuple that exists: the row of
its PRN is overwritten, or the run ends in the store when the PRN is outside
the table. -/
theorem gsvTuple_run (tokens : List QString) (i : Nat) (d : Device) (t : Int × SatEntry)
    (ht : gsvTupleAt tokens i = some t) :
    (∀ r, satIndex t.1 = some r →
      gsvTuple tokens i d = Run.done () { d with satArray := Function.update d.satArray r t.2 }) ∧
    (satIndex t.1 = none → gsvTuple tokens i d = Run.fault d) := by
  unfold gsvTupleAt at ht
  have hlen : i * 4 + 4 + 3 < tokens.length := by
    by_contra hc
    rw [if_neg hc] at ht
    exact absurd ht (by simp)
  rw [if_pos hlen] at ht
  simp only [Option.some.injEq] at ht
  subst ht
  have hrun : gsvTuple tokens i d =
      (do satStore (toInt (tokens.getD (i * 4 + 4) [])) 0 (toInt (tokens.getD (i * 4 + 4 + 1) []))
          satStore (toInt (tokens.getD (i * 4 + 4) [])) 1 (toInt (tokens.getD (i * 4 + 4 + 2) []))
          satStore (toInt (tokens.getD (i * 4 + 4) [])) 2
            (if containsChar '*' (tokens.getD (i * 4 + 4 + 3) []) then
              toInt ((split '*' (tokens.getD (i * 4 + 4 + 3) [])).getD 0 [])
            else toInt (tokens.getD (i * 4 + 4 + 3) [])) : Op Unit) d := by
    simp only [gsvTuple, bind_run, tokenAt_lt tokens (i * 4 + 4) _ (by omega),
      tokenAt_lt tokens (i * 4 + 4 + 1) _ (by omega),
      tokenAt_lt tokens (i * 4 + 4 + 2) _ (by omega),
      tokenAt_lt tokens (i * 4 + 4 + 3) _ (by omega), gsvSnr_run]
  rw [hrun]
  exact ⟨fun r hr => satStore_row _ r _ _ _ d hr, fun hn => satStore_fault _ _ _ _ d hn⟩

theorem gsvTupleAt_none_of_le (tokens : List QString) (i k : Nat) (hik : i ≤ k)
    (h : gsvTupleAt tokens i = none) : gsvTupleAt tokens k = none := by
  unfold gsvTupleAt at h ⊢
  have hlen : ¬ i * 4 + 4 + 3 < tokens.length := by
    intro hc
    rw [if_pos hc] at h
    exact absurd h (by simp)
  rw [if_neg (by omega)]

theorem filterMap_range'_none (tokens : List QString) : ∀ (n i : Nat),
    gsvTupleAt tokens i = none → (List.range' i n).filterMap (gsvTupleAt tokens) = [] := by
  intro n
  induction n with
  | zero => intro i _; rfl
  | succ n ih =>
    intro i h
    rw [List.range'_succ, List.filterMap_cons, h]
    exact ih (i + 1) (gsvTupleAt_none_of_le tokens i (i + 1) (by omega) h)

/-- The loop of `parseGSV` from tuple `i` on, when it returns: only the table
has changed, each row holding the entry of the last tuple naming it, if any;
every tuple visited names a row of the table. -/
theorem gsvLoop_run (tokens : List QString) : ∀ (fuel i : Nat) (d d1 : Device),
    i + fuel = 4 → gsvLoop tokens fuel i d = Run.done () d1 →
      d1 = { d with satArray := d1.satArray } ∧
      ∀ j, d1.satArray j =
        rowAfter j ((List.range' i fuel).filterMap (gsvTupleAt tokens)) (d.satArray j) := by
  intro fuel
  induction fuel with
  | zero =>
    intro i d d1 _ h
    simp only [gsvLoop, pure_run, Run.done.injEq, true_and] at h
    subst h
    exact ⟨rfl, fun j => rfl⟩
  | succ fuel ih =>
    intro i d d1 hi h
    have hi4 : i < 4 := by omega
    unfold gsvLoop at h
    cases ht : gsvTupleAt tokens i with
    | none =>
      have hcond : ¬ (i < 4 ∧ i * 4 + 4 + 3 < tokens.length) := by
        intro hc
        unfold gsvTupleAt at ht
        rw [if_pos hc.2] at ht
        exact absurd ht (by simp)
      rw [if_neg hcond] at h
      simp only [pure_run, Run.done.injEq, true_and] at h
      subst h
      rw [filterMap_range'_none tokens _ i ht]
      exact ⟨rfl, fun j => rfl⟩
    | some t =>
      have hcond : i < 4 ∧ i * 4 + 4 + 3 < tokens.length := by
        refine ⟨hi4, ?_⟩
        by_contra hc
        unfold gsvTupleAt at ht
        rw [if_neg hc] at ht
        exact absurd ht (by simp)
      rw [if_pos hcond] at h
      obtain ⟨hok, hbad⟩ := gsvTuple_run tokens i d t ht
      cases hs : satIndex t.1 with
      | none =>
        simp only [bind_run, hbad hs] at h
        exact absurd h (by simp)
      | some r =>
        simp only [bind_run, hok r hs] at h
        obtain ⟨hrec, hrows⟩ := ih (i + 1) _ d1 (by omega) h
        refine ⟨hrec, fun j => ?_⟩
        rw [hrows j, List.range'_succ, List.filterMap_cons, ht]
        exact (rowAfter_cons j r t _ d.satArray hs).symm

/-- What `parseGSV` has done when it returns true: the active set and every
other member but the table (and the mutex) are as before, and each row of the
table holds the entry of the last tuple of the frame naming it, else its
earlier value. -/
theorem parseGSV_accepted (line : QString) (d d1 : Device)
    (h : parseGSV line d = Run.done true d1) :
    d1.activeSats = d.activeSats ∧
      ∀ j, d1.satArray j = rowAfter j (gsvTuples (split ',' line)) (d.satArray j) := by
  by_cases hc : countChar '$' line > 1
  · rw [(reject_run line d hc).2.2.1] at h
    simp at h
  by_cases hlen : 4 ≤ (split ',' line).length
  · simp only [parseGSV, bind_run, pure_run, mutexLock, mutexUnlock, modify_run, hc, if_false,
      field_run line _ _ (show 1 < _ by omega), field_run line _ _ (show 2 < _ by omega),
      field_run line _ _ (show 3 < _ by omega)] at h
    cases hg : gsvLoop (split ',' line) 4 0 { d with lockDepth := d.lockDepth + 1 } with
    | fault d2 =>
      rw [hg] at h
      simp at h
    | done u d2 =>
      rw [hg] at h
      simp only [Run.done.injEq, true_and] at h
      obtain ⟨hrec, hrows⟩ := gsvLoop_run (split ',' line) 4 0 _ d2 rfl hg
      subst h
      refine ⟨?_, fun j => ?_⟩
      · show d2.activeSats = d.activeSats
        rw [hrec]
      · show d2.satArray j = _
        rw [hrows j, gsvTuples, List.range_eq_range']
  · have hl : (split ',' line).length ≤ 1 ∨ (split ',' line).length = 2 ∨
        (split ',' line).length = 3 := by omega
    rcases hl with hl | hl | hl
    · simp only [parseGSV, bind_run, pure_run, mutexLock, modify_run, hc, if_false,
        tokenAt_ge (split ',' line) 1 _ hl] at h
      simp at h
    · simp only [parseGSV, bind_run, pure_run, mutexLock, modify_run, hc, if_false,
        field_run line _ _ (show 1 < _ by omega),
        tokenAt_ge (split ',' line) 2 _ (by omega)] at h
      simp at h
    · simp only [parseGSV, bind_run, pure_run, mutexLock, modify_run, hc, if_false,
        field_run line _ _ (show 1 < _ by omega), field_run line _ _ (show 2 < _ by omega),
        tokenAt_ge (split ',' line) 3 _ (by omega)] at h
      simp at h

theorem rowAfter_step (j : Fin 50) (t : Int × SatEntry) (ts : List (Int × SatEntry))
    (e : SatEntry) : rowAfter j (t :: ts) e = rowAfter j ts (rowAfter j [t] e) := by
  unfold rowAfter
  simp only [lastNaming]
  cases lastNaming j ts with
  | some w => rfl
  | none => rfl

theorem intOfDouble_run (x : ℚ) (d : Device) (h : inIntRange (truncToInt x) = true) :
    intOfDouble x d = Run.done (truncToInt x) d := by
  unfold intOfDouble
  rw [if_pos h]

theorem intOfItem_run (t : QString) (d : Device) (h : itemFits t = true) :
    intOfItem t d = Run.done (truncToInt (toDoubleRounded t)) d := by
  unfold itemFits at h
  simp only [Bool.and_eq_true, Bool.not_eq_true'] at h
  unfold intOfItem
  rw [if_neg (by rw [h.1]; decide), intOfDouble_run _ _ h.2]

theorem intOfItem_fault (t : QString) (d : Device) (h : itemFits t = false) :
    intOfItem t d = Run.fault d := by
  unfold itemFits at h
  unfold intOfItem intOfDouble
  by_cases hn : nonFinite t = true
  · rw [if_pos hn]
  · rw [if_neg hn]
    have hr : inIntRange (truncToInt (toDoubleRounded t)) = false := by
      simpa [hn] using h
    rw [if_neg (by rw [hr]; decide)]

/-- One round of the loop of `parseY`, for a segment that can be stored: a
segment holding a record with a PRN inside the table overwrites that row; any
other segment changes nothing. -/
theorem yRecord_run (seg : QString) (d : Device) (hfit : segmentFits seg = true) :
    yRecord seg d = Run.done ()
      { d with satArray := fun j => rowAfter j ((yRecordOf seg).toList) (d.satArray j) } := by
  unfold segmentFits at hfit
  unfold yRecord yRecordOf
  generalize splitSkip ' ' seg = items at hfit
  rcases items with _ | ⟨i0, _ | ⟨i1, _ | ⟨i2, _ | ⟨i3, _ | ⟨i4, rest⟩⟩⟩⟩⟩
  · rfl
  · rfl
  · rfl
  · rfl
  · rfl
  · simp only
    simp only at hfit
    by_cases hr : 0 ≤ toInt i0 ∧ toInt i0 < 50
    · have hs : satIndex (toInt i0) = some ⟨(toInt i0).toNat, by omega⟩ := by
        unfold satIndex
        rw [dif_pos hr]
      rw [if_pos hr] at hfit
      simp only [Bool.and_eq_true] at hfit
      have h1 : ∀ e, intOfItem i1 e = Run.done (truncToInt (toDoubleRounded i1)) e :=
        fun e => intOfItem_run i1 e hfit.1.1
      have h2 : ∀ e, intOfItem i2 e = Run.done (truncToInt (toDoubleRounded i2)) e :=
        fun e => intOfItem_run i2 e hfit.1.2
      have h3 : ∀ e, intOfItem i3 e = Run.done (truncToInt (toDoubleRounded i3)) e :=
        fun e => intOfItem_run i3 e hfit.2
      rw [if_pos hr]
      simp only [bind_run, h1, h2, h3, satStore, hs, Function.update_same, Function.update_idem]
      congr 2
      funext j
      simp only [Option.toList]
      rw [← rowAfter_nil j (Function.update d.satArray _ _ j)]
      exact (rowAfter_cons j _ (toInt i0, _) [] d.satArray hs).symm
    · have hs : satIndex (toInt i0) = none := by
        unfold satIndex
        rw [dif_neg hr]
      have hf : (fun j => rowAfter j
          [(toInt i0, (⟨truncToInt (toDoubleRounded i1), truncToInt (toDoubleRounded i2),
            truncToInt (toDoubleRounded i3)⟩ : SatEntry))] (d.satArray j)) = d.satArray := by
        funext j
        rw [rowAfter_cons_skip j (toInt i0, _) [] _ hs]
        rfl
      rw [if_neg hr]
      simp only [pure_run, Option.toList, hf]

/-- The loop of `parseY` over segments that can all be stored: it returns,
only the table has changed, and each row holds the entry of the last record
naming it, else its earlier value. -/
theorem yLoop_run : ∀ (segs : List QString) (d : Device), segs.all segmentFits = true →
    ∃ d1, yLoop segs d = Run.done () d1 ∧ d1 = { d with satArray := d1.satArray } ∧
      ∀ j, d1.satArray j = rowAfter j (segs.filterMap yRecordOf) (d.satArray j) := by
  intro segs
  induction segs with
  | nil => intro d _; exact ⟨d, rfl, rfl, fun j => rfl⟩
  | cons seg rest ih =>
    intro d hall
    rw [List.all_cons, Bool.and_eq_true] at hall
    obtain ⟨d1, hrun, hrec, hrows⟩ := ih
      { d with satArray := fun j => rowAfter j ((yRecordOf seg).toList) (d.satArray j) } hall.2
    refine ⟨d1, ?_, hrec, fun j => ?_⟩
    · simp only [yLoop, bind_run, yRecord_run seg _ hall.1, hrun]
    · rw [hrows j, List.filterMap_cons]
      cases yRecordOf seg with
      | none => rfl
      | some t => exact (rowAfter_step j t _ _).symm

/-- Claim C12 as stated fails: `parseGSV` does not zero the table.  After a
first GSV sentence naming satellite 7 and a second one naming satellite 3
only, both accepted, row 7 still holds the entry of the first sentence and not
(0, 0, 0). -/
theorem parseGSV_keeps_unnamed_rows :
    (parseGSV gsvFirst Device.init).value = some true ∧
      (parseGSV gsvSecond (parseGSV gsvFirst Device.init).dev).value = some true ∧
      gsvTuples (split ',' gsvSecond) = [(3, ⟨10, 20, 30⟩)] ∧
      (parseGSV gsvSecond (parseGSV gsvFirst Device.init).dev).dev.satArray 7 = ⟨40, 83, 46⟩ ∧
      (parseGSV gsvSecond (parseGSV gsvFirst Device.init).dev).dev.satArray 3 = ⟨10, 20, 30⟩ := by
  decide

/-- Claim C12, amended: for every GSV frame that `parseGSV` accepts, every
row of the table that no tuple of the frame names keeps the entry it had
(the table is not zeroed), every row named by a tuple holds the entry of the
last tuple naming it, every tuple of the frame names a row inside the table,
and the 12 entries of the active set are unchanged. -/
theorem parseGSV_rows_updated (line : QString) (d d1 : Device)
    (hacc : parseGSV line d = Run.done true d1) :
    (∀ j : Fin 50, lastNaming j (gsvTuples (split ',' line)) = none →
        d1.satArray j = d.satArray j) ∧
      (∀ (j : Fin 50) (e : SatEntry), lastNaming j (gsvTuples (split ',' line)) = some e →
        d1.satArray j = e) ∧
      (∀ k : Fin 12, d1.activeSats k = d.activeSats k) := by
  obtain ⟨hact, hrows⟩ := parseGSV_accepted line d d1 hacc
  refine ⟨fun j hj => ?_, fun j e hj => ?_, fun k => by rw [hact]⟩
  · rw [hrows j, rowAfter, hj]
  · rw [hrows j, rowAfter, hj]

/-- Witness of C12 amended, on the second sample sentence decoded after the
first: row 3 holds the new entry and row 7 the entry it had. -/
theorem parseGSV_rows_updated_witness :
    ∃ d1, parseGSV gsvSecond (parseGSV gsvFirst Device.init).dev = Run.done true d1 ∧
      d1.satArray 7 = (parseGSV gsvFirst Device.init).dev.satArray 7 ∧
      d1.satArray 3 = ⟨10, 20, 30⟩ :=
  ⟨_, rfl,
    (parseGSV_rows_updated gsvSecond (parseGSV gsvFirst Device.init).dev _ rfl).1 7 (by decide),
    (parseGSV_rows_updated gsvSecond (parseGSV gsvFirst Device.init).dev _ rfl).2.1 3 _
      (by decide)⟩

theorem toDouble_of_digits (t : QString) (n : ℕ)
    (h : readDecimal t = some ⟨false, n, 0, 0, 0⟩) : toDouble t = (n : ℚ) := by
  simp only [toDouble, toDoubleOk, h, Option.map_some', Option.getD_some, Decimal.value]
  norm_num

/-- An item that is a plain numeral of a value of `int` fits, and is
converted to that value. -/
theorem itemFits_of_digits (t : QString) (n : ℕ) (h1 : nonFinite t = false)
    (h2 : readDecimal t = some ⟨false, n, 0, 0, 0⟩) (h3 : n ≤ 2147483647) :
    itemFits t = true ∧ truncToInt (toDoubleRounded t) = (n : ℤ) := by
  have hv : truncToInt (toDoubleRounded t) = (n : ℤ) := by
    unfold toDoubleRounded
    rw [toDouble_of_digits t n h2, toBinary64_natCast n (by omega), truncToInt_natCast]
  refine ⟨?_, hv⟩
  unfold itemFits
  rw [h1, hv]
  unfold inIntRange
  simp only [Bool.not_false, Bool.true_and, decide_eq_true_eq]
  omega

theorem payloadFits_yTwoRecords : payloadFits yTwoRecords = true := by
  have hsegs : (splitSkip ':' yTwoRecords).drop 1 = [qs "5 40 83 46 1", qs "7 1 2 3 0"] := by
    decide
  have hi1 : splitSkip ' ' (qs "5 40 83 46 1") = [qs "5", qs "40", qs "83", qs "46", qs "1"] := by
    decide
  have hi2 : splitSkip ' ' (qs "7 1 2 3 0") = [qs "7", qs "1", qs "2", qs "3", qs "0"] := by
    decide
  have f40 := (itemFits_of_digits (qs "40") 40 (by decide) (by decide) (by norm_num)).1
  have f83 := (itemFits_of_digits (qs "83") 83 (by decide) (by decide) (by norm_num)).1
  have f46 := (itemFits_of_digits (qs "46") 46 (by decide) (by decide) (by norm_num)).1
  have f1 := (itemFits_of_digits (qs "1") 1 (by decide) (by decide) (by norm_num)).1
  have f2 := (itemFits_of_digits (qs "2") 2 (by decide) (by decide) (by norm_num)).1
  have f3 := (itemFits_of_digits (qs "3") 3 (by decide) (by decide) (by norm_num)).1
  have p5 : (0 ≤ toInt (qs "5") ∧ toInt (qs "5") < 50) := by decide
  have p7 : (0 ≤ toInt (qs "7") ∧ toInt (qs "7") < 50) := by decide
  unfold payloadFits
  rw [hsegs]
  simp only [List.all_cons, List.all_nil, Bool.and_true, Bool.and_eq_true]
  constructor
  · unfold segmentFits
    rw [hi1]
    simp only [p5, and_self, if_true, f40, f83, f46, Bool.and_self]
  · unfold segmentFits
    rw [hi2]
    simp only [p7, and_self, if_true, f1, f2, f3, Bool.and_self]

theorem toDouble_1e10 : toDouble (qs "1e10") = 10000000000 := by
  have : readDecimal (qs "1e10") = some ⟨false, 1, 0, 0, 10⟩ := by decide
  simp only [toDouble, toDoubleOk, this, Option.map_some', Option.getD_some, Decimal.value]
  norm_num

theorem truncToInt_1e10 : truncToInt (toDoubleRounded (qs "1e10")) = 10000000000 := by
  unfold toDoubleRounded
  rw [toDouble_1e10]
  have h := toBinary64_natCast 10000000000 (by norm_num)
  have e : ((10000000000 : ℕ) : ℚ) = 10000000000 := by norm_num
  rw [e] at h
  rw [h, ← e, truncToInt_natCast]
  norm_num

theorem yRecord_fault (seg i0 i1 i2 i3 i4 : QString) (rest : List QString) (e : Device)
    (hitems : splitSkip ' ' seg = i0 :: i1 :: i2 :: i3 :: i4 :: rest)
    (hr : 0 ≤ toInt i0 ∧ toInt i0 < 50) (hno : itemFits i1 = false) :
    yRecord seg e = Run.fault e := by
  unfold yRecord
  rw [hitems]
  simp only
  rw [if_pos hr]
  simp only [bind_run, intOfItem_fault _ _ hno]

theorem yLoop_fault (seg : QString) (rest : List QString) (e : Device)
    (h : yRecord seg e = Run.fault e) : yLoop (seg :: rest) e = Run.fault e := by
  show (yRecord seg >>= fun _ => yLoop rest) e = Run.fault e
  rw [bind_run, h]

theorem parseY_fault (s : QString) (d : Device)
    (h : ∀ e, yLoop ((splitSkip ':' s).drop 1) e = Run.fault e) :
    (parseY s d).isFault = true := by
  simp only [parseY, bind_run, zeroSatArray, modify_run, h]
  rfl

/-- Claim C13 as stated fails: a record can hold a number no `int` holds.
For the payload whose one record gives satellite 5 the elevation `1e10`, the
conversion `int(Items[1].toDouble())` of `parseY` is undefined, and the run
ends there. -/
theorem parseY_elevation_outside_int :
    (splitSkip ':' yHuge).drop 1 = [qs "5 1e10 83 46 1"] ∧
      splitSkip ' ' (qs "5 1e10 83 46 1") = [qs "5", qs "1e10", qs "83", qs "46", qs "1"] ∧
      truncToInt (toDoubleRounded (qs "1e10")) = 10000000000 ∧
      inIntRange 10000000000 = false ∧
      (parseY yHuge Device.init).isFault = true := by
  have hsegs : (splitSkip ':' yHuge).drop 1 = [qs "5 1e10 83 46 1"] := by decide
  have hitems : splitSkip ' ' (qs "5 1e10 83 46 1") =
      [qs "5", qs "1e10", qs "83", qs "46", qs "1"] := by decide
  have p5 : (0 ≤ toInt (qs "5") ∧ toInt (qs "5") < 50) := by decide
  have hout : inIntRange 10000000000 = false := by
    unfold inIntRange
    rw [decide_eq_false_iff_not]
    norm_num
  have hno : itemFits (qs "1e10") = false := by
    unfold itemFits
    rw [truncToInt_1e10, hout, Bool.and_false]
  refine ⟨hsegs, hitems, truncToInt_1e10, hout, ?_⟩
  apply parseY_fault
  intro e
  rw [hsegs]
  exact yLoop_fault _ _ e (yRecord_fault _ _ _ _ _ _ _ e hitems p5 hno)

/-- Claim C13, amended: for every `Y=` payload in which each satellite
record with a PRN in 0..49 has items 1, 2 and 3 that read as finite numbers
with an integer part in the range of `int`, `parseY` returns; afterwards each
row `id` of the table holds the entry (items 1, 2 and 3, cut to integers) of
the last satellite record whose PRN is `id`, and (0, 0, 0) when there is
none; a record whose PRN is outside 0..49 names no row, so it is stored
nowhere; the active set is unchanged. -/
theorem parseY_table (s : QString) (d : Device) (hfit : payloadFits s = true) :
    ∃ d1, parseY s d = Run.done [Signal.updateStatus] d1 ∧
      (∀ id : Fin 50, d1.satArray id = rowAfter id (yRecords s) ⟨0, 0, 0⟩) ∧
      (∀ id : Fin 50, lastNaming id (yRecords s) = none → d1.satArray id = ⟨0, 0, 0⟩) ∧
      (∀ (id : Fin 50) (t : Int × SatEntry), satIndex t.1 = none →
        lastNaming id [t] = none) ∧
      (∀ k : Fin 12, d1.activeSats k = d.activeSats k) := by
  obtain ⟨d1, hrun, hrec, hrows⟩ := yLoop_run ((splitSkip ':' s).drop 1)
    { d with satArray := fun _ => ⟨0, 0, 0⟩ } hfit
  refine ⟨{ d1 with cur_numSatellites := ((splitSkip ':' s).length : Int) }, ?_, ?_, ?_, ?_, ?_⟩
  · simp only [parseY, bind_run, zeroSatArray, modify_run, hrun, setNumSatellites, pure_run]
  · intro id
    exact hrows id
  · intro id hid
    show d1.satArray id = _
    unfold yRecords at hid
    rw [hrows id, rowAfter, hid]
  · intro id t ht
    have hne := satIndex_none_of_ne t.1 id ht
    simp [lastNaming, hne]
  · intro k
    show d1.activeSats k = d.activeSats k
    rw [hrec]

/-- Witness of C13 amended, on a payload with a header and two records. -/
theorem parseY_table_witness :
    payloadFits yTwoRecords = true ∧
      ∃ d1, parseY yTwoRecords Device.init = Run.done [Signal.updateStatus] d1 ∧
        ∀ k : Fin 12, d1.activeSats k = Device.init.activeSats k := by
  obtain ⟨d1, hrun, _, _, _, hact⟩ :=
    parseY_table yTwoRecords Device.init payloadFits_yTwoRecords
  exact ⟨payloadFits_yTwoRecords, d1, hrun, hact⟩

/-! ## The removal loop and the cap -/

theorem unwanted_eq (c : Char) :
    unwanted c = !(c.toNat != 0 && (isalnum c || isspace c || ispunct c)) := by
  unfold unwanted
  cases h0 : decide (c.toNat = 0) <;> cases isalnum c <;> cases isspace c <;> cases ispunct c <;>
    simp_all

theorem wantedBytes_snoc (l : QString) (c : Char) :
    wantedBytes (l ++ [c]) = wantedBytes l ++ (if unwanted c = true then [] else [c]) := by
  unfold wantedBytes
  rw [List.filter_append, unwanted_eq]
  cases h : (c.toNat != 0 && (isalnum c || isspace c || ispunct c)) <;> simp [h]

/-- The removal loop entered at `i` has filtered the bytes in front of `i`
and left the bytes from `i` on. -/
theorem removalLoop_eq : ∀ (i : Nat) (ba : QString), i ≤ ba.length →
    removalLoop i ba = wantedBytes (ba.take i) ++ ba.drop i := by
  intro i
  induction i with
  | zero => intro ba _; simp [removalLoop, wantedBytes]
  | succ i ih =>
    intro ba hi
    have hlt : i < ba.length := hi
    obtain ⟨c, hc⟩ : ∃ c, ba.get? i = some c := ⟨_, List.get?_eq_get hlt⟩
    have hsplit : ba = ba.take i ++ c :: ba.drop (i + 1) := by
      have h1 := List.take_append_drop i ba
      have h2 : ba.drop i = c :: ba.drop (i + 1) := by
        rw [List.drop_eq_getElem_cons hlt]
        congr 1
        have := List.get?_eq_get hlt
        rw [hc] at this
        exact (Option.some.inj this).symm
      rw [h2] at h1
      exact h1.symm
    have hlen : (ba.take i).length = i := by
      rw [List.length_take]
      omega
    generalize ba.take i = pre at hsplit hlen
    generalize ba.drop (i + 1) = post at hsplit
    subst hsplit
    have htake1 : (pre ++ c :: post).take (i + 1) = pre ++ [c] := by
      rw [List.take_append_eq_append_take, hlen, List.take_of_length_le (by omega)]
      simp
    have hdrop1 : (pre ++ c :: post).drop i = c :: post := by
      rw [List.drop_append_eq_append_drop, hlen, List.drop_of_length_le (by omega)]
      simp
    have htake0 : (pre ++ c :: post).take i = pre := by
      rw [List.take_append_eq_append_take, hlen, List.take_of_length_le (by omega)]
      simp
    have hrm : removeAt (pre ++ c :: post) i = pre ++ post := by
      unfold removeAt
      rw [htake0, List.drop_append_eq_append_drop, hlen, List.drop_of_length_le (by omega)]
      simp
    simp only [removalLoop, hc]
    rw [htake1, wantedBytes_snoc]
    by_cases hu : unwanted c = true
    · rw [if_pos hu, if_pos hu, hrm, ih (pre ++ post) (by simp [hlen])]
      rw [List.take_append_eq_append_take, hlen, List.take_of_length_le (by omega),
        List.drop_append_eq_append_drop, hlen, List.drop_of_length_le (by omega)]
      simp
    · rw [if_neg hu, if_neg hu, ih _ (by simp [hlen]), htake0, hdrop1]
      simp

theorem retained_eq (chunk : QString) : retained chunk = wantedBytes chunk := by
  unfold retained
  rw [removalLoop_eq chunk.length chunk (le_refl _)]
  simp

theorem appendCapped_length (Buffer ba : QString) : (appendCapped Buffer ba).length ≤ 4096 := by
  unfold appendCapped
  split_ifs with h
  · rw [List.length_drop]
    omega
  · omega

theorem appendCapped_eq_drop (Buffer ba : QString) :
    appendCapped Buffer ba = (Buffer ++ ba).drop ((Buffer ++ ba).length - 4096) := by
  unfold appendCapped
  split_ifs with h
  · rfl
  · rw [Nat.sub_eq_zero_of_le (by omega), List.drop_zero]

theorem frameLoop_length : ∀ (fuel : Nat) (Buffer : QString),
    (frameLoop fuel Buffer).2.length ≤ Buffer.length := by
  intro fuel
  induction fuel with
  | zero => intro b; simp [frameLoop]
  | succ fuel ih =>
    intro b
    unfold frameLoop
    split_ifs with h0
    · simp
    · cases hi : indexOf '$' b with
      | none => simp
      | some i =>
        simp only
        split_ifs with hj
        · simp
        · have := ih ((b.drop i).drop (scanTerminator (b.drop i)))
          simp only [List.length_drop] at this ⊢
          omega

/-! ## The framing loop -/

theorem indexOf_none (c : Char) : ∀ l : QString, c ∉ l → indexOf c l = none := by
  intro l
  induction l with
  | nil => intro _; rfl
  | cons x xs ih =>
    intro h
    have hx : x ≠ c := fun e => h (by simp [e])
    have hxs : c ∉ xs := fun e => h (List.mem_cons_of_mem _ e)
    simp [indexOf, hx, ih hxs]

theorem indexOf_append (c : Char) (r : QString) : ∀ pre : QString, c ∉ pre →
    indexOf c (pre ++ c :: r) = some pre.length := by
  intro pre
  induction pre with
  | nil => intro _; simp [indexOf]
  | cons x xs ih =>
    intro h
    have hx : x ≠ c := fun e => h (by simp [e])
    have hxs : c ∉ xs := fun e => h (List.mem_cons_of_mem _ e)
    simp [indexOf, hx, ih hxs]

theorem scanTerminator_none : ∀ l : QString, (∀ x ∈ l, isTerminator x = false) →
    scanTerminator l = l.length := by
  intro l
  induction l with
  | nil => intro _; rfl
  | cons x xs ih =>
    intro h
    have hx := h x (List.mem_cons_self _ _)
    simp [scanTerminator, hx, ih (fun y hy => h y (List.mem_cons_of_mem _ hy))]

theorem scanTerminator_append (c : Char) (r : QString) (hc : isTerminator c = true) :
    ∀ pre : QString, (∀ x ∈ pre, isTerminator x = false) →
      scanTerminator (pre ++ c :: r) = pre.length := by
  intro pre
  induction pre with
  | nil => intro _; simp [scanTerminator, hc]
  | cons x xs ih =>
    intro h
    have hx := h x (List.mem_cons_self _ _)
    simp [scanTerminator, hx, ih (fun y hy => h y (List.mem_cons_of_mem _ hy))]

/-- A buffer without `$` is cleared and nothing is handed over. -/
theorem frameLoop_no_marker (fuel : Nat) (b : QString) (h : '$' ∉ b) :
    frameLoop (fuel + 1) b = ([], []) := by
  unfold frameLoop
  cases b with
  | nil => simp
  | cons x xs => simp [indexOf_none '$' _ h]

/-- A buffer whose first `$` is followed by no line terminator is cut back
to that `$` and kept; nothing is handed over. -/
theorem frameLoop_partial (fuel : Nat) (pre r : QString) (hpre : '$' ∉ pre)
    (hr : ∀ x ∈ r, isTerminator x = false) :
    frameLoop (fuel + 1) (pre ++ '$' :: r) = ([], '$' :: r) := by
  have hscan : scanTerminator ('$' :: r) = ('$' :: r).length :=
    scanTerminator_none _ (by
      intro x hx
      rcases List.mem_cons.mp hx with h | h
      · rw [h]; rfl
      · exact hr x h)
  unfold frameLoop
  have hne : (pre ++ '$' :: r).length ≠ 0 := by simp
  simp only [hne, if_false, indexOf_append '$' r pre hpre, List.drop_left, hscan, if_true]

/-- A buffer whose first `$` is followed by a line terminator: one round of
the loop hands over the bytes from the `$` on, two fewer than stand before the
terminator, and goes on with the buffer from the terminator on. -/
theorem frameLoop_frame (fuel : Nat) (pre body rest : QString) (c : Char) (hpre : '$' ∉ pre)
    (hbody : ∀ x ∈ body, isTerminator x = false) (hc : isTerminator c = true) :
    frameLoop (fuel + 1) (pre ++ '$' :: (body ++ c :: rest)) =
      (midFromStart ('$' :: (body ++ c :: rest)) ((body.length : Int) + 1 - 2) ::
        (frameLoop fuel (c :: rest)).1, (frameLoop fuel (c :: rest)).2) := by
  have hscan : scanTerminator ('$' :: (body ++ c :: rest)) = body.length + 1 := by
    have := scanTerminator_append c rest hc ('$' :: body) (by
      intro x hx
      rcases List.mem_cons.mp hx with h | h
      · rw [h]; rfl
      · exact hbody x h)
    simpa using this
  have hdrop : ('$' :: (body ++ c :: rest)).drop (body.length + 1) = c :: rest := by
    simp
  have hne : (pre ++ '$' :: (body ++ c :: rest)).length ≠ 0 := by simp
  have hj : ¬ (body.length + 1 = ('$' :: (body ++ c :: rest)).length) := by
    simp
  conv_lhs => unfold frameLoop
  simp only [hne, if_false, indexOf_append '$' _ pre hpre, List.drop_left, hscan, hj, hdrop]
  push_cast
  rfl

theorem not_mem_of_terminators (t : QString) (h : ∀ x ∈ t, isTerminator x = true) : '$' ∉ t := by
  intro hm
  have := h _ hm
  exact absurd this (by decide)

/-- One sentence, possibly after bytes without `$`, with only line terminators
behind it: exactly one frame is handed over and the buffer is cleared. -/
theorem frameLoop_one (fuel : Nat) (pre body term : QString) (c : Char) (hpre : '$' ∉ pre)
    (hbody : ∀ x ∈ body, isTerminator x = false) (hterm : ∀ x ∈ c :: term, isTerminator x = true) :
    frameLoop (fuel + 2) (pre ++ '$' :: (body ++ c :: term)) =
      ([midFromStart ('$' :: (body ++ c :: term)) ((body.length : Int) + 1 - 2)], []) := by
  rw [frameLoop_frame (fuel + 1) pre body term c hpre hbody (hterm c (List.mem_cons_self _ _)),
    frameLoop_no_marker fuel (c :: term) (not_mem_of_terminators _ hterm)]

theorem indexOf_some_drop (c : Char) : ∀ (l : QString) (i : Nat), indexOf c l = some i →
    ∃ r, l.drop i = c :: r := by
  intro l
  induction l with
  | nil => intro i h; simp [indexOf] at h
  | cons x xs ih =>
    intro i h
    unfold indexOf at h
    by_cases hx : x = c
    · rw [if_pos hx] at h
      simp only [Option.some.injEq] at h
      subst h
      exact ⟨xs, by rw [hx]; rfl⟩
    · rw [if_neg hx] at h
      cases hi : indexOf c xs with
      | none => rw [hi] at h; simp at h
      | some k =>
        rw [hi] at h
        simp only [Option.map_some', Option.some.injEq] at h
        subst h
        obtain ⟨r, hr⟩ := ih k hi
        exact ⟨r, by rw [List.drop_succ_cons]; exact hr⟩

/-- The fuel of the framing loop is never used up once it exceeds the length
of the buffer: every round that goes on has removed the `$` it found, so any
two such amounts of fuel give the same frames and the same buffer. -/
theorem frameLoop_fuel : ∀ (fuel1 fuel2 : Nat) (b : QString), b.length < fuel1 →
    b.length < fuel2 → frameLoop fuel1 b = frameLoop fuel2 b := by
  intro fuel1
  induction fuel1 with
  | zero => intro fuel2 b h; omega
  | succ fuel1 ih =>
    intro fuel2 b h1 h2
    obtain ⟨f2, rfl⟩ : ∃ f2, fuel2 = f2 + 1 := ⟨fuel2 - 1, by omega⟩
    unfold frameLoop
    by_cases h0 : b.length = 0
    · simp only [h0, if_true]
    · simp only [h0, if_false]
      cases hi : indexOf '$' b with
      | none => rfl
      | some i =>
        simp only
        obtain ⟨r, hr⟩ := indexOf_some_drop '$' b i hi
        by_cases hj : scanTerminator (b.drop i) = (b.drop i).length
        · simp only [hj, if_true]
        · simp only [hj, if_false]
          have hpos : 0 < scanTerminator (b.drop i) := by
            rw [hr]
            simp [scanTerminator, isTerminator]
          have hlen : ((b.drop i).drop (scanTerminator (b.drop i))).length < b.length := by
            simp only [List.length_drop]
            omega
          rw [ih f2 _ (by omega) (by omega)]

/-! ## Bytes that pass the removal loop -/

theorem unwanted_of_printable (c : Char) (h : printable c = true) : unwanted c = false := by
  unfold printable at h
  unfold unwanted isalnum isspace ispunct
  generalize c.toNat = n at h ⊢
  simp only [Bool.and_eq_true, decide_eq_true_eq] at h
  simp only [Bool.or_eq_false_iff, Bool.and_eq_false_iff, Bool.not_eq_false',
    Bool.or_eq_true, Bool.and_eq_true, decide_eq_true_eq, decide_eq_false_iff_not]
  omega

theorem unwanted_of_terminator (c : Char) (h : isTerminator c = true) : unwanted c = false := by
  unfold isTerminator at h
  unfold unwanted isalnum isspace ispunct
  generalize c.toNat = n at h ⊢
  simp only [Bool.or_eq_true, decide_eq_true_eq] at h
  simp only [Bool.or_eq_false_iff, Bool.and_eq_false_iff, Bool.not_eq_false',
    Bool.or_eq_true, Bool.and_eq_true, decide_eq_true_eq, decide_eq_false_iff_not]
  omega

theorem isTerminator_of_printable (c : Char) (h : printable c = true) :
    isTerminator c = false := by
  unfold printable at h
  unfold isTerminator
  generalize c.toNat = n at h ⊢
  simp only [Bool.and_eq_true, decide_eq_true_eq] at h
  simp only [Bool.or_eq_false_iff, decide_eq_false_iff_not]
  omega

theorem retained_of_wanted (l : QString) (h : ∀ x ∈ l, unwanted x = false) : retained l = l := by
  rw [retained_eq]
  unfold wantedBytes
  rw [List.filter_eq_self]
  intro x hx
  have hu := h x hx
  rw [unwanted_eq] at hu
  cases hw : (x.toNat != 0 && (isalnum x || isspace x || ispunct x))
  · rw [hw] at hu
    exact absurd hu (by decide)
  · rfl

/-- With every byte of the chunk passing the removal loop and no more than
4096 bytes in all, the framing loop runs on the buffer followed by the
chunk. -/
theorem onDataAvailable_plain (Buffer chunk : QString) (h : ∀ x ∈ chunk, unwanted x = false)
    (hlen : (Buffer ++ chunk).length ≤ 4096) :
    onDataAvailable Buffer chunk = frameLoop ((Buffer ++ chunk).length + 1) (Buffer ++ chunk) := by
  unfold onDataAvailable
  rw [retained_of_wanted chunk h]
  have : appendCapped Buffer chunk = Buffer ++ chunk := by
    unfold appendCapped
    rw [if_neg (by omega)]
  simp only [this]

theorem ingestAll_no_marker : ∀ (chunks : List QString) (Buffer : QString), chunks ≠ [] →
    '$' ∉ Buffer → (∀ c ∈ chunks, '$' ∉ retained c) → ingestAll Buffer chunks = ([], []) := by
  intro chunks
  induction chunks with
  | nil => intro _ h; exact absurd rfl h
  | cons c rest ih =>
    intro Buffer _ hB hc
    have hc0 := hc c (List.mem_cons_self _ _)
    have hcap : '$' ∉ appendCapped Buffer (retained c) := by
      rw [appendCapped_eq_drop]
      intro hm
      have := List.mem_of_mem_drop hm
      rcases List.mem_append.mp this with h | h
      · exact hB h
      · exact hc0 h
    have hr : onDataAvailable Buffer c = ([], []) := by
      unfold onDataAvailable
      exact frameLoop_no_marker _ _ hcap
    have hrest : ingestAll [] rest = ([], []) := by
      cases rest with
      | nil => rfl
      | cons c2 rest2 =>
        exact ih [] (by simp) (by simp) (fun x hx => hc x (List.mem_cons_of_mem _ hx))
    simp only [ingestAll, hr, hrest, List.append_nil]

/-- Claim C14, evaluated on the code: the frame handed to `parseNMEA` is
`Buffer.mid(0, i-2)`, with `i` the position of the first CR or LF, not the
bytes from the `$` up to that terminator.  For a buffer holding
`$GPGGA,1,2*47` and CR LF the frame is `$GPGGA,1,2*`, two bytes short; for a
buffer holding `$` and LF the length is -1 and the frame is the whole buffer,
line terminator included. -/
theorem onDataAvailable_frame_two_bytes_short :
    onDataAvailable [] (qs "$GPGGA,1,2*47\r\n") = ([qs "$GPGGA,1,2*"], []) ∧
      qs "$GPGGA,1,2*" ≠ qs "$GPGGA,1,2*47" ∧
      onDataAvailable [] (qs "$\n") = ([qs "$\n"], []) ∧
      (qs "$\n").any isTerminator = true := by
  decide

/-- Claim C15: a complete sentence (a `$`, a printable body without `$`, one
or more line terminators, at most 4096 bytes in all) fed in two pieces to an
empty buffer, whatever the split point `k`, has exactly one frame handed over
by the two calls together, and none by the first call when the first piece
stops before the terminator. -/
theorem split_sentence_one_frame (body term : QString) (k : Nat)
    (hbody : ∀ x ∈ body, printable x = true ∧ x ≠ '$')
    (hne : term ≠ []) (hterm : ∀ x ∈ term, isTerminator x = true)
    (hlen : ('$' :: (body ++ term)).length ≤ 4096)
    (hk : k ≤ ('$' :: (body ++ term)).length) :
    (ingestAll [] [('$' :: (body ++ term)).take k, ('$' :: (body ++ term)).drop k]).1.length = 1 ∧
      (k ≤ body.length + 1 →
        (onDataAvailable [] (('$' :: (body ++ term)).take k)).1 = []) := by
  obtain ⟨c, t, rfl⟩ := List.exists_cons_of_ne_nil hne
  have hbt : ∀ x ∈ body, isTerminator x = false := fun x hx =>
    isTerminator_of_printable x (hbody x hx).1
  have hwanted : ∀ x ∈ '$' :: (body ++ c :: t), unwanted x = false := by
    intro x hx
    rcases List.mem_cons.mp hx with h | h
    · rw [h]; rfl
    · rcases List.mem_append.mp h with h | h
      · exact unwanted_of_printable x (hbody x h).1
      · exact unwanted_of_terminator x (hterm x h)
  have hw1 : ∀ x ∈ ('$' :: (body ++ c :: t)).take k, unwanted x = false := fun x hx =>
    hwanted x (List.mem_of_mem_take hx)
  have hw2 : ∀ x ∈ ('$' :: (body ++ c :: t)).drop k, unwanted x = false := fun x hx =>
    hwanted x (List.mem_of_mem_drop hx)
  have hlen1 : ([] ++ ('$' :: (body ++ c :: t)).take k).length ≤ 4096 := by
    simp only [List.nil_append, List.length_take]
    omega
  have hwhole : ∀ fuel, frameLoop (fuel + 2) ('$' :: (body ++ c :: t)) =
      ([midFromStart ('$' :: (body ++ c :: t)) ((body.length : Int) + 1 - 2)], []) := fun fuel =>
    frameLoop_one fuel [] body t c (by simp) hbt hterm
  have hlenS : ('$' :: (body ++ c :: t)).length = body.length + t.length + 2 := by
    simp
    omega
  by_cases hcase : k ≤ body.length + 1
  · -- the first piece stops before the terminator
    have hfirst : onDataAvailable [] (('$' :: (body ++ c :: t)).take k) =
        ([], ('$' :: (body ++ c :: t)).take k) := by
      rw [onDataAvailable_plain _ _ hw1 hlen1]
      cases k with
      | zero => rfl
      | succ k =>
        have htk : ('$' :: (body ++ c :: t)).take (k + 1) = '$' :: body.take k := by
          rw [List.take_succ_cons, List.take_append_of_le_length (by omega)]
        rw [List.nil_append, htk]
        exact frameLoop_partial _ [] (body.take k) (by simp)
          (fun x hx => hbt x (List.mem_of_mem_take hx))
    have hsecond : onDataAvailable (('$' :: (body ++ c :: t)).take k)
        (('$' :: (body ++ c :: t)).drop k) =
        ([midFromStart ('$' :: (body ++ c :: t)) ((body.length : Int) + 1 - 2)], []) := by
      rw [onDataAvailable_plain _ _ hw2 (by rw [List.take_append_drop]; exact hlen),
        List.take_append_drop, hlenS]
      exact hwhole _
    refine ⟨?_, fun _ => by rw [hfirst]⟩
    simp only [ingestAll, hfirst, hsecond]
    rfl
  · -- the first piece holds the sentence up to a terminator
    have hk2 : body.length + 2 ≤ k := by omega
    obtain ⟨m, hm⟩ : ∃ m, k = body.length + 2 + m := ⟨k - (body.length + 2), by omega⟩
    have htk : ('$' :: (body ++ c :: t)).take k = '$' :: (body ++ c :: t.take m) := by
      rw [hm, show body.length + 2 + m = (body.length + 1 + m) + 1 by omega, List.take_succ_cons,
        List.take_append_eq_append_take, List.take_of_length_le (by omega),
        show body.length + 1 + m - body.length = m + 1 by omega, List.take_succ_cons]
    have hdk : ('$' :: (body ++ c :: t)).drop k = t.drop m := by
      rw [hm, show body.length + 2 + m = (body.length + 1 + m) + 1 by omega, List.drop_succ_cons,
        List.drop_append_eq_append_drop, List.drop_of_length_le (by omega),
        show body.length + 1 + m - body.length = m + 1 by omega, List.drop_succ_cons,
        List.nil_append]
    have hterm1 : ∀ x ∈ c :: t.take m, isTerminator x = true := by
      intro x hx
      rcases List.mem_cons.mp hx with h | h
      · rw [h]; exact hterm c (List.mem_cons_self _ _)
      · exact hterm x (List.mem_cons_of_mem _ (List.mem_of_mem_take h))
    have hfirst : onDataAvailable [] (('$' :: (body ++ c :: t)).take k) =
        ([midFromStart ('$' :: (body ++ c :: t.take m)) ((body.length : Int) + 1 - 2)], []) := by
      rw [onDataAvailable_plain _ _ hw1 hlen1, List.nil_append, htk]
      have hl : ('$' :: (body ++ c :: t.take m)).length + 1 =
          (body.length + (t.take m).length + 1) + 2 := by
        simp
        omega
      rw [hl]
      exact frameLoop_one _ [] body (t.take m) c (by simp) hbt hterm1
    have hsecond : onDataAvailable [] (('$' :: (body ++ c :: t)).drop k) = ([], []) := by
      rw [onDataAvailable_plain _ _ hw2 (by
        simp only [List.nil_append, List.length_drop]
        omega), List.nil_append, hdk]
      exact frameLoop_no_marker _ _ (not_mem_of_terminators _ (fun x hx =>
        hterm x (List.mem_cons_of_mem _ (List.mem_of_mem_drop hx))))
    refine ⟨?_, fun h => absurd h hcase⟩
    simp only [ingestAll, hfirst, hsecond]
    rfl

/-- Witness of C15, on the sentence `$GPGGA,1` ended by CR LF and cut after
its fourth byte. -/
theorem split_sentence_one_frame_witness :
    (ingestAll [] [('$' :: (qs "GPGGA,1" ++ qs "\r\n")).take 4,
        ('$' :: (qs "GPGGA,1" ++ qs "\r\n")).drop 4]).1.length = 1 ∧
      (onDataAvailable [] (('$' :: (qs "GPGGA,1" ++ qs "\r\n")).take 4)).1 = [] := by
  have h := split_sentence_one_frame (qs "GPGGA,1") (qs "\r\n") 4 (by decide) (by decide)
    (by decide) (by decide) (by decide)
  exact ⟨h.1, h.2 (by decide)⟩

/-- Two sentences in one chunk (see C16): two complete sentences (each a
`$`, a printable body without
`$`, one or more line terminators; at most 4096 bytes together) arriving in
one chunk on an empty buffer have exactly two frames handed over by that one
call: first the frame cut at the `$` of the first sentence, then the frame cut
at the `$` of the second.  The second is the frame the second sentence gives
alone, and so is the first when the body of the first sentence is not
empty. -/
theorem two_sentences_two_frames (b1 t1 b2 t2 : QString)
    (hb1 : ∀ x ∈ b1, printable x = true ∧ x ≠ '$') (hb2 : ∀ x ∈ b2, printable x = true ∧ x ≠ '$')
    (hn1 : t1 ≠ []) (hn2 : t2 ≠ [])
    (ht1 : ∀ x ∈ t1, isTerminator x = true) (ht2 : ∀ x ∈ t2, isTerminator x = true)
    (hlen : (('$' :: (b1 ++ t1)) ++ ('$' :: (b2 ++ t2))).length ≤ 4096) :
    (onDataAvailable [] (('$' :: (b1 ++ t1)) ++ ('$' :: (b2 ++ t2)))).1 =
        [midFromStart (('$' :: (b1 ++ t1)) ++ ('$' :: (b2 ++ t2))) ((b1.length : Int) + 1 - 2),
          midFromStart ('$' :: (b2 ++ t2)) ((b2.length : Int) + 1 - 2)] ∧
      (onDataAvailable [] (('$' :: (b1 ++ t1)) ++ ('$' :: (b2 ++ t2)))).1.length = 2 ∧
      (onDataAvailable [] ('$' :: (b2 ++ t2))).1 =
        [midFromStart ('$' :: (b2 ++ t2)) ((b2.length : Int) + 1 - 2)] ∧
      (b1 ≠ [] → (onDataAvailable [] ('$' :: (b1 ++ t1))).1 =
        [midFromStart (('$' :: (b1 ++ t1)) ++ ('$' :: (b2 ++ t2))) ((b1.length : Int) + 1 - 2)]) := by
  obtain ⟨c1, u1, rfl⟩ := List.exists_cons_of_ne_nil hn1
  obtain ⟨c2, u2, rfl⟩ := List.exists_cons_of_ne_nil hn2
  have hbt1 : ∀ x ∈ b1, isTerminator x = false := fun x hx =>
    isTerminator_of_printable x (hb1 x hx).1
  have hbt2 : ∀ x ∈ b2, isTerminator x = false := fun x hx =>
    isTerminator_of_printable x (hb2 x hx).1
  have hw1 : ∀ x ∈ '$' :: (b1 ++ c1 :: u1), unwanted x = false := by
    intro x hx
    rcases List.mem_cons.mp hx with h | h
    · rw [h]; rfl
    · rcases List.mem_append.mp h with h | h
      · exact unwanted_of_printable x (hb1 x h).1
      · exact unwanted_of_terminator x (ht1 x h)
  have hw2 : ∀ x ∈ '$' :: (b2 ++ c2 :: u2), unwanted x = false := by
    intro x hx
    rcases List.mem_cons.mp hx with h | h
    · rw [h]; rfl
    · rcases List.mem_append.mp h with h | h
      · exact unwanted_of_printable x (hb2 x h).1
      · exact unwanted_of_terminator x (ht2 x h)
  have hw : ∀ x ∈ ('$' :: (b1 ++ c1 :: u1)) ++ ('$' :: (b2 ++ c2 :: u2)), unwanted x = false := by
    intro x hx
    rcases List.mem_append.mp hx with h | h
    · exact hw1 x h
    · exact hw2 x h
  have hlenAll := hlen
  simp only [List.length_append, List.length_cons] at hlenAll
  -- both sentences in one chunk
  have hboth : onDataAvailable [] (('$' :: (b1 ++ c1 :: u1)) ++ ('$' :: (b2 ++ c2 :: u2))) =
      ([midFromStart (('$' :: (b1 ++ c1 :: u1)) ++ ('$' :: (b2 ++ c2 :: u2)))
          ((b1.length : Int) + 1 - 2),
        midFromStart ('$' :: (b2 ++ c2 :: u2)) ((b2.length : Int) + 1 - 2)], []) := by
    rw [onDataAvailable_plain _ _ hw (by simpa using hlen), List.nil_append]
    have hshape : ('$' :: (b1 ++ c1 :: u1)) ++ ('$' :: (b2 ++ c2 :: u2)) =
        [] ++ '$' :: (b1 ++ c1 :: (u1 ++ '$' :: (b2 ++ c2 :: u2))) := by simp
    have hfuel : (('$' :: (b1 ++ c1 :: u1)) ++ ('$' :: (b2 ++ c2 :: u2))).length + 1 =
        (b1.length + u1.length + b2.length + u2.length + 2) + 3 := by
      simp only [List.length_append, List.length_cons]
      omega
    rw [hfuel]
    conv_lhs => rw [hshape]
    rw [frameLoop_frame _ [] b1 _ c1 (by simp) hbt1 (ht1 c1 (List.mem_cons_self _ _))]
    have hrest : c1 :: (u1 ++ '$' :: (b2 ++ c2 :: u2)) =
        (c1 :: u1) ++ '$' :: (b2 ++ c2 :: u2) := by simp
    rw [hrest, frameLoop_one _ (c1 :: u1) b2 u2 c2 (not_mem_of_terminators _ ht1) hbt2 ht2]
    simp
  have hsecond : onDataAvailable [] ('$' :: (b2 ++ c2 :: u2)) =
      ([midFromStart ('$' :: (b2 ++ c2 :: u2)) ((b2.length : Int) + 1 - 2)], []) := by
    have hl2 : ([] ++ '$' :: (b2 ++ c2 :: u2)).length ≤ 4096 := by
      simp only [List.nil_append, List.length_cons, List.length_append]
      omega
    rw [onDataAvailable_plain _ _ hw2 hl2, List.nil_append]
    have hfuel : ('$' :: (b2 ++ c2 :: u2)).length + 1 = (b2.length + u2.length + 1) + 2 := by
      simp only [List.length_append, List.length_cons]
      omega
    rw [hfuel]
    exact frameLoop_one _ [] b2 u2 c2 (by simp) hbt2 ht2
  refine ⟨by rw [hboth], by rw [hboth]; rfl, by rw [hsecond], ?_⟩
  intro hne
  have hfirst : onDataAvailable [] ('$' :: (b1 ++ c1 :: u1)) =
      ([midFromStart ('$' :: (b1 ++ c1 :: u1)) ((b1.length : Int) + 1 - 2)], []) := by
    have hl1 : ([] ++ '$' :: (b1 ++ c1 :: u1)).length ≤ 4096 := by
      simp only [List.nil_append, List.length_cons, List.length_append]
      omega
    rw [onDataAvailable_plain _ _ hw1 hl1, List.nil_append]
    have hfuel : ('$' :: (b1 ++ c1 :: u1)).length + 1 = (b1.length + u1.length + 1) + 2 := by
      simp only [List.length_append, List.length_cons]
      omega
    rw [hfuel]
    exact frameLoop_one _ [] b1 u1 c1 (by simp) hbt1 ht1
  rw [hfirst]
  have hpos : 0 < b1.length := List.length_pos.mpr hne
  have hnn : ¬ ((b1.length : Int) + 1 - 2 < 0) := by omega
  have hto : ((b1.length : Int) + 1 - 2).toNat = b1.length - 1 := by omega
  simp only [midFromStart, hnn, if_false, hto]
  rw [List.take_append_of_le_length (by simp only [List.length_cons, List.length_append]; omega)]

/-- Two sentences in one chunk, on `$GPGGA,1` and `$GPGLL,2`, each ended by
CR LF. -/
theorem two_sentences_two_frames_witness :
    (onDataAvailable [] (('$' :: (qs "GPGGA,1" ++ qs "\r\n")) ++
        ('$' :: (qs "GPGLL,2" ++ qs "\r\n")))).1.length = 2 :=
  (two_sentences_two_frames (qs "GPGGA,1") (qs "\r\n") (qs "GPGLL,2") (qs "\r\n") (by decide)
    (by decide) (by decide) (by decide) (by decide) (by decide) (by decide)).2.1

/-- Claim C16, evaluated on the code: the sentence `$` line feed followed by
a sentence `$GPGGA,1` line feed, both in one chunk on an empty buffer, have
two frames handed over, but the first is the whole chunk, the second sentence
included, not the frame `$` line feed that the first sentence gives alone; the
second is the frame the second sentence gives alone. -/
theorem two_sentences_first_frame_whole_chunk :
    (∀ x ∈ qs "GPGGA,1", printable x = true ∧ x ≠ '$') ∧
      (chunkMarkerOnly ++ chunkSentence).length ≤ 4096 ∧
      (onDataAvailable [] (chunkMarkerOnly ++ chunkSentence)).1 =
        [chunkMarkerOnly ++ chunkSentence, qs "$GPGGA"] ∧
      (onDataAvailable [] chunkMarkerOnly).1 = [qs "$\n"] ∧
      (onDataAvailable [] chunkSentence).1 = [qs "$GPGGA"] := by
  decide

/-- Claim C17: a chunk of at most 4096 printable bytes that starts with `$`
(no CR or LF is printable), arriving on an empty buffer, has no frame handed
over and is the buffer afterwards. -/
theorem partial_chunk_kept (chunk : QString) (hlen : chunk.length ≤ 4096)
    (hp : ∀ x ∈ chunk, printable x = true) (hhead : chunk.head? = some '$') :
    onDataAvailable [] chunk = ([], chunk) := by
  cases chunk with
  | nil => simp at hhead
  | cons c r =>
    simp only [List.head?_cons, Option.some.injEq] at hhead
    subst hhead
    rw [onDataAvailable_plain _ _ (fun x hx => unwanted_of_printable x (hp x hx))
      (by simpa using hlen), List.nil_append]
    exact frameLoop_partial _ [] r (by simp)
      (fun x hx => isTerminator_of_printable x (hp x (List.mem_cons_of_mem _ hx)))

/-- Witness of C17, on the chunk `$GPGGA,1*4`. -/
theorem partial_chunk_kept_witness :
    (qs "$GPGGA,1*4").length ≤ 4096 ∧
      onDataAvailable [] (qs "$GPGGA,1*4") = ([], qs "$GPGGA,1*4") :=
  ⟨by decide, partial_chunk_kept (qs "$GPGGA,1*4") (by decide) (by decide) (by decide)⟩

/-- Claim C18: whatever the buffer and the chunk, the buffer holds at most
4096 bytes when framing starts (after the append and the safety valve) and
when `onDataAvailable` returns. -/
theorem buffer_at_most_4096 (Buffer chunk : QString) :
    (appendCapped Buffer (retained chunk)).length ≤ 4096 ∧
      (onDataAvailable Buffer chunk).2.length ≤ 4096 := by
  refine ⟨appendCapped_length _ _, ?_⟩
  unfold onDataAvailable
  exact le_trans (frameLoop_length _ _) (appendCapped_length _ _)

/-- Claim C19 as stated fails: a buffer without `$` is cleared, not kept.
After one call with 4097 bytes `A` on an empty buffer, the retained bytes hold
no `$` and number more than 4096, and the buffer is empty, not the most recent
4096 of them. -/
theorem safety_valve_then_cleared :
    '$' ∉ retained (List.replicate 4097 'A') ∧
      4096 < (retained (List.replicate 4097 'A')).length ∧
      (ingestAll [] [List.replicate 4097 'A']).2 = [] ∧
      (retained (List.replicate 4097 'A')).drop
        ((retained (List.replicate 4097 'A')).length - 4096) ≠ [] := by
  have hr : retained (List.replicate 4097 'A') = List.replicate 4097 'A' :=
    retained_of_wanted _ (by
      intro x hx
      rw [List.eq_of_mem_replicate hx]
      rfl)
  have hno : '$' ∉ retained (List.replicate 4097 'A') := by
    rw [hr]
    intro hm
    exact absurd (List.eq_of_mem_replicate hm) (by decide)
  refine ⟨hno, by rw [hr, List.length_replicate]; decide, ?_, ?_⟩
  · rw [ingestAll_no_marker [List.replicate 4097 'A'] [] (List.cons_ne_nil _ _)
      (List.not_mem_nil _) (by intro c hc; rw [List.mem_singleton.mp hc]; exact hno)]
  · rw [hr, List.length_replicate]
    intro h
    have hl := congrArg List.length h
    rw [List.length_drop, List.length_replicate, List.length_nil] at hl
    exact absurd hl (by decide)

/-- Claim C19, amended: over one or more calls of `onDataAvailable` whose
retained bytes never hold a `$`, starting from a buffer without `$`, no frame
is handed over and the buffer is empty after the last call; in each call the
buffer followed by the retained bytes is first cut to its most recent 4096
bytes (the oldest dropped, the newest kept), which is what framing starts
on. -/
theorem no_marker_buffer_cleared (Buffer : QString) (chunks : List QString)
    (hne : chunks ≠ []) (hB : '$' ∉ Buffer) (hc : ∀ c ∈ chunks, '$' ∉ retained c) :
    ingestAll Buffer chunks = ([], []) ∧
      ∀ (B chunk : QString), appendCapped B (retained chunk) =
        (B ++ retained chunk).drop ((B ++ retained chunk).length - 4096) :=
  ⟨ingestAll_no_marker chunks Buffer hne hB hc, fun B _ => appendCapped_eq_drop B _⟩

/-- Witness of C19 amended, on the chunks `AB` and `CD` arriving on the buffer
`xy`. -/
theorem no_marker_buffer_cleared_witness :
    ingestAll (qs "xy") [qs "AB", qs "CD"] = ([], []) :=
  (no_marker_buffer_cleared (qs "xy") [qs "AB", qs "CD"] (by decide) (by decide)
    (by decide)).1

/-- Claim C20: the bytes the removal loop leaves of a chunk are the chunk's
bytes that are not NUL and are alphanumeric, white space or punctuation, in
their order (the filter of the chunk by that test), and these are the bytes
appended to the buffer before the safety valve and framing. -/
theorem removal_loop_is_filter (Buffer chunk : QString) :
    retained chunk = wantedBytes chunk ∧
      onDataAvailable Buffer chunk =
        frameLoop ((appendCapped Buffer (wantedBytes chunk)).length + 1)
          (appendCapped Buffer (wantedBytes chunk)) := by
  refine ⟨retained_eq chunk, ?_⟩
  unfold onDataAvailable
  rw [retained_eq]

/-! ## Dispatch and signals -/

theorem sentenceType_iff (frame : QString) (k : Sentence) :
    sentenceType frame = some k ↔
      (frame.get? 3 = some (typeCode k).1 ∧ frame.get? 4 = some (typeCode k).2.1 ∧
        frame.get? 5 = some (typeCode k).2.2) := by
  unfold sentenceType codeIs
  generalize frame.get? 3 = a
  generalize frame.get? 4 = b
  generalize frame.get? 5 = c
  have hGL : ('G' : Char) ≠ 'L' := by decide
  have hGS : ('G' : Char) ≠ 'S' := by decide
  have hLS : ('L' : Char) ≠ 'S' := by decide
  have hAL : ('A' : Char) ≠ 'L' := by decide
  have hAV : ('A' : Char) ≠ 'V' := by decide
  have hLV : ('L' : Char) ≠ 'V' := by decide
  have hLA : ('L' : Char) ≠ 'A' := by decide
  have hGR : ('G' : Char) ≠ 'R' := by decide
  have hGM : ('G' : Char) ≠ 'M' := by decide
  have hLM : ('L' : Char) ≠ 'M' := by decide
  have hSM : ('S' : Char) ≠ 'M' := by decide
  have hAC : ('A' : Char) ≠ 'C' := by decide
  have hLC : ('L' : Char) ≠ 'C' := by decide
  have hVC : ('V' : Char) ≠ 'C' := by decide
  have hVA : ('V' : Char) ≠ 'A' := by decide
  cases k <;> simp only [typeCode, Bool.and_eq_true, decide_eq_true_eq] <;>
    constructor
  all_goals
    intro h
    split_ifs at h ⊢ <;> simp_all

theorem sentenceType_length (frame : QString) (k : Sentence)
    (h : sentenceType frame = some k) : 6 ≤ frame.length := by
  have h5 := ((sentenceType_iff frame k).mp h).2.2
  by_contra hlt
  rw [List.get?_eq_none.mpr (by omega)] at h5
  exact absurd h5 (by simp)

/-- What `parseNMEA` does with a frame whose type code is one of the five:
it runs the decoder of that type and then emits its signals. -/
theorem parseNMEA_routed (frame : QString) (k : Sentence) (d : Device)
    (h : sentenceType frame = some k) :
    parseNMEA frame d =
      match decoder k frame d with
      | Run.done ok d1 => Run.done (signalsAfter k ok d1) d1
      | Run.fault d1 => Run.fault d1 := by
  have hlen : ¬ frame.length < 6 := by
    have := sentenceType_length frame k h
    omega
  unfold parseNMEA
  simp only [hlen, if_false, h]
  cases k
  · simp only [decoder, bind_run, pure_run]
    cases parseGGA frame d <;> rfl
  · simp only [decoder, bind_run, pure_run]
    cases parseGLL frame d <;> rfl
  · simp only [decoder, bind_run, pure_run]
    cases parseGSV frame d <;> rfl
  · simp only [decoder, bind_run, pure_run]
    cases parseGSA frame d <;> rfl
  · simp only [decoder, bind_run, pure_run, getDevice]
    cases parseRMC frame d with
    | fault d1 => rfl
    | done ok d1 =>
      simp only [signalsAfter, true_and]
      cases ok <;> cases hu : usableFix d1 <;> simp

theorem parseNMEA_unrouted (frame : QString) (d : Device) (h : sentenceType frame = none) :
    parseNMEA frame d = Run.done (if frame.length < 6 then [] else [Signal.updateStatus]) d := by
  unfold parseNMEA
  by_cases hlen : frame.length < 6
  · simp only [hlen, if_true]
  · simp only [hlen, if_false, h]

/-- Claim C21: `parseNMEA` hands a frame to the GGA, GLL, GSV, GSA or RMC
decoder exactly when the frame has at least 6 bytes and the bytes at offsets
3, 4 and 5 spell that type code; it then runs that decoder and emits its
signals.  A frame of at least 6 bytes whose code is none of the five leaves
the state unchanged (the status signal is emitted), and so does a frame
shorter than 6 bytes (nothing is emitted). -/
theorem parseNMEA_routing (frame : QString) (d : Device) :
    (∀ k : Sentence, sentenceType frame = some k ↔
        (6 ≤ frame.length ∧ frame.get? 3 = some (typeCode k).1 ∧
          frame.get? 4 = some (typeCode k).2.1 ∧ frame.get? 5 = some (typeCode k).2.2)) ∧
      (∀ k : Sentence, sentenceType frame = some k →
        parseNMEA frame d =
          match decoder k frame d with
          | Run.done ok d1 => Run.done (signalsAfter k ok d1) d1
          | Run.fault d1 => Run.fault d1) ∧
      (sentenceType frame = none → 6 ≤ frame.length →
        parseNMEA frame d = Run.done [Signal.updateStatus] d) ∧
      (frame.length < 6 → sentenceType frame = none ∧ parseNMEA frame d = Run.done [] d) := by
  refine ⟨fun k => ?_, fun k hk => parseNMEA_routed frame k d hk, fun hn hlen => ?_,
    fun hlt => ?_⟩
  · constructor
    · intro h
      exact ⟨sentenceType_length frame k h, (sentenceType_iff frame k).mp h⟩
    · intro h
      exact (sentenceType_iff frame k).mpr h.2
  · rw [parseNMEA_unrouted frame d hn, if_neg (by omega)]
  · have hn : sentenceType frame = none := by
      cases hs : sentenceType frame with
      | none => rfl
      | some k =>
        have := sentenceType_length frame k hs
        omega
    refine ⟨hn, ?_⟩
    rw [parseNMEA_unrouted frame d hn, if_pos hlt]

/-- Claim C22 as stated fails: the position signal is tied to RMC and to the
fix types 3D and Unavailable.  With the status Active and the type
Unavailable, the GGA sentence of the source's comment is decoded and only the
status signal is emitted; with the type 2D, an RMC sentence is decoded, the
status is Active, and only the status signal is emitted. -/
theorem position_signal_not_for_gga_or_2d :
    (parseGGA ggaExample (parseRMC rmcMillis Device.init).dev).value = some true ∧
      (parseNMEA ggaExample (parseRMC rmcMillis Device.init).dev).dev.cur_fixstatus =
        FixStatus.StatusActive ∧
      (parseNMEA ggaExample (parseRMC rmcMillis Device.init).dev).dev.cur_fixtype =
        FixType.FixUnavailable ∧
      (parseNMEA ggaExample (parseRMC rmcMillis Device.init).dev).value.map
        (List.map Signal.isPosition) = some [false] ∧
      (parseRMC rmcMillis (parseGSA gsa2D Device.init).dev).value = some true ∧
      (parseNMEA rmcMillis (parseGSA gsa2D Device.init).dev).dev.cur_fixstatus =
        FixStatus.StatusActive ∧
      (parseNMEA rmcMillis (parseGSA gsa2D Device.init).dev).dev.cur_fixtype =
        FixType.Fix2D ∧
      (parseNMEA rmcMillis (parseGSA gsa2D Device.init).dev).value.map
        (List.map Signal.isPosition) = some [false] := by
  decide

/-- Claim C22, amended: for every frame that the decoder of its type
decodes, `parseNMEA` emits the position signal, carrying the stored position,
followed by the status signal when the frame is an RMC frame decoded
successfully and afterwards the fix status is Active and the fix type is 3D
or Unavailable; otherwise it emits the status signal alone: so for an RMC
frame that leaves another status or type, 2D included, and so for every GGA
frame. -/
theorem parseNMEA_position_signal (frame : QString) (k : Sentence) (ok : Bool) (d d1 : Device)
    (hk : sentenceType frame = some k)
    (hdec : decoder k frame d = Run.done ok d1) :
    (k = Sentence.RMC ∧ ok = true ∧ d1.cur_fixstatus = FixStatus.StatusActive ∧
        (d1.cur_fixtype = FixType.Fix3D ∨ d1.cur_fixtype = FixType.FixUnavailable) →
        parseNMEA frame d = Run.done [positionSignal d1, Signal.updateStatus] d1) ∧
      (¬ (k = Sentence.RMC ∧ ok = true ∧ d1.cur_fixstatus = FixStatus.StatusActive ∧
          (d1.cur_fixtype = FixType.Fix3D ∨ d1.cur_fixtype = FixType.FixUnavailable)) →
        parseNMEA frame d = Run.done [Signal.updateStatus] d1) ∧
      (k = Sentence.GGA → parseNMEA frame d = Run.done [Signal.updateStatus] d1) := by
  have hrun := parseNMEA_routed frame k d hk
  simp only [hdec] at hrun
  rw [hrun]
  have hu : usableFix d1 = true ↔ (d1.cur_fixstatus = FixStatus.StatusActive ∧
      (d1.cur_fixtype = FixType.Fix3D ∨ d1.cur_fixtype = FixType.FixUnavailable)) := by
    simp [usableFix]
  refine ⟨fun h => ?_, fun h => ?_, fun h => ?_⟩
  · unfold signalsAfter
    rw [if_pos ⟨h.1, h.2.1, hu.mpr h.2.2⟩]
  · have hf : ¬ (k = Sentence.RMC ∧ ok = true ∧ usableFix d1 = true) :=
      fun hc => h ⟨hc.1, hc.2.1, hu.mp hc.2.2⟩
    unfold signalsAfter
    rw [if_neg hf]
  · have hf : ¬ (k = Sentence.RMC ∧ ok = true ∧ usableFix d1 = true) := by
      rw [h]
      exact fun hc => absurd hc.1 (by decide)
    unfold signalsAfter
    rw [if_neg hf]

/-- Witness of C22 amended, on an RMC sentence with status `A` decoded in the
state the constructor leaves (fix type Unavailable). -/
theorem parseNMEA_position_signal_witness :
    sentenceType rmcMillis = some Sentence.RMC ∧
      parseNMEA rmcMillis Device.init =
        Run.done [positionSignal (rmcResult rmcMillis Device.init), Signal.updateStatus]
          (rmcResult rmcMillis Device.init) :=
  ⟨by decide,
    (parseNMEA_position_signal rmcMillis Sentence.RMC true Device.init
      (rmcResult rmcMillis Device.init) (by decide)
      (parseRMC_run rmcMillis Device.init (by decide) (by decide))).1
      ⟨rfl, rfl, by decide, Or.inr (by decide)⟩⟩

/-- Claim C23: whenever `parseNMEA` returns having emitted the position
signal, the fix status in the state it leaves is Active; a frame that leaves
the status Void has no position signal emitted. -/
theorem position_signal_only_when_active (frame : QString) (d d1 : Device)
    (sigs : List Signal) (hrun : parseNMEA frame d = Run.done sigs d1) :
    (sigs.any Signal.isPosition = true → d1.cur_fixstatus = FixStatus.StatusActive) ∧
      (d1.cur_fixstatus = FixStatus.StatusVoid → sigs.any Signal.isPosition = false) := by
  have key : sigs.any Signal.isPosition = true → d1.cur_fixstatus = FixStatus.StatusActive := by
    cases hs : sentenceType frame with
    | none =>
      rw [parseNMEA_unrouted frame d hs] at hrun
      simp only [Run.done.injEq] at hrun
      obtain ⟨h1, _⟩ := hrun
      subst h1
      intro h
      split_ifs at h <;> simp [Signal.isPosition] at h
    | some k =>
      rw [parseNMEA_routed frame k d hs] at hrun
      cases hd : decoder k frame d with
      | fault d2 =>
        rw [hd] at hrun
        simp at hrun
      | done ok d2 =>
        rw [hd] at hrun
        simp only [Run.done.injEq] at hrun
        obtain ⟨h1, h2⟩ := hrun
        subst h1 h2
        intro h
        unfold signalsAfter at h
        split_ifs at h with hc
        · have hu := hc.2.2
          simp only [usableFix, Bool.and_eq_true, decide_eq_true_eq] at hu
          exact hu.1
        · simp [Signal.isPosition] at h
  refine ⟨key, fun hv => ?_⟩
  cases ha : sigs.any Signal.isPosition with
  | false => rfl
  | true =>
    have := key ha
    rw [hv] at this
    exact absurd this (by decide)

/-- Witness of C23, on an RMC sentence with status `A`: the position signal
is emitted and the status afterwards is Active. -/
theorem position_signal_only_when_active_witness :
    parseNMEA rmcMillis Device.init =
        Run.done (signalsAfter Sentence.RMC true (rmcResult rmcMillis Device.init))
          (rmcResult rmcMillis Device.init) ∧
      (rmcResult rmcMillis Device.init).cur_fixstatus = FixStatus.StatusActive := by
  have hrun : parseNMEA rmcMillis Device.init =
      Run.done (signalsAfter Sentence.RMC true (rmcResult rmcMillis Device.init))
        (rmcResult rmcMillis Device.init) := by
    rw [parseNMEA_routed rmcMillis Sentence.RMC Device.init (by decide)]
    simp only [decoder, parseRMC_run rmcMillis Device.init (by decide) (by decide)]
  exact ⟨hrun, (position_signal_only_when_active rmcMillis Device.init _ _ hrun).1 (by decide)⟩

/-- Claim C24: for every frame that the decoder of its type decodes
successfully, GSA and GSV included, `parseNMEA` returns having emitted the
status signal exactly once. -/
theorem status_signal_once (frame : QString) (k : Sentence) (d d1 : Device)
    (hk : sentenceType frame = some k) (hdec : decoder k frame d = Run.done true d1) :
    ∃ sigs, parseNMEA frame d = Run.done sigs d1 ∧
      (sigs.filter Signal.isStatus).length = 1 := by
  refine ⟨signalsAfter k true d1, ?_, ?_⟩
  · rw [parseNMEA_routed frame k d hk, hdec]
  · unfold signalsAfter
    split_ifs <;> rfl

/-- Witness of C24, on the GSA sentence of the source's comment. -/
theorem status_signal_once_witness :
    sentenceType gsaExample = some Sentence.GSA ∧
      ∃ sigs, parseNMEA gsaExample Device.init = Run.done sigs (gsaResult gsaExample Device.init) ∧
        (sigs.filter Signal.isStatus).length = 1 :=
  ⟨by decide, status_signal_once gsaExample Sentence.GSA Device.init _ (by decide)
    (parseGSA_run gsaExample Device.init (by decide) (by decide))⟩

/-! ## The position report of the text protocol -/

theorem get_some_getD (xs : List QString) (i : Nat) (h : i < xs.length) :
    xs.get? i = some (xs.getD i []) := by
  rw [List.get?_eq_get h]
  simp [List.getD_eq_getElem?_getD, List.getElem?_eq_getElem h]

theorem optionalField_run (Args : List QString) (i : Nat) (d : Device) :
    optionalField Args i d =
      Run.done (match Args.get? i with
        | some t => toDouble t
        | none => 0) d := by
  unfold optionalField
  by_cases h : Args.length > i
  · rw [if_pos h]
    simp only [bind_run, pure_run, tokenAt_lt Args i d h, get_some_getD Args i h]
  · rw [if_neg h, List.get?_eq_none.mpr (by omega)]
    rfl

/-- Claim C25: for every `O=` payload that begins with `?`, `parseO` returns
with no signal emitted and a state that differs from the one it was called in
only in the fix type, which is Invalid. -/
theorem parseO_no_fix (now : QDateTime) (s : QString) (d : Device)
    (h : s.head? = some '?') :
    parseO now s d = Run.done [] { d with cur_fixtype := FixType.FixInvalid } := by
  cases s with
  | nil => simp at h
  | cons c t =>
    simp only [List.head?_cons, Option.some.injEq] at h
    subst h
    simp only [parseO, setFixType, bind_run, pure_run, modify_run, if_true]

/-- Witness of C25, on the payload `?`. -/
theorem parseO_no_fix_witness :
    parseO none (qs "?") Device.init =
      Run.done [] { Device.init with cur_fixtype := FixType.FixInvalid } :=
  parseO_no_fix none (qs "?") Device.init (by decide)

/-- Claim C26: for every `O=` payload that does not begin with `?` and has at
least 5 non-empty space-separated fields, `parseO` returns having set the fix
type 3D, the status Active, the latitude to field 3, the longitude to field 4,
and the altitude, heading and speed to fields 5, 7 and 9 (0 for a field the
payload does not have); it emits one position signal carrying these values and
the current time, followed by the status signal. -/
theorem parseO_report (now : QDateTime) (s : QString) (d : Device)
    (h0 : s.head? ≠ some '?') (h5 : 5 ≤ (splitSkip ' ' s).length) :
    parseO now s d =
      Run.done
        [Signal.updatePosition (oField s 3) (oField s 4) now (oField s 5) (oField s 9)
          (oField s 7), Signal.updateStatus]
        { d with
          cur_fixtype := FixType.Fix3D
          cur_fixstatus := FixStatus.StatusActive
          cur_latitude := oField s 3
          cur_longitude := oField s 4
          cur_altitude := oField s 5
          cur_heading := oField s 7
          cur_speed := oField s 9 } := by
  cases s with
  | nil =>
    have : (splitSkip ' ' ([] : QString)).length ≤ 1 := by decide
    omega
  | cons c t =>
    have hc : ¬ c = '?' := by
      intro hc
      apply h0
      rw [hc]
      rfl
    have hlen : ¬ (splitSkip ' ' (c :: t)).length < 5 := by omega
    have h3 := get_some_getD (splitSkip ' ' (c :: t)) 3 (by omega)
    have h4 := get_some_getD (splitSkip ' ' (c :: t)) 4 (by omega)
    simp only [parseO, setFixType, setFixStatus, setLatitude, setLongitude, setHeading,
      setAltitude, setSpeed, bind_run, pure_run, modify_run, hc, hlen, if_false,
      tokenAt_lt _ 3 _ (show 3 < (splitSkip ' ' (c :: t)).length by omega),
      tokenAt_lt _ 4 _ (show 4 < (splitSkip ' ' (c :: t)).length by omega),
      optionalField_run, oField, h3, h4]

/-- Witness of C26, on a report of thirteen fields: latitude 46.498,
longitude 7.568. -/
theorem parseO_report_witness :
    oReport.head? ≠ some '?' ∧ 5 ≤ (splitSkip ' ' oReport).length ∧
      (parseO none oReport Device.init).value.map List.length = some 2 ∧
      (parseO none oReport Device.init).dev.cur_latitude = oField oReport 3 ∧
      (parseO none oReport Device.init).dev.cur_fixtype = FixType.Fix3D := by
  have h := parseO_report none oReport Device.init (by decide) (by decide)
  refine ⟨by decide, by decide, ?_, ?_, ?_⟩ <;> rw [h] <;> rfl

/-! ## The cardinal of the latitude -/

/-- Claim C27, evaluated on the code: `parseRMC` accepts an RMC sentence with
hemisphere fields `N` and `E` and stores a positive latitude, yet the latitude
cardinal afterwards is East, and the longitude cardinal is the one the state
had before. -/
theorem parseRMC_east_in_latitude_slot :
    (parseRMC rmcMillis Device.init).value = some true ∧
      field rmcMillis 4 = qs "N" ∧ field rmcMillis 6 = qs "E" ∧
      (parseRMC rmcMillis Device.init).dev.cur_latitude = 48 + 7.038 / 60 ∧
      (parseRMC rmcMillis Device.init).dev.cur_latCardinal = CardinalDirection.CardinalEast ∧
      (parseRMC rmcMillis Device.init).dev.cur_longCardinal = Device.init.cur_longCardinal := by
  refine ⟨by decide, by decide, by decide, ?_, by decide, by decide⟩
  rw [parseRMC_run rmcMillis Device.init (by decide) (by decide)]
  have h : (rmcResult rmcMillis Device.init).cur_latitude =
      if field rmcMillis 4 ≠ qs "N" then
        -(toDouble (left 2 (field rmcMillis 3)) + toDouble (mid 2 (field rmcMillis 3)) / 60)
      else toDouble (left 2 (field rmcMillis 3)) + toDouble (mid 2 (field rmcMillis 3)) / 60 :=
    rfl
  show (rmcResult rmcMillis Device.init).cur_latitude = _
  rw [h, if_neg (by decide), show left 2 (field rmcMillis 3) = qs "48" by decide,
    show mid 2 (field rmcMillis 3) = qs "07.038" by decide, toDouble_48, toDouble_07038]

/-! ## Degrees, minutes and seconds -/

/-- What the accessors compute from the magnitude `a` of a stored double
below `2 ^ 31`: the three conversions to `int` are defined. -/
theorem dms_in_range (a : ℚ) (ha : 0 ≤ a) (hd : toBinary64 a = a) (hr : a < 2147483648) :
    inIntRange (truncToInt a) = true ∧ inIntRange (truncToInt (minutesValue a)) = true ∧
      inIntRange (truncToInt (secondsValue a)) = true := by
  obtain ⟨hm0, hm1, hs0, hs1, hd1, _, _, _⟩ := dms_double a ha hd
  obtain ⟨hd0, _, _⟩ := truncToInt_bounds a ha
  have hlt : truncToInt a < 2147483648 := by
    have : (truncToInt a : ℚ) < 2147483648 := by linarith
    exact_mod_cast this
  unfold inIntRange
  simp only [decide_eq_true_eq]
  refine ⟨⟨by omega, by omega⟩, ⟨by omega, by omega⟩, ⟨by omega, by omega⟩⟩

/-- The runs of the three accessors of a coordinate, from the double `x` the
accessor of the coordinate returns. -/
theorem latAccessors_run (d : Device) (hd : toBinary64 d.cur_latitude = d.cur_latitude)
    (hr : |d.cur_latitude| < 2147483648) :
    latDegrees d = Run.done (truncToInt |d.cur_latitude|) d ∧
      latMinutes d = Run.done (truncToInt (minutesValue |d.cur_latitude|)) d ∧
      latSeconds d = Run.done (truncToInt (secondsValue |d.cur_latitude|)) d := by
  have hda : toBinary64 |d.cur_latitude| = |d.cur_latitude| := roundBinary_abs 53 (-1074) _ hd
  obtain ⟨h1, h2, h3⟩ := dms_in_range |d.cur_latitude| (abs_nonneg _) hda hr
  have hdeg : latDegrees d = Run.done (truncToInt |d.cur_latitude|) d := by
    simp only [latDegrees, latitude, bind_run, hd]
    exact intOfDouble_run _ d h1
  have hmin : intOfDouble (minutesValue |d.cur_latitude|) d =
      Run.done (truncToInt (minutesValue |d.cur_latitude|)) d := intOfDouble_run _ d h2
  refine ⟨hdeg, ?_, ?_⟩
  · simp only [latMinutes, latitude, bind_run, hd, hdeg]
    exact hmin
  · simp only [latSeconds, latitude, bind_run, hd, hdeg]
    unfold minutesValue at hmin
    rw [hmin]
    exact intOfDouble_run _ d h3

theorem longAccessors_run (d : Device) (hd : toBinary64 d.cur_longitude = d.cur_longitude)
    (hr : |d.cur_longitude| < 2147483648) :
    longDegrees d = Run.done (truncToInt |d.cur_longitude|) d ∧
      longMinutes d = Run.done (truncToInt (minutesValue |d.cur_longitude|)) d ∧
      longSeconds d = Run.done (truncToInt (secondsValue |d.cur_longitude|)) d := by
  have hda : toBinary64 |d.cur_longitude| = |d.cur_longitude| := roundBinary_abs 53 (-1074) _ hd
  obtain ⟨h1, h2, h3⟩ := dms_in_range |d.cur_longitude| (abs_nonneg _) hda hr
  have hdeg : longDegrees d = Run.done (truncToInt |d.cur_longitude|) d := by
    simp only [longDegrees, longitude, bind_run, hd]
    exact intOfDouble_run _ d h1
  have hmin : intOfDouble (minutesValue |d.cur_longitude|) d =
      Run.done (truncToInt (minutesValue |d.cur_longitude|)) d := intOfDouble_run _ d h2
  refine ⟨hdeg, ?_, ?_⟩
  · simp only [longMinutes, longitude, bind_run, hd, hdeg]
    exact hmin
  · simp only [longSeconds, longitude, bind_run, hd, hdeg]
    unfold minutesValue at hmin
    rw [hmin]
    exact intOfDouble_run _ d h3

/-- Claim C28 as stated fails: the accessors compute on doubles.  With the
double nearest to 0.3 as the stored latitude, sixty times the fraction is
rounded up to 18, so the accessors return 0 degrees, 18 minutes and 0 seconds,
and 0 + 18/60 + 0/3600 is above the stored value. -/
theorem dms_above_stored_value :
    toBinary64 deviceThreeTenths.cur_latitude = deviceThreeTenths.cur_latitude ∧
      latDegrees deviceThreeTenths = Run.done 0 deviceThreeTenths ∧
      latMinutes deviceThreeTenths = Run.done 18 deviceThreeTenths ∧
      latSeconds deviceThreeTenths = Run.done 0 deviceThreeTenths ∧
      |deviceThreeTenths.cur_latitude| < (0 : ℚ) + 18 / 60 + 0 / 3600 := by
  have hv : deviceThreeTenths.cur_latitude = 5404319552844595 / 2 ^ 54 := toBinary64_three_tenths
  have hd : toBinary64 deviceThreeTenths.cur_latitude = deviceThreeTenths.cur_latitude := by
    rw [hv]
    have h := toBinary64_dyadic 5404319552844595 54 (by norm_num) (by norm_num)
    simpa using h
  have habs : |deviceThreeTenths.cur_latitude| = 5404319552844595 / 2 ^ 54 := by
    rw [hv]
    exact abs_of_nonneg (by norm_num)
  obtain ⟨h1, h2, h3⟩ := latAccessors_run deviceThreeTenths hd (by rw [habs]; norm_num)
  rw [habs] at h1 h2 h3
  rw [minutesValue_three_tenths] at h2
  rw [secondsValue_three_tenths] at h3
  have t0 : truncToInt (5404319552844595 / 2 ^ 54 : ℚ) = 0 :=
    truncToInt_lt_one _ (by norm_num) (by norm_num)
  have t18 : truncToInt (18 : ℚ) = 18 := by
    have := truncToInt_natCast 18
    simpa using this
  have t00 : truncToInt (0 : ℚ) = 0 := by
    have := truncToInt_natCast 0
    simpa using this
  rw [t0] at h1
  rw [t18] at h2
  rw [t00] at h3
  refine ⟨hd, h1, h2, h3, ?_⟩
  rw [habs]
  norm_num

/-- Claim C28, amended: for every state whose stored latitude and longitude
are doubles of magnitude below 2^31, the degree, minute and second accessors
return with the state unchanged, their results depend on the stored latitude
(longitude) alone, the minutes and the seconds lie between 0 and 59, the
degrees are the integer part of the magnitude, and degrees + minutes/60 +
seconds/3600 is at most 2^-53 above the magnitude of the stored value, which
is less than degrees + minutes/60 + (seconds + 1)/3600 + 2^-53. -/
theorem dms_accessors (d : Device)
    (hlat : toBinary64 d.cur_latitude = d.cur_latitude) (hlatr : |d.cur_latitude| < 2147483648)
    (hlon : toBinary64 d.cur_longitude = d.cur_longitude)
    (hlonr : |d.cur_longitude| < 2147483648) :
    (∃ deg m s : Int,
      latDegrees d = Run.done deg d ∧ latMinutes d = Run.done m d ∧
      latSeconds d = Run.done s d ∧
      (∀ d2 : Device, d2.cur_latitude = d.cur_latitude →
        (latDegrees d2).value = some deg ∧ (latMinutes d2).value = some m ∧
          (latSeconds d2).value = some s) ∧
      0 ≤ m ∧ m ≤ 59 ∧ 0 ≤ s ∧ s ≤ 59 ∧
      (deg : ℚ) ≤ |d.cur_latitude| ∧ |d.cur_latitude| < (deg : ℚ) + 1 ∧
      (deg : ℚ) + (m : ℚ) / 60 + (s : ℚ) / 3600 - 1 / 2 ^ 53 ≤ |d.cur_latitude| ∧
      |d.cur_latitude| < (deg : ℚ) + (m : ℚ) / 60 + ((s : ℚ) + 1) / 3600 + 1 / 2 ^ 53) ∧
    (∃ deg m s : Int,
      longDegrees d = Run.done deg d ∧ longMinutes d = Run.done m d ∧
      longSeconds d = Run.done s d ∧
      (∀ d2 : Device, d2.cur_longitude = d.cur_longitude →
        (longDegrees d2).value = some deg ∧ (longMinutes d2).value = some m ∧
          (longSeconds d2).value = some s) ∧
      0 ≤ m ∧ m ≤ 59 ∧ 0 ≤ s ∧ s ≤ 59 ∧
      (deg : ℚ) ≤ |d.cur_longitude| ∧ |d.cur_longitude| < (deg : ℚ) + 1 ∧
      (deg : ℚ) + (m : ℚ) / 60 + (s : ℚ) / 3600 - 1 / 2 ^ 53 ≤ |d.cur_longitude| ∧
      |d.cur_longitude| < (deg : ℚ) + (m : ℚ) / 60 + ((s : ℚ) + 1) / 3600 + 1 / 2 ^ 53) := by
  constructor
  · have hda := roundBinary_abs 53 (-1074) _ hlat
    obtain ⟨h1, h2, h3, h4, h5, h6, h7, h8⟩ := dms_double |d.cur_latitude| (abs_nonneg _) hda
    obtain ⟨r1, r2, r3⟩ := latAccessors_run d hlat hlatr
    refine ⟨_, _, _, r1, r2, r3, ?_, h1, h2, h3, h4, h5, h6, h7, h8⟩
    intro d2 h
    obtain ⟨q1, q2, q3⟩ := latAccessors_run d2 (by rw [h]; exact hlat) (by rw [h]; exact hlatr)
    rw [q1, q2, q3, h]
    exact ⟨rfl, rfl, rfl⟩
  · have hda := roundBinary_abs 53 (-1074) _ hlon
    obtain ⟨h1, h2, h3, h4, h5, h6, h7, h8⟩ := dms_double |d.cur_longitude| (abs_nonneg _) hda
    obtain ⟨r1, r2, r3⟩ := longAccessors_run d hlon hlonr
    refine ⟨_, _, _, r1, r2, r3, ?_, h1, h2, h3, h4, h5, h6, h7, h8⟩
    intro d2 h
    obtain ⟨q1, q2, q3⟩ := longAccessors_run d2 (by rw [h]; exact hlon) (by rw [h]; exact hlonr)
    rw [q1, q2, q3, h]
    exact ⟨rfl, rfl, rfl⟩

/-- Witness of C28 amended, on a state with the stored latitude 48.5 and the
stored longitude 0, both doubles. -/
theorem dms_accessors_witness :
    toBinary64 deviceLat485.cur_latitude = deviceLat485.cur_latitude ∧
      |deviceLat485.cur_latitude| < 2147483648 ∧
      ∃ deg m s : Int, latDegrees deviceLat485 = Run.done deg deviceLat485 ∧
        latMinutes deviceLat485 = Run.done m deviceLat485 ∧
        latSeconds deviceLat485 = Run.done s deviceLat485 ∧ 0 ≤ m ∧ m ≤ 59 := by
  have hv : deviceLat485.cur_latitude = 97 / 2 := rfl
  have hw : deviceLat485.cur_longitude = 0 := rfl
  have hd : toBinary64 deviceLat485.cur_latitude = deviceLat485.cur_latitude := by
    rw [hv]
    have h := toBinary64_dyadic 97 1 (by norm_num) (by norm_num)
    simpa using h
  have hr : |deviceLat485.cur_latitude| < 2147483648 := by
    rw [hv, abs_of_nonneg (by norm_num)]
    norm_num
  have hd0 : toBinary64 deviceLat485.cur_longitude = deviceLat485.cur_longitude := by
    rw [hw]
    exact roundBinary_zero 53 (-1074)
  have hr0 : |deviceLat485.cur_longitude| < 2147483648 := by
    rw [hw]
    norm_num
  obtain ⟨⟨deg, m, s, h1, h2, h3, _, h5, h6, _⟩, _⟩ := dms_accessors deviceLat485 hd hr hd0 hr0
  exact ⟨hd, hr, deg, m, s, h1, h2, h3, h5, h6⟩

/-- Claim C29, evaluated on the code: on a frame with two `$`, each of the
five decoders returns false with the hold count of the lock one above its
value on entry, while the GGA sentence of the source's comment is decoded with
the hold count back at its value on entry. -/
theorem decoders_keep_lock_on_rejection :
    countChar '$' ggaTwice = 2 ∧
      (∀ k : Sentence, (decoder k ggaTwice Device.init).value = some false ∧
        (decoder k ggaTwice Device.init).dev.lockDepth = Device.init.lockDepth + 1) ∧
      (parseGGA ggaExample Device.init).value = some true ∧
      (parseGGA ggaExample Device.init).dev.lockDepth = Device.init.lockDepth := by
  refine ⟨by decide, ?_, by decide, by decide⟩
  intro k
  cases k <;> decide

theorem parseY_count (s : QString) (d : Device) (hfit : payloadFits s = true) :
    (parseY s d).dev.cur_numSatellites = ((splitSkip ':' s).length : Int) := by
  obtain ⟨d1, hrun, _, _⟩ := yLoop_run ((splitSkip ':' s).drop 1)
    { d with satArray := fun _ => ⟨0, 0, 0⟩ } hfit
  simp only [parseY, bind_run, zeroSatArray, modify_run, hrun, setNumSatellites, pure_run]
  rfl

/-- Claim C30, evaluated on the code: on a `Y=` payload of a header and two
satellite records, `parseY` stores the satellite count 3. -/
theorem parseY_count_includes_header :
    ((splitSkip ':' yTwoRecords).drop 1).length = 2 ∧
      (yRecords yTwoRecords).length = 2 ∧
      (parseY yTwoRecords Device.init).dev.cur_numSatellites = 3 := by
  refine ⟨by decide, ?_, ?_⟩
  · decide
  · rw [parseY_count _ _ payloadFits_yTwoRecords]
    decide

/-! ## The buffer when onDataAvailable returns -/

theorem scanTerminator_eq_length : ∀ l : QString, scanTerminator l = l.length →
    ∀ x ∈ l, isTerminator x = false := by
  intro l
  induction l with
  | nil => intro _ x hx; exact absurd hx (List.not_mem_nil _)
  | cons y ys ih =>
    intro h x hx
    unfold scanTerminator at h
    by_cases hy : isTerminator y = true
    · rw [if_pos hy] at h
      simp at h
    · rw [if_neg hy] at h
      have h1 : scanTerminator ys = ys.length := by simpa using h
      rcases List.mem_cons.mp hx with hxy | hxy
      · rw [hxy]
        simpa using hy
      · exact ih h1 x hxy

/-- The buffer the framing loop leaves, when the fuel exceeds the length of
the buffer it starts with: empty, or beginning with `$` and without a line
terminator. -/
theorem frameLoop_buffer : ∀ (fuel : Nat) (b : QString), b.length < fuel →
    (frameLoop fuel b).2 = [] ∨
      ((frameLoop fuel b).2.head? = some '$' ∧
        ∀ x ∈ (frameLoop fuel b).2, isTerminator x = false) := by
  intro fuel
  induction fuel with
  | zero => intro b h; omega
  | succ fuel ih =>
    intro b h
    unfold frameLoop
    by_cases h0 : b.length = 0
    · left
      simp only [h0, if_true]
      exact List.length_eq_zero.mp h0
    · simp only [h0, if_false]
      cases hi : indexOf '$' b with
      | none => left; rfl
      | some i =>
        simp only
        obtain ⟨r, hr⟩ := indexOf_some_drop '$' b i hi
        by_cases hj : scanTerminator (b.drop i) = (b.drop i).length
        · right
          simp only [hj, if_true]
          refine ⟨by rw [hr]; rfl, scanTerminator_eq_length _ hj⟩
        · simp only [hj, if_false]
          have hpos : 0 < scanTerminator (b.drop i) := by
            rw [hr]
            simp [scanTerminator, isTerminator]
          have hlen : ((b.drop i).drop (scanTerminator (b.drop i))).length < b.length := by
            simp only [List.length_drop]
            omega
          exact ih _ (by omega)

/-- Claim C31: for every buffer held before and every chunk read, the buffer
held when `onDataAvailable` returns is empty, or begins with `$` and holds
neither a line feed (code 10) nor a carriage return (code 13). -/
theorem buffer_after_call (Buffer readAll : QString) :
    (onDataAvailable Buffer readAll).2 = [] ∨
      ((onDataAvailable Buffer readAll).2.head? = some '$' ∧
        ∀ x ∈ (onDataAvailable Buffer readAll).2, x.toNat ≠ 10 ∧ x.toNat ≠ 13) := by
  rcases frameLoop_buffer ((appendCapped Buffer (retained readAll)).length + 1)
    (appendCapped Buffer (retained readAll)) (Nat.lt_succ_self _) with h | ⟨h1, h2⟩
  · left
    exact h
  · right
    refine ⟨h1, fun x hx => ?_⟩
    have := h2 x hx
    simpa [isTerminator] using this

/-- Claim C32, evaluated on the code: read in two calls, the chunk `$` line
feed and a chunk with one sentence hand over the frames `$` line feed and
`$GPGGA`; read in one call, the same bytes hand over the whole buffer as the
first frame.  Both leave the buffer empty. -/
theorem frames_depend_on_chunking :
    chunkMarkerOnly.length + chunkSentence.length ≤ 4096 ∧
      ingestAll [] [chunkMarkerOnly, chunkSentence] = ([qs "$\n", qs "$GPGGA"], []) ∧
      onDataAvailable [] (chunkMarkerOnly ++ chunkSentence) =
        ([qs "$\n$GPGGA,1\n", qs "$GPGGA"], []) := by
  decide

/-! ## The sentence buffer of the file device -/

/-- At the end of the file, with a byte in `bufferChar` that is neither kept
nor a line terminator, a round of the loop changes nothing: the loop does not
end, whatever the fuel. -/
theorem collectLoop_spins (c : Collector) (h1 : c.theFile = [])
    (h2 : c.bufferChar = Char.ofNat 1) : ∀ fuel : Nat, collectLoop fuel c = none := by
  intro fuel
  induction fuel with
  | zero => rfl
  | succ fuel ih =>
    have hr : readChar c = c := by
      unfold readChar
      rw [h1]
    have hk : ((Char.ofNat 1).toNat ≠ 0 &&
        (isalnum (Char.ofNat 1) || isspace (Char.ofNat 1) || ispunct (Char.ofNat 1))) = false := by
      decide
    have hgo : (Char.ofNat 1).toNat ≠ 10 ∧ (Char.ofNat 1).toNat ≠ 13 := by decide
    unfold collectLoop
    simp only [hr, h2, hk, Bool.false_eq_true, false_and, if_false, hgo, and_self, if_true]
    rw [← h2, if_pos (by rw [h2]; exact hgo)]
    exact ih

set_option maxRecDepth 8000 in
/-- Claim C33, evaluated on the code: for a file whose first line is `$`, 98
letters and a line feed, the collection stores the final NUL at index 100,
outside the 100 bytes (one letter fewer and the NUL goes to index 99); for a
file that ends after `$A` the loop stores `A` over and over until it stores at
index 100; for a file that ends after `$` and a control byte the loop never
ends. -/
theorem collection_leaves_buffer_or_spins :
    fileLongLine.length = 100 ∧
      (collectSentence 200 fileLongLine ' ' blankBuffer).map Collected.outsideAt =
        some (some 100) ∧
      (collectSentence 200 fileLine99 ' ' blankBuffer).map Collected.lastIndex =
        some (some 98) ∧
      (collectSentence 200 fileEndsAfterLetter ' ' blankBuffer).map Collected.outsideAt =
        some (some 100) ∧
      ∀ fuel : Nat, collectSentence fuel fileEndsEarly ' ' blankBuffer = none := by
  refine ⟨by decide, by rfl, by rfl, by rfl, fun fuel => ?_⟩
  have h : skipLoop fileEndsEarly ' ' = ([Char.ofNat 1], '$') := by decide
  unfold collectSentence
  simp only [h, if_true]
  cases fuel with
  | zero => rfl
  | succ fuel =>
    have hk : ((Char.ofNat 1).toNat ≠ 0 &&
        (isalnum (Char.ofNat 1) || isspace (Char.ofNat 1) || ispunct (Char.ofNat 1))) = false := by
      decide
    have hgo : (Char.ofNat 1).toNat ≠ 10 ∧ (Char.ofNat 1).toNat ≠ 13 := by decide
    unfold collectLoop
    simp only [readChar, hk, Bool.false_eq_true, false_and, if_false]
    rw [if_pos hgo, collectLoop_spins _ rfl rfl fuel]

/-! ## Segments left in the layer by the GPX import -/

theorem toDouble_zero : toDouble (qs "0") = 0 := by
  have : readDecimal (qs "0") = some ⟨false, 0, 0, 0, 0⟩ := by decide
  simp only [toDouble, toDoubleOk, this, Option.map_some', Option.getD_some, Decimal.value]
  norm_num

theorem toDouble_five : toDouble (qs "5") = 5 := by
  have : readDecimal (qs "5") = some ⟨false, 5, 0, 0, 0⟩ := by decide
  simp only [toDouble, toDoubleOk, this, Option.map_some', Option.getD_some, Decimal.value]
  norm_num

theorem startsNewSegment_none (env : Settings) (Pt : TrackNode) :
    startsNewSegment env Pt none = false := rfl

theorem startsNewSegment_sample :
    startsNewSegment sampleSettings ⟨⟨0, 5⟩⟩ (some ⟨⟨0, 0⟩⟩) = true := by
  simp only [startsNewSegment, sampleSettings, flatDistance, decide_eq_true_eq]
  norm_num

/-- Claim C34, evaluated on the code: for two points farther apart than the
maximum node distance, `importTrkSeg` leaves two segments in the layer, one
with each point, while `importRte` leaves only the first in the layer: the
segment it made for the second point is in no layer.  For no points at all,
`importTrkSeg` leaves no segment in the layer, while `importRte` leaves the
empty segment, which it has freed, in the layer. -/
theorem importRte_segments_differ :
    layerSegments (importTrkSeg sampleSettings
        [pointElement "trkpt" "0" "0", pointElement "trkpt" "5" "0"] true Import.init) =
        [[⟨⟨0, 0⟩⟩], [⟨⟨0, 5⟩⟩]] ∧
      layerSegments (importRte sampleSettings
        [pointElement "rtept" "0" "0", pointElement "rtept" "5" "0"] true Import.init) =
        [[⟨⟨0, 0⟩⟩]] ∧
      (importRte sampleSettings
        [pointElement "rtept" "0" "0", pointElement "rtept" "5" "0"] true Import.init).segments =
        [[⟨⟨0, 0⟩⟩], [⟨⟨0, 5⟩⟩]] ∧
      segmentsInLayer (importTrkSeg sampleSettings [] true Import.init) = [] ∧
      segmentsInLayer (importRte sampleSettings [] true Import.init) = [0] ∧
      layerSegments (importRte sampleSettings [] true Import.init) = [[]] ∧
      (importRte sampleSettings [] true Import.init).freed = [0] := by
  have h1 : ¬ qs "rtept" = qs "name" := by decide
  have h2 : ¬ qs "rtept" = qs "desc" := by decide
  have hc : sampleSettings.wasCanceled = fun _ => false := rfl
  refine ⟨?_, ?_, ?_, by decide, by decide, by decide, by decide⟩
  · simp [importTrkSeg, trkSegLoop, pointElement, importTrkPt, toDouble_zero, toDouble_five,
      startsNewSegment_sample, hc, allocSegment, layerAdd, segmentAdd, segmentSize,
      layerSegments, segmentsInLayer, Import.init, startsNewSegment_none]
  · simp [importRte, rteLoop, pointElement, importTrkPt, toDouble_zero, toDouble_five,
      startsNewSegment_sample, hc, h1, h2, allocSegment, layerAdd, segmentAdd, segmentSize,
      layerSegments, segmentsInLayer, Import.init, startsNewSegment_none]
  · simp [importRte, rteLoop, pointElement, importTrkPt, toDouble_zero, toDouble_five,
      startsNewSegment_sample, hc, h1, h2, allocSegment, layerAdd, segmentAdd, segmentSize,
      Import.init, startsNewSegment_none]

end Merkaartor
